import Mathlib

/-!
WellClear / DAIDALUS: kinematic integer bands and DCPA urgency

A shallow embedding of `KinematicIntegerBands.cpp` and `DCPAUrgencyStrategy.cpp`.

* C++ `int` is `Int` (the loops count up to `max`, and `max + 1` is assumed not to overflow).
* C++ `double` is `ℚ`: exact arithmetic, `std::ceil` / `std::floor` are `Int.ceil` / `Int.floor`.
* `std::vector<Integerval>` is `List Integerval`; an in-place update of an element is `List.set`.
* Classes whose code is outside the two source files (vectors, detectors, the trajectory
  sampler, the repulsive criteria, traffic states) are parameters, bundled in structures.
-/

namespace WellClear

/-! ## Data model -/

/-- Closed integer interval `[lb, ub]` of sample indices (`Integerval`). -/
structure Integerval where
  lb : Int
  ub : Int
deriving DecidableEq, Repr

/-- Element `l[i]` of a vector (the default is returned out of range, which the code never does). -/
def at_ (l : List Integerval) (i : Nat) : Integerval := l.getD i ⟨0, 0⟩

/-- The assignment `l[i].lb = v`. -/
def set_lb (l : List Integerval) (i : Nat) (v : Int) : List Integerval :=
  l.set i { at_ l i with lb := v }

/-- The assignment `l[i].ub = v`. -/
def set_ub (l : List Integerval) (i : Nat) (v : Int) : List Integerval :=
  l.set i { at_ l i with ub := v }

/-! ## Interval algebra -/

/-- Source function `KinematicIntegerBands::append_intband(l, r)`: both vectors are updated in
place; the pair returned is `(l, r)` after the call. -/
def append_intband (l r : List Integerval) : List Integerval × List Integerval :=
  let last : Nat := l.length - 1
  if !l.isEmpty && !r.isEmpty && decide ((at_ r 0).lb - (at_ l last).ub ≤ 1) then
    let l1 := set_ub l last (at_ r 0).ub
    let r1 := r.eraseIdx 0
    (l1 ++ r1, r1)
  else
    (l ++ r, r)

/-- One iteration of the loop of `neg`, at index `i`. -/
def neg_step (l : List Integerval) (mid : Nat) (odd : Bool) (i : Nat) : List Integerval :=
  if i == mid && odd then
    let x := (at_ l i).lb
    let l := set_lb l i (-(at_ l i).ub)
    set_ub l i (-x)
  else
    let i2 := l.length - i - 1
    let x := (at_ l i).lb
    let l := set_lb l i (-(at_ l i2).ub)
    let l := set_ub l i2 (-x)
    let x := (at_ l i).ub
    let l := set_ub l i (-(at_ l i2).lb)
    set_lb l i2 (-x)

/-- The loop `for (int i = 0; i <= mid; ++i)` of `neg`: `n` iterations remain, the next is `i`. -/
def neg_loop (mid : Nat) (odd : Bool) : Nat → Nat → List Integerval → List Integerval
  | 0, _, l => l
  | n + 1, i, l => neg_loop mid odd n (i + 1) (neg_step l mid odd i)

/-- Source function `KinematicIntegerBands::neg(l)`: negate, flip and reverse in place. -/
def neg (l : List Integerval) : List Integerval :=
  if l.isEmpty then l
  else
    let mid : Nat := (l.length - 1) / 2
    let odd : Bool := l.length % 2 != 0
    neg_loop mid odd (mid + 1) 0 l

/-! ## External collaborators -/

/-- Conflict oracle (`Detection3D`): `violation` is a loss of separation now, `conflict` a conflict
within a time window, `conflictDetection` the `conflict()` flag of the `ConflictData` returned by
`conflictDetection`. -/
structure Detection3D (V : Type) where
  violation : V → V → V → V → Bool
  conflict : V → V → V → V → ℚ → ℚ → Bool
  conflictDetection : V → V → V → V → ℚ → ℚ → Bool

/-- What `KinematicIntegerBands` uses and does not define: the pure virtual `trajectory`, the
ownship-relative state of an intruder, `TrafficState::isValid`, the vector operations
`a.Sub(b)`, `a.Scal(k)`, `a.ScalAdd(k, b)` and the two criteria of `CriteriaCore`. -/
structure Kit (V Own Ac : Type) where
  trajectory : Own → ℚ → Bool → V × V
  traffic_s : Own → Ac → V
  traffic_v : Own → Ac → V
  isValid : Ac → Bool
  Sub : V → V → V
  Scal : V → ℚ → V
  ScalAdd : V → ℚ → V → V
  horizontal_new_repulsive_criterion : V → V → V → V → Int → Bool
  vertical_new_repulsive_criterion : V → V → V → V → Int → Bool

/-- The loop `for (int k = ..; k <= ..; ++k) if (p k) return k; return -1;` with `n` iterations
remaining, the next at `k`. -/
def first_index (p : Int → Bool) : Nat → Int → Int
  | 0, _ => -1
  | n + 1, k => if p k then k else first_index p n (k + 1)

/-- The loop `for (int k = ..; k <= ..; ++k) if (p k) return true; return false;` with `n`
iterations remaining, the next at `k`. -/
def exists_index (p : Int → Bool) : Nat → Int → Bool
  | 0, _ => false
  | n + 1, k => if p k then true else exists_index p n (k + 1)

/-- The loop of `traj_conflict_only_bands` on the state `(first, l)`, where `conf k` is
`any_conflict` at `tstep * k`: `n` iterations remain, the next at `k`. -/
def traj_loop (conf : Int → Bool) : Nat → Int → Int → List Integerval → Int × List Integerval
  | 0, _, first, l => (first, l)
  | n + 1, k, first, l =>
    if first ≥ 0 ∧ !conf k then traj_loop conf n (k + 1) first l
    else if first ≥ 0 then
      let nl : List Integerval := [⟨first, k - 1⟩]
      traj_loop conf n (k + 1) (-1) (l ++ nl)
    else if !conf k then traj_loop conf n (k + 1) k l
    else traj_loop conf n (k + 1) first l

/-- The loop of `first_green`: `bad k` is the first condition (return `-1`), `free k` the second
(return `k`); `n` iterations remain, the next at `k`. -/
def green_loop (bad free : Int → Bool) : Nat → Int → Int
  | 0, _ => -1
  | n + 1, k => if bad k then -1 else if free k then k else green_loop bad free n (k + 1)

section Bands

variable {V Own Ac : Type} (K : Kit V Own Ac)

/-! ## Predicates at one sample -/

/-- Source function `KinematicIntegerBands::any_los_aircraft`. -/
def any_los_aircraft (det : Detection3D V) (trajdir : Bool) (tsk : ℚ)
    (ownship : Own) (traffic : List Ac) : Bool :=
  traffic.any fun ac =>
    let sovot := K.trajectory ownship tsk trajdir
    let sot := sovot.1
    let vot := sovot.2
    let si := K.traffic_s ownship ac
    let vi := K.traffic_v ownship ac
    let sit := K.ScalAdd vi tsk si
    det.violation sot vot sit vi

/-- Source function `KinematicIntegerBands::cd_future_traj`. -/
def cd_future_traj (det : Detection3D V) (B T : ℚ) (trajdir : Bool) (t : ℚ)
    (ownship : Own) (ac : Ac) : Bool :=
  if t > T ∨ B > T then false
  else
    let sovot := K.trajectory ownship t trajdir
    let sot := sovot.1
    let vot := sovot.2
    let si := K.traffic_s ownship ac
    let vi := K.traffic_v ownship ac
    let sit := K.ScalAdd vi t si
    if B > t then det.conflict sot vot sit vi (B - t) (T - t)
    else det.conflict sot vot sit vi 0 (T - t)

/-- Source function `KinematicIntegerBands::any_conflict_aircraft`. -/
def any_conflict_aircraft (det : Detection3D V) (B T : ℚ) (trajdir : Bool) (tsk : ℚ)
    (ownship : Own) (traffic : List Ac) : Bool :=
  traffic.any fun ac => cd_future_traj K det B T trajdir tsk ownship ac

/-- Source function `KinematicIntegerBands::any_conflict`; a null `recovery_det` is `none`. -/
def any_conflict (conflict_det : Detection3D V) (recovery_det : Option (Detection3D V))
    (B T B2 T2 : ℚ) (trajdir : Bool) (tsk : ℚ) (ownship : Own) (traffic : List Ac) : Bool :=
  any_conflict_aircraft K conflict_det B T trajdir tsk ownship traffic ||
    (match recovery_det with
     | none => false
     | some rd => any_conflict_aircraft K rd B2 T2 trajdir tsk ownship traffic)

/-- Source function `KinematicIntegerBands::any_conflict_step`. -/
def any_conflict_step (det : Detection3D V) (tstep B T : ℚ) (trajdir : Bool) (max : Int)
    (ownship : Own) (traffic : List Ac) : Bool :=
  exists_index (fun k => any_conflict_aircraft K det B T trajdir (tstep * k) ownship traffic)
    (max + 1).toNat 0

/-! ## Repulsion -/

/-- Source function `KinematicIntegerBands::linvel`. -/
def linvel (ownship : Own) (tstep : ℚ) (trajdir : Bool) (k : Int) : V :=
  let s1 := (K.trajectory ownship (((k + 1 : Int) : ℚ) * tstep) trajdir).1
  let s0 := (K.trajectory ownship ((k : ℚ) * tstep) trajdir).1
  K.Scal (K.Sub s1 s0) (1 / tstep)

/-- Source function `KinematicIntegerBands::repulsive_at`. -/
def repulsive_at (tstep : ℚ) (trajdir : Bool) (k : Int) (ownship : Own) (repac : Ac)
    (epsh : Int) : Bool :=
  if k = 0 then true
  else
    let sovo := K.trajectory ownship 0 trajdir
    let so := sovo.1
    let vo := sovo.2
    let si := K.traffic_s ownship repac
    let vi := K.traffic_v ownship repac
    let rep : Bool :=
      if k = 1 then
        K.horizontal_new_repulsive_criterion (K.Sub so si) vo vi (linvel K ownship tstep trajdir 0) epsh
      else true
    if rep then
      let sovot := K.trajectory ownship ((k : ℚ) * tstep) trajdir
      let sot := sovot.1
      let vot := sovot.2
      let sit := K.ScalAdd vi ((k : ℚ) * tstep) si
      let st := K.Sub sot sit
      let vop := linvel K ownship tstep trajdir (k - 1)
      let vok := linvel K ownship tstep trajdir k
      K.horizontal_new_repulsive_criterion st vop vi vot epsh &&
        K.horizontal_new_repulsive_criterion st vot vi vok epsh &&
        K.horizontal_new_repulsive_criterion st vop vi vok epsh
    else false

/-- Source function `KinematicIntegerBands::first_nonrepulsive_step`. -/
def first_nonrepulsive_step (tstep : ℚ) (trajdir : Bool) (max : Int) (ownship : Own)
    (repac : Ac) (epsh : Int) : Int :=
  first_index (fun k => !repulsive_at K tstep trajdir k ownship repac epsh) (max + 1).toNat 0

/-- Source function `KinematicIntegerBands::vert_repul_at`. -/
def vert_repul_at (tstep : ℚ) (trajdir : Bool) (k : Int) (ownship : Own) (repac : Ac)
    (epsv : Int) : Bool :=
  if k = 0 then true
  else
    let sovo := K.trajectory ownship 0 trajdir
    let so := sovo.1
    let vo := sovo.2
    let si := K.traffic_s ownship repac
    let vi := K.traffic_v ownship repac
    let rep : Bool :=
      if k = 1 then
        K.vertical_new_repulsive_criterion (K.Sub so si) vo vi (linvel K ownship tstep trajdir 0) epsv
      else true
    if rep then
      let sovot := K.trajectory ownship ((k : ℚ) * tstep) trajdir
      let sot := sovot.1
      let vot := sovot.2
      let sit := K.ScalAdd vi ((k : ℚ) * tstep) si
      let st := K.Sub sot sit
      let vop := linvel K ownship tstep trajdir (k - 1)
      let vok := linvel K ownship tstep trajdir k
      K.vertical_new_repulsive_criterion st vop vi vot epsv &&
        K.vertical_new_repulsive_criterion st vot vi vok epsv &&
        K.vertical_new_repulsive_criterion st vop vi vok epsv
    else false

/-- Source function `KinematicIntegerBands::first_nonvert_repul_step`. -/
def first_nonvert_repul_step (tstep : ℚ) (trajdir : Bool) (max : Int) (ownship : Own)
    (repac : Ac) (epsv : Int) : Int :=
  first_index (fun k => !vert_repul_at K tstep trajdir k ownship repac epsv) (max + 1).toNat 0

/-! ## Search indices and bands -/

/-- Source function `KinematicIntegerBands::first_los_step`. -/
def first_los_step (det : Detection3D V) (tstep : ℚ) (trajdir : Bool) (min max : Int)
    (ownship : Own) (traffic : List Ac) : Int :=
  first_index (fun k => any_los_aircraft K det trajdir ((k : ℚ) * tstep) ownship traffic)
    (max + 1 - min).toNat min

/-- Source function `KinematicIntegerBands::first_los_search_index`. -/
def first_los_search_index (conflict_det : Detection3D V) (recovery_det : Option (Detection3D V))
    (tstep B T B2 T2 : ℚ) (trajdir : Bool) (max : Int) (ownship : Own) (traffic : List Ac) : Int :=
  let FirstLosK : Int := Int.ceil (B / tstep)
  let FirstLosN : Int := min (Int.floor (T / tstep)) max
  let FirstLosK2 : Int := Int.ceil (B2 / tstep)
  let FirstLosN2 : Int := min (Int.floor (T2 / tstep)) max
  let FirstLosInit : Int :=
    match recovery_det with
    | some rd => first_los_step K rd tstep trajdir FirstLosK2 FirstLosN2 ownship traffic
    | none => -1
  let FirstLos : Int := first_los_step K conflict_det tstep trajdir FirstLosK FirstLosN ownship traffic
  let LosInitIndex : Int := if FirstLosInit < 0 then max + 1 else FirstLosInit
  let LosIndex : Int := if FirstLos < 0 then max + 1 else FirstLos
  min LosInitIndex LosIndex

/-- Source function `KinematicIntegerBands::bands_search_index`. -/
def bands_search_index (conflict_det : Detection3D V) (recovery_det : Option (Detection3D V))
    (tstep B T B2 T2 : ℚ) (trajdir : Bool) (max : Int) (ownship : Own) (traffic : List Ac)
    (repac : Ac) (epsh epsv : Int) : Int :=
  let usehcrit : Bool := K.isValid repac && epsh != 0
  let usevcrit : Bool := K.isValid repac && epsv != 0
  let FirstLos : Int :=
    first_los_search_index K conflict_det recovery_det tstep B T B2 T2 trajdir max ownship traffic
  let FirstNonHRep : Int :=
    if !usehcrit || FirstLos == 0 then FirstLos
    else first_nonrepulsive_step K tstep trajdir (FirstLos - 1) ownship repac epsh
  let FirstProbHcrit : Int := if FirstNonHRep < 0 then max + 1 else FirstNonHRep
  let FirstProbHL : Int := min FirstLos FirstProbHcrit
  let FirstNonVRep : Int :=
    if !usevcrit || FirstProbHL == 0 then FirstProbHL
    else first_nonvert_repul_step K tstep trajdir (FirstProbHL - 1) ownship repac epsv
  let FirstProbVcrit : Int := if FirstNonVRep < 0 then max + 1 else FirstNonVRep
  min FirstProbHL FirstProbVcrit

/-- Source function `KinematicIntegerBands::traj_conflict_only_bands`: the vector `l` after the
call. -/
def traj_conflict_only_bands (l : List Integerval) (conflict_det : Detection3D V)
    (recovery_det : Option (Detection3D V)) (tstep B T B2 T2 : ℚ) (trajdir : Bool) (max : Int)
    (ownship : Own) (traffic : List Ac) : List Integerval :=
  let st := traj_loop
    (fun k => any_conflict K conflict_det recovery_det B T B2 T2 trajdir (tstep * k) ownship traffic)
    (max + 1).toNat 0 (-1) l
  let first := st.1
  let l := st.2
  if first ≥ 0 then l ++ [⟨first, max⟩] else l

/-- Source function `KinematicIntegerBands::kinematic_bands`: the vector `l` after the call (it
is cleared first, so its value before the call does not matter). -/
def kinematic_bands (conflict_det : Detection3D V) (recovery_det : Option (Detection3D V))
    (tstep B T B2 T2 : ℚ) (trajdir : Bool) (max : Int) (ownship : Own) (traffic : List Ac)
    (repac : Ac) (epsh epsv : Int) : List Integerval :=
  let l : List Integerval := []
  let bsi := bands_search_index K conflict_det recovery_det tstep B T B2 T2 trajdir max ownship
    traffic repac epsh epsv
  if bsi ≠ 0 then
    traj_conflict_only_bands K l conflict_det recovery_det tstep B T B2 T2 trajdir (bsi - 1)
      ownship traffic
  else l

/-- Source function `KinematicIntegerBands::kinematic_bands_combine`: the vector `l` after the
call. -/
def kinematic_bands_combine (conflict_det : Detection3D V) (recovery_det : Option (Detection3D V))
    (tstep B T B2 T2 : ℚ) (maxl maxr : Int) (ownship : Own) (traffic : List Ac)
    (repac : Ac) (epsh epsv : Int) : List Integerval :=
  let l := kinematic_bands K conflict_det recovery_det tstep B T B2 T2 false maxl ownship traffic
    repac epsh epsv
  let r := kinematic_bands K conflict_det recovery_det tstep B T B2 T2 true maxr ownship traffic
    repac epsh epsv
  let l := neg l
  (append_intband l r).1

/-! ## Boolean queries -/

/-- The first condition tested at step `k` in the loop of `first_green` (it returns `-1`). -/
def green_bad (conflict_det : Detection3D V) (recovery_det : Option (Detection3D V))
    (tstep B T B2 T2 : ℚ) (trajdir : Bool) (ownship : Own) (traffic : List Ac)
    (repac : Ac) (epsh epsv : Int) (k : Int) : Bool :=
  let usehcrit : Bool := K.isValid repac && epsh != 0
  let usevcrit : Bool := K.isValid repac && epsv != 0
  let tsk : ℚ := tstep * k
  (decide (tsk ≥ B) && decide (tsk ≤ T) &&
      any_los_aircraft K conflict_det trajdir tsk ownship traffic) ||
    (match recovery_det with
     | none => false
     | some rd => decide (tsk ≥ B2) && decide (tsk ≤ T2) &&
         any_los_aircraft K rd trajdir tsk ownship traffic) ||
    (usehcrit && !repulsive_at K tstep trajdir k ownship repac epsh) ||
    (usevcrit && !vert_repul_at K tstep trajdir k ownship repac epsv)

/-- The second condition tested at step `k` in the loop of `first_green` (it returns `k`). -/
def green_free (conflict_det : Detection3D V) (recovery_det : Option (Detection3D V))
    (B T B2 T2 : ℚ) (tstep : ℚ) (trajdir : Bool) (ownship : Own) (traffic : List Ac)
    (k : Int) : Bool :=
  let tsk : ℚ := tstep * k
  !any_conflict_aircraft K conflict_det B T trajdir tsk ownship traffic &&
    !(match recovery_det with
      | none => false
      | some rd => any_conflict_aircraft K rd B2 T2 trajdir tsk ownship traffic)

/-- Source function `KinematicIntegerBands::first_green`. -/
def first_green (conflict_det : Detection3D V) (recovery_det : Option (Detection3D V))
    (tstep B T B2 T2 : ℚ) (trajdir : Bool) (max : Int) (ownship : Own) (traffic : List Ac)
    (repac : Ac) (epsh epsv : Int) : Int :=
  green_loop
    (green_bad K conflict_det recovery_det tstep B T B2 T2 trajdir ownship traffic repac epsh epsv)
    (green_free K conflict_det recovery_det B T B2 T2 tstep trajdir ownship traffic)
    (max + 1).toNat 0

/-- Source function `KinematicIntegerBands::all_int_red`. -/
def all_int_red (conflict_det : Detection3D V) (recovery_det : Option (Detection3D V))
    (tstep B T B2 T2 : ℚ) (maxl maxr : Int) (ownship : Own) (traffic : List Ac)
    (repac : Ac) (epsh epsv : Int) (dir : Int) : Bool :=
  let leftans : Bool := decide (dir > 0) ||
    decide (first_green K conflict_det recovery_det tstep B T B2 T2 false maxl ownship traffic
      repac epsh epsv < 0)
  let rightans : Bool := decide (dir < 0) ||
    decide (first_green K conflict_det recovery_det tstep B T B2 T2 true maxr ownship traffic
      repac epsh epsv < 0)
  leftans && rightans

/-- Source function `KinematicIntegerBands::red_band_exist`. -/
def red_band_exist (conflict_det : Detection3D V) (recovery_det : Option (Detection3D V))
    (tstep B T B2 T2 : ℚ) (trajdir : Bool) (max : Int) (ownship : Own) (traffic : List Ac)
    (repac : Ac) (epsh epsv : Int) : Bool :=
  let usehcrit : Bool := K.isValid repac && epsh != 0
  let usevcrit : Bool := K.isValid repac && epsv != 0
  (usehcrit && decide (first_nonrepulsive_step K tstep trajdir max ownship repac epsh ≥ 0)) ||
    (usevcrit && decide (first_nonvert_repul_step K tstep trajdir max ownship repac epsv ≥ 0)) ||
    any_conflict_step K conflict_det tstep B T trajdir max ownship traffic ||
    (match recovery_det with
     | none => false
     | some rd => any_conflict_step K rd tstep B2 T2 trajdir max ownship traffic)

/-- Source function `KinematicIntegerBands::any_int_red`. -/
def any_int_red (conflict_det : Detection3D V) (recovery_det : Option (Detection3D V))
    (tstep B T B2 T2 : ℚ) (maxl maxr : Int) (ownship : Own) (traffic : List Ac)
    (repac : Ac) (epsh epsv : Int) (dir : Int) : Bool :=
  let leftred : Bool := decide (dir ≤ 0) &&
    red_band_exist K conflict_det recovery_det tstep B T B2 T2 false maxl ownship traffic
      repac epsh epsv
  let rightred : Bool := decide (dir ≥ 0) &&
    red_band_exist K conflict_det recovery_det tstep B T B2 T2 true maxr ownship traffic
      repac epsh epsv
  leftred || rightred

end Bands

/-! ## Urgency ranking -/

/-- What `DCPAUrgencyStrategy` uses and does not define: validity of the states, the sentinel
`TrafficState::INVALID` (which is not valid), the ownship's frame, the vector operations,
`Vect3::cyl_norm`, `CD3D::tccpa`, `Util::almost_equals(a, b, PRECISION5)` and the constants
`ACCoRDConfig::NMAC_D`, `ACCoRDConfig::NMAC_H`. -/
structure UrgencyKit (V P Own Ac : Type) where
  ownValid : Own → Bool
  isValid : Ac → Bool
  INVALID : Ac
  INVALID_isValid : isValid INVALID = false
  get_s : Own → V
  get_v : Own → V
  pos_to_s : Own → P → V
  vel_to_v : Own → P → V → V
  getPosition : Ac → P
  getVelocity : Ac → V
  Sub : V → V → V
  ScalAdd : V → ℚ → V → V
  cyl_norm : V → ℚ → ℚ → ℚ
  tccpa : V → V → V → ℚ → ℚ → ℚ
  almost_equals : ℚ → ℚ → Bool
  NMAC_D : ℚ
  NMAC_H : ℚ

section Urgency

variable {V P Own Ac : Type} (U : UrgencyKit V P Own Ac)

/-- The flag `det.conflict()` computed for the intruder `ac` in the loop of `mostUrgentAircraft`. -/
def in_conflict (detector : Detection3D V) (ownship : Own) (T : ℚ) (ac : Ac) : Bool :=
  let so := U.get_s ownship
  let vo := U.get_v ownship
  let si := U.pos_to_s ownship (U.getPosition ac)
  let vi := U.vel_to_v ownship (U.getPosition ac) (U.getVelocity ac)
  detector.conflictDetection so vo si vi 0 T

/-- The value `tcpa` computed for the intruder `ac` in the loop of `mostUrgentAircraft`. -/
def tcpa_of (ownship : Own) (ac : Ac) : ℚ :=
  let D := U.NMAC_D
  let H := U.NMAC_H
  let so := U.get_s ownship
  let vo := U.get_v ownship
  let si := U.pos_to_s ownship (U.getPosition ac)
  let vi := U.vel_to_v ownship (U.getPosition ac) (U.getVelocity ac)
  let s := U.Sub so si
  U.tccpa s vo vi D H

/-- The value `dcpa` computed for the intruder `ac` in the loop of `mostUrgentAircraft`. -/
def dcpa_of (ownship : Own) (ac : Ac) : ℚ :=
  let D := U.NMAC_D
  let H := U.NMAC_H
  let so := U.get_s ownship
  let vo := U.get_v ownship
  let si := U.pos_to_s ownship (U.getPosition ac)
  let vi := U.vel_to_v ownship (U.getPosition ac) (U.getVelocity ac)
  let s := U.Sub so si
  let v := U.Sub vo vi
  let tcpa := tcpa_of U ownship ac
  U.cyl_norm (U.ScalAdd v tcpa s) D H

/-- The body of the loop of `mostUrgentAircraft` on the state `(repac, mindcpa, mintcpa)`. -/
def urgent_step (detector : Detection3D V) (ownship : Own) (T : ℚ)
    (st : Ac × ℚ × ℚ) (ac : Ac) : Ac × ℚ × ℚ :=
  let repac := st.1
  let mindcpa := st.2.1
  let mintcpa := st.2.2
  if in_conflict U detector ownship T ac then
    let tcpa := tcpa_of U ownship ac
    let dcpa := dcpa_of U ownship ac
    let tcpa_strategy : Bool :=
      if U.almost_equals tcpa mintcpa then decide (dcpa < mindcpa) else decide (tcpa < mintcpa)
    let dcpa_strategy : Bool :=
      if U.almost_equals dcpa mindcpa then decide (tcpa < mintcpa) else decide (dcpa < mindcpa)
    if !U.isValid repac ||
        (if dcpa ≤ 1 then decide (mindcpa > 1) || tcpa_strategy else dcpa_strategy) then
      (ac, dcpa, tcpa)
    else st
  else st

/-- Source function `DCPAUrgencyStrategy::mostUrgentAircraft`. -/
def mostUrgentAircraft (detector : Detection3D V) (ownship : Own) (traffic : List Ac) (T : ℚ) : Ac :=
  let repac := U.INVALID
  if !U.ownValid ownship || traffic.isEmpty then repac
  else
    let mindcpa : ℚ := 0
    let mintcpa : ℚ := 0
    (traffic.foldl (urgent_step U detector ownship T) (repac, mindcpa, mintcpa)).1

end Urgency

/-- Modelled from the spec: `Util::almost_equals` at `PRECISION5` is not among the sources; the
spec calls it approximate equality at a fixed 5-digit precision. Here: the two numbers differ by
at most `10⁻⁵` of the larger magnitude. -/
def almost_equals5 (a b : ℚ) : Bool :=
  decide (|a - b| * 100000 ≤ max |a| |b|)

/-! ## Vocabulary of the statements -/

/-- The index `j` lies in one of the intervals of `l`. -/
def covers (l : List Integerval) (j : Int) : Prop := ∃ a ∈ l, a.lb ≤ j ∧ j ≤ a.ub

instance (l : List Integerval) (j : Int) : Decidable (covers l j) := by
  unfold covers
  infer_instance

/-- The interval `b` starts at least two indices after the end of `a`: the two are neither
overlapping nor adjacent on the integer grid. -/
def gap2 (a b : Integerval) : Prop := b.lb - a.ub ≥ 2

instance (a b : Integerval) : Decidable (gap2 a b) := by
  unfold gap2
  infer_instance

/-- Invariant of the loop of `traj_conflict_only_bands` before iteration `k`, started on the
empty vector: an open run starts at `first`, the closed runs are in `l`. -/
def traj_inv (conf : Int → Bool) (k first : Int) (l : List Integerval) : Prop :=
  (first = -1 ∨ (0 ≤ first ∧ first < k)) ∧
  (∀ a ∈ l, 0 ≤ a.lb ∧ a.lb ≤ a.ub ∧ a.ub + 2 ≤ (if 0 ≤ first then first else k)) ∧
  l.Chain' gap2 ∧
  (∀ j, 0 ≤ j → j < k → ((covers l j ∨ (0 ≤ first ∧ first ≤ j)) ↔ conf j = false))

/-- What the scan of `[0, max]` produces: intervals inside `[0, max]`, separated by gaps, that
cover exactly the indices where `conf` is false. -/
def traj_post (conf : Int → Bool) (max : Int) (out : List Integerval) : Prop :=
  (∀ a ∈ out, 0 ≤ a.lb ∧ a.lb ≤ a.ub ∧ a.ub ≤ max) ∧
  out.Chain' gap2 ∧
  (∀ j, 0 ≤ j → j ≤ max → (covers out j ↔ conf j = false))

section Vocabulary

variable {V Own Ac : Type} (K : Kit V Own Ac)

/-- Step `j` is forbidden: a loss of separation under the primary detector with `tstep * j` in
`[B, T]`, or under the recovery detector (when present) with `tstep * j` in `[B2, T2]`, or the
failure at `j` of an active horizontal or vertical repulsion predicate (`repac` valid and the
epsilon not zero). -/
def forbidden_step (conflict_det : Detection3D V) (recovery_det : Option (Detection3D V))
    (tstep B T B2 T2 : ℚ) (trajdir : Bool) (ownship : Own) (traffic : List Ac)
    (repac : Ac) (epsh epsv : Int) (j : Int) : Prop :=
  (B ≤ tstep * j ∧ tstep * j ≤ T ∧
      any_los_aircraft K conflict_det trajdir (tstep * j) ownship traffic = true) ∨
    (∃ rd, recovery_det = some rd ∧ B2 ≤ tstep * j ∧ tstep * j ≤ T2 ∧
      any_los_aircraft K rd trajdir (tstep * j) ownship traffic = true) ∨
    (K.isValid repac = true ∧ epsh ≠ 0 ∧
      repulsive_at K tstep trajdir j ownship repac epsh = false) ∨
    (K.isValid repac = true ∧ epsv ≠ 0 ∧
      vert_repul_at K tstep trajdir j ownship repac epsv = false)

/-- Step `k` is conflict-free: no conflict under the primary detector over `[B, T]` nor, when a
recovery detector is present, under it over `[B2, T2]`. -/
def conflict_free_step (conflict_det : Detection3D V) (recovery_det : Option (Detection3D V))
    (tstep B T B2 T2 : ℚ) (trajdir : Bool) (ownship : Own) (traffic : List Ac) (k : Int) : Prop :=
  any_conflict K conflict_det recovery_det B T B2 T2 trajdir (tstep * k) ownship traffic = false

/-- Step `k` of `[0, max]` is conflict-free and no step `j ≤ k` is forbidden. -/
def green_step (conflict_det : Detection3D V) (recovery_det : Option (Detection3D V))
    (tstep B T B2 T2 : ℚ) (trajdir : Bool) (max : Int) (ownship : Own) (traffic : List Ac)
    (repac : Ac) (epsh epsv : Int) (k : Int) : Prop :=
  0 ≤ k ∧ k ≤ max ∧
    conflict_free_step K conflict_det recovery_det tstep B T B2 T2 trajdir ownship traffic k ∧
    ∀ j, 0 ≤ j → j ≤ k →
      ¬ forbidden_step K conflict_det recovery_det tstep B T B2 T2 trajdir ownship traffic
        repac epsh epsv j

/-- A loss of separation now is a conflict over every window `[0, T']` with `T' ≥ 0`. -/
def violation_is_conflict (det : Detection3D V) : Prop :=
  ∀ (so vo si vi : V) (T' : ℚ), 0 ≤ T' → det.violation so vo si vi = true →
    det.conflict so vo si vi 0 T' = true

end Vocabulary

/-- The vector left by `traj_conflict_only_bands` called on an empty vector, as a function of
the predicate `conf k` (`any_conflict` at `tstep * k`). -/
def traj_out (conf : Int → Bool) (max : Int) : List Integerval :=
  let st := traj_loop conf (max + 1).toNat 0 (-1) []
  if st.1 ≥ 0 then st.2 ++ [⟨st.1, max⟩] else st.2

/-- Intervals inside `[lo, hi]`, each with `lb ≤ ub`, consecutive ones separated by a gap. -/
def bands_within (lo hi : Int) (l : List Integerval) : Prop :=
  (∀ a ∈ l, lo ≤ a.lb ∧ a.lb ≤ a.ub ∧ a.ub ≤ hi) ∧ l.Chain' gap2

/-- Reference form of one interval of `neg`: `[lb, ub]` becomes `[-ub, -lb]`. -/
def flip_neg (a : Integerval) : Integerval := ⟨-a.ub, -a.lb⟩

/-! ## A concrete world for the examples -/

/-- A one-dimensional sampler: at time `t` the ownship is at `t` on the right and at `-t` on the
left, so a detector can tell the samples apart by the ownship's position. Intruders stand at the
origin; a traffic state is its own validity flag; the criteria accept everything. -/
def lineKit : Kit ℚ Unit Bool where
  trajectory := fun _ t trajdir => (if trajdir then t else -t, 0)
  traffic_s := fun _ _ => 0
  traffic_v := fun _ _ => 0
  isValid := fun ac => ac
  Sub := fun a b => a - b
  Scal := fun a k => k * a
  ScalAdd := fun a k b => k * a + b
  horizontal_new_repulsive_criterion := fun _ _ _ _ _ => true
  vertical_new_repulsive_criterion := fun _ _ _ _ _ => true

/-- A detector without loss of separation, in conflict exactly when the ownship's position is
in `[-7, -3]` (left samples 3..7) or in `[4, 6]` (right samples 4..6). -/
def detS2 : Detection3D ℚ where
  violation := fun _ _ _ _ => false
  conflict := fun so _ _ _ _ _ => decide ((-7 ≤ so ∧ so ≤ -3) ∨ (4 ≤ so ∧ so ≤ 6))
  conflictDetection := fun so _ _ _ _ _ => decide ((-7 ≤ so ∧ so ≤ -3) ∨ (4 ≤ so ∧ so ≤ 6))

/-- A detector that never reports a loss of separation nor a conflict. -/
def detNone : Detection3D ℚ where
  violation := fun _ _ _ _ => false
  conflict := fun _ _ _ _ _ _ => false
  conflictDetection := fun _ _ _ _ _ _ => false

/-- A detector that reports a loss of separation everywhere and never a conflict. -/
def detLos : Detection3D ℚ where
  violation := fun _ _ _ _ => true
  conflict := fun _ _ _ _ _ _ => false
  conflictDetection := fun _ _ _ _ _ _ => false

/-- A detector that never reports a loss of separation and always a conflict. -/
def detAll : Detection3D ℚ where
  violation := fun _ _ _ _ => false
  conflict := fun _ _ _ _ _ _ => true
  conflictDetection := fun _ _ _ _ _ _ => true

/-- A detector without loss of separation, in conflict exactly when the ownship's position is
at most `2` (right samples `0..2`). -/
def detS4 : Detection3D ℚ where
  violation := fun _ _ _ _ => false
  conflict := fun so _ _ _ _ _ => decide (so ≤ 2)
  conflictDetection := fun so _ _ _ _ _ => decide (so ≤ 2)

/-- The world `lineKit` with a horizontal criterion that holds while the relative position is
below `2`: on the right side it fails from step `2` on. -/
def lineKitH : Kit ℚ Unit Bool where
  trajectory := fun _ t trajdir => (if trajdir then t else -t, 0)
  traffic_s := fun _ _ => 0
  traffic_v := fun _ _ => 0
  isValid := fun ac => ac
  Sub := fun a b => a - b
  Scal := fun a k => k * a
  ScalAdd := fun a k b => k * a + b
  horizontal_new_repulsive_criterion := fun s _ _ _ _ => decide (s < 2)
  vertical_new_repulsive_criterion := fun _ _ _ _ _ => true

/-- An intruder of the concrete urgency world: a validity flag, a position and a velocity in
the plane. -/
structure Intruder where
  valid : Bool
  pos : ℚ × ℚ
  vel : ℚ × ℚ
deriving DecidableEq

/-- A concrete urgency world in which an intruder standing at `(tcpa, dcpa)` with zero velocity
gets exactly these two values: the ownship is at the origin with zero velocity, the vector
operations are those of the plane, `tccpa` reads minus the first coordinate of `s = so - si` and
`cyl_norm` minus the second coordinate. Approximate equality is `almost_equals5`. -/
def urgKit : UrgencyKit (ℚ × ℚ) (ℚ × ℚ) Bool Intruder where
  ownValid := fun own => own
  isValid := fun ac => ac.valid
  INVALID := ⟨false, (0, 0), (0, 0)⟩
  INVALID_isValid := rfl
  get_s := fun _ => (0, 0)
  get_v := fun _ => (0, 0)
  pos_to_s := fun _ p => p
  vel_to_v := fun _ _ v => v
  getPosition := fun ac => ac.pos
  getVelocity := fun ac => ac.vel
  Sub := fun a b => (a.1 - b.1, a.2 - b.2)
  ScalAdd := fun a k b => (k * a.1 + b.1, k * a.2 + b.2)
  cyl_norm := fun w _ _ => -w.2
  tccpa := fun s _ _ _ _ => -s.1
  almost_equals := almost_equals5
  NMAC_D := 1
  NMAC_H := 1

/-- A detector of the plane that reports a conflict for every intruder. -/
def detPlane : Detection3D (ℚ × ℚ) where
  violation := fun _ _ _ _ => false
  conflict := fun _ _ _ _ _ _ => true
  conflictDetection := fun _ _ _ _ _ _ => true

/-- The valid intruder of the concrete urgency world with the given `tcpa` and `dcpa`. -/
def intruder (tcpa dcpa : ℚ) : Intruder := ⟨true, (tcpa, dcpa), (0, 0)⟩

/-! ## Reference definitions for the later claims -/

/-- Reference definition of `neg`, in the words of the specification: reverse the list and
replace every interval `[lb, ub]` by `[-ub, -lb]`. -/
def neg_reference (l : List Integerval) : List Integerval :=
  l.reverse.map fun a => ⟨-a.ub, -a.lb⟩

section RepulsionVocabulary

variable {V Own Ac : Type} (K : Kit V Own Ac)

/-- The horizontal criterion at the initial step:
`horizontal_new_repulsive_criterion(so - si, vo, vi, linvel(0), epsh)`, with `(so, vo)` the
ownship's current state and `(si, vi)` that of `repac`. -/
def initial_horizontal (tstep : ℚ) (trajdir : Bool) (ownship : Own) (repac : Ac)
    (epsh : Int) : Bool :=
  K.horizontal_new_repulsive_criterion
    (K.Sub (K.trajectory ownship 0 trajdir).1 (K.traffic_s ownship repac))
    (K.trajectory ownship 0 trajdir).2 (K.traffic_v ownship repac)
    (linvel K ownship tstep trajdir 0) epsh

/-- The three horizontal criteria at the sample `k`, on `st = sot - si(k * tstep)`:
`(linvel(k-1), vot)`, `(vot, linvel(k))` and `(linvel(k-1), linvel(k))`. -/
def sandwich_horizontal (tstep : ℚ) (trajdir : Bool) (k : Int) (ownship : Own) (repac : Ac)
    (epsh : Int) : Bool :=
  K.horizontal_new_repulsive_criterion
      (K.Sub (K.trajectory ownship ((k : ℚ) * tstep) trajdir).1
        (K.ScalAdd (K.traffic_v ownship repac) ((k : ℚ) * tstep) (K.traffic_s ownship repac)))
      (linvel K ownship tstep trajdir (k - 1)) (K.traffic_v ownship repac)
      (K.trajectory ownship ((k : ℚ) * tstep) trajdir).2 epsh &&
    K.horizontal_new_repulsive_criterion
      (K.Sub (K.trajectory ownship ((k : ℚ) * tstep) trajdir).1
        (K.ScalAdd (K.traffic_v ownship repac) ((k : ℚ) * tstep) (K.traffic_s ownship repac)))
      (K.trajectory ownship ((k : ℚ) * tstep) trajdir).2 (K.traffic_v ownship repac)
      (linvel K ownship tstep trajdir k) epsh &&
    K.horizontal_new_repulsive_criterion
      (K.Sub (K.trajectory ownship ((k : ℚ) * tstep) trajdir).1
        (K.ScalAdd (K.traffic_v ownship repac) ((k : ℚ) * tstep) (K.traffic_s ownship repac)))
      (linvel K ownship tstep trajdir (k - 1)) (K.traffic_v ownship repac)
      (linvel K ownship tstep trajdir k) epsh

/-- The vertical criterion at the initial step:
`vertical_new_repulsive_criterion(so - si, vo, vi, linvel(0), epsv)`. -/
def initial_vertical (tstep : ℚ) (trajdir : Bool) (ownship : Own) (repac : Ac)
    (epsv : Int) : Bool :=
  K.vertical_new_repulsive_criterion
    (K.Sub (K.trajectory ownship 0 trajdir).1 (K.traffic_s ownship repac))
    (K.trajectory ownship 0 trajdir).2 (K.traffic_v ownship repac)
    (linvel K ownship tstep trajdir 0) epsv

/-- The three vertical criteria at the sample `k`, as in `sandwich_horizontal`. -/
def sandwich_vertical (tstep : ℚ) (trajdir : Bool) (k : Int) (ownship : Own) (repac : Ac)
    (epsv : Int) : Bool :=
  K.vertical_new_repulsive_criterion
      (K.Sub (K.trajectory ownship ((k : ℚ) * tstep) trajdir).1
        (K.ScalAdd (K.traffic_v ownship repac) ((k : ℚ) * tstep) (K.traffic_s ownship repac)))
      (linvel K ownship tstep trajdir (k - 1)) (K.traffic_v ownship repac)
      (K.trajectory ownship ((k : ℚ) * tstep) trajdir).2 epsv &&
    K.vertical_new_repulsive_criterion
      (K.Sub (K.trajectory ownship ((k : ℚ) * tstep) trajdir).1
        (K.ScalAdd (K.traffic_v ownship repac) ((k : ℚ) * tstep) (K.traffic_s ownship repac)))
      (K.trajectory ownship ((k : ℚ) * tstep) trajdir).2 (K.traffic_v ownship repac)
      (linvel K ownship tstep trajdir k) epsv &&
    K.vertical_new_repulsive_criterion
      (K.Sub (K.trajectory ownship ((k : ℚ) * tstep) trajdir).1
        (K.ScalAdd (K.traffic_v ownship repac) ((k : ℚ) * tstep) (K.traffic_s ownship repac)))
      (linvel K ownship tstep trajdir (k - 1)) (K.traffic_v ownship repac)
      (linvel K ownship tstep trajdir k) epsv

end RepulsionVocabulary

/-- The world `lineKit` with both criteria holding while the relative position is below `1`: on
the right side they hold at the initial state and fail at the sample `1`. -/
def lineKitG : Kit ℚ Unit Bool where
  trajectory := fun _ t trajdir => (if trajdir then t else -t, 0)
  traffic_s := fun _ _ => 0
  traffic_v := fun _ _ => 0
  isValid := fun ac => ac
  Sub := fun a b => a - b
  Scal := fun a k => k * a
  ScalAdd := fun a k b => k * a + b
  horizontal_new_repulsive_criterion := fun s _ _ _ _ => decide (s < 1)
  vertical_new_repulsive_criterion := fun s _ _ _ _ => decide (s < 1)

/-- The index `r` is the smallest index of `[0, m]` at which `P` holds, or `m + 1` when `P`
holds nowhere in `[0, m]`. -/
def least_or (P : Int → Prop) (m r : Int) : Prop :=
  0 ≤ r ∧ r ≤ m + 1 ∧ (∀ k, 0 ≤ k → k < r → ¬ P k) ∧ (r ≤ m → P r)

section SearchVocabulary

variable {V Own Ac : Type} (K : Kit V Own Ac)

/-- Step `k` stops the search of `bands_search_index`: a loss of separation at `k` under the
primary detector with `⌈B / tstep⌉ ≤ k ≤ ⌊T / tstep⌋`, or under the recovery detector (when
present) with `⌈B2 / tstep⌉ ≤ k ≤ ⌊T2 / tstep⌋`, or an active horizontal repulsion predicate
(`repac` valid, `epsh ≠ 0`) false at `k`, or an active vertical one (`repac` valid, `epsv ≠ 0`)
false at `k`. -/
def problem_step (conflict_det : Detection3D V) (recovery_det : Option (Detection3D V))
    (tstep B T B2 T2 : ℚ) (trajdir : Bool) (ownship : Own) (traffic : List Ac)
    (repac : Ac) (epsh epsv : Int) (k : Int) : Prop :=
  (⌈B / tstep⌉ ≤ k ∧ k ≤ ⌊T / tstep⌋ ∧
      any_los_aircraft K conflict_det trajdir ((k : ℚ) * tstep) ownship traffic = true) ∨
    (∃ rd, recovery_det = some rd ∧ ⌈B2 / tstep⌉ ≤ k ∧ k ≤ ⌊T2 / tstep⌋ ∧
      any_los_aircraft K rd trajdir ((k : ℚ) * tstep) ownship traffic = true) ∨
    (K.isValid repac = true ∧ epsh ≠ 0 ∧
      repulsive_at K tstep trajdir k ownship repac epsh = false) ∨
    (K.isValid repac = true ∧ epsv ≠ 0 ∧
      vert_repul_at K tstep trajdir k ownship repac epsv = false)

end SearchVocabulary

/-! ## Projection to real intervals -/

section Projection

variable {F : Type} [LinearOrderedField F] [FloorRing F]

/-- Modelled from the spec: `Util::to_2pi` is not among the sources; it is the angle `x` modulo
`2π`, in `[0, 2π)`. The constant `Pi` is a parameter, and so is the field `F` of the numbers:
`ℝ` for the statements, `ℚ` for a computation. -/
def to_2pi (Pi : F) (x : F) : F := x - (⌊x / (2 * Pi)⌋ : F) * (2 * Pi)

/-- One iteration of the loop of `toIntervalSet_0_2PI`, on the interval `ii`: the pairs
`(lo, hi)` passed to `noneset.almost_add`, in the order of the calls. -/
def toIntervalSet_0_2PI_step (Pi scal add : F) (ii : Integerval) : List (F × F) :=
  let twopi : F := 2 * Pi
  let lb : F := scal * (ii.lb : F) + add
  let ub : F := scal * (ii.ub : F) + add
  if 0 ≤ lb ∧ ub ≤ twopi then [(lb, ub)]
  else if ub < 0 ∨ lb > twopi then [(to_2pi Pi lb, to_2pi Pi ub)]
  else
    let c1 : List (F × F) := if lb < 0 then [(to_2pi Pi lb, twopi)] else []
    let lb1 : F := if lb < 0 then 0 else lb
    let c2 : List (F × F) := if ub > twopi then [(0, to_2pi Pi ub)] else []
    let ub1 : F := if ub > twopi then twopi else ub
    c1 ++ c2 ++ [(lb1, ub1)]

/-- Source function `KinematicIntegerBands::toIntervalSet_0_2PI`. `IntervalSet` is not among the
sources: the set is cleared, then filled by calls of `almost_add(lo, hi)`; the value here is
the list of the pairs `(lo, hi)` of these calls, in order. -/
def toIntervalSet_0_2PI (Pi : F) : List Integerval → F → F → List (F × F)
  | [], _, _ => []
  | ii :: l, scal, add =>
    toIntervalSet_0_2PI_step Pi scal add ii ++ toIntervalSet_0_2PI Pi l scal add

/-- Total length of a list of inserted intervals. -/
def total_length (s : List (F × F)) : F := (s.map fun p => p.2 - p.1).sum

/-- Lower end `lb' = scal * lb + add` of the projected interval. -/
def proj_lb (scal add : F) (ii : Integerval) : F := scal * (ii.lb : F) + add

/-- Upper end `ub' = scal * ub + add` of the projected interval. -/
def proj_ub (scal add : F) (ii : Integerval) : F := scal * (ii.ub : F) + add

/-- The interval `[a, b]` lies wholly below `0` or wholly above `2π`: the test `ub < 0 || lb >
twopi` of the code. -/
def wholly_outside (Pi a b : F) : Prop := b < 0 ∨ a > 2 * Pi

/-- Some multiple `k * 2π` of the full turn lies in `(a, b]`. -/
def holds_multiple (Pi a b : F) : Prop :=
  ∃ k : Int, a < (k : F) * (2 * Pi) ∧ (k : F) * (2 * Pi) ≤ b

/-- The interval `[a, b]` straddles `0` or `2π`: it starts below `0` and ends at or above it,
or starts at or below `2π` and ends above it (the last branch of the code). -/
def straddles (Pi a b : F) : Prop := (a < 0 ∧ 0 ≤ b) ∨ (a ≤ 2 * Pi ∧ 2 * Pi < b)

/-- Total length of the projected input `[scal * lb + add, scal * ub + add]`. -/
def projected_length (l : List Integerval) (scal add : F) : F :=
  (l.map fun ii => (scal * (ii.ub : F) + add) - (scal * (ii.lb : F) + add)).sum

end Projection

/-! ## Elements of a vector -/

theorem at_set (l : List Integerval) (i p : Nat) (a : Integerval) :
    at_ (l.set i a) p = if i = p ∧ p < l.length then a else at_ l p := by
  unfold at_
  rw [List.getD_eq_getElem?_getD, List.getD_eq_getElem?_getD, List.getElem?_set]
  by_cases h : i = p
  · subst h
    by_cases h2 : i < l.length
    · simp [h2]
    · simp [h2, List.getElem?_eq_none (Nat.le_of_not_lt h2)]
  · simp [h]

theorem length_set_lb (l : List Integerval) (i : Nat) (v : Int) :
    (set_lb l i v).length = l.length := by
  simp [set_lb]

theorem length_set_ub (l : List Integerval) (i : Nat) (v : Int) :
    (set_ub l i v).length = l.length := by
  simp [set_ub]

theorem at_set_lb (l : List Integerval) (i p : Nat) (v : Int) :
    at_ (set_lb l i v) p = if i = p ∧ p < l.length then ⟨v, (at_ l i).ub⟩ else at_ l p := by
  simp [set_lb, at_set]

theorem at_set_ub (l : List Integerval) (i p : Nat) (v : Int) :
    at_ (set_ub l i v) p = if i = p ∧ p < l.length then ⟨(at_ l i).lb, v⟩ else at_ l p := by
  simp [set_ub, at_set]

theorem at_lt (l : List Integerval) (p : Nat) (h : p < l.length) : at_ l p = l[p] := by
  simp [at_, List.getD_eq_getElem?_getD, List.getElem?_eq_getElem h]

theorem ext_at (l₁ l₂ : List Integerval) (hl : l₁.length = l₂.length)
    (h : ∀ p, p < l₁.length → at_ l₁ p = at_ l₂ p) : l₁ = l₂ := by
  apply List.ext_getElem hl
  intro p h1 h2
  have := h p h1
  rwa [at_lt l₁ p h1, at_lt l₂ p h2] at this

theorem at_reverse_map (l : List Integerval) (p : Nat) (h : p < l.length) :
    at_ (l.reverse.map flip_neg) p = flip_neg (at_ l (l.length - 1 - p)) := by
  have h1 : p < (l.reverse.map flip_neg).length := by simpa using h
  have h2 : l.length - 1 - p < l.length := by omega
  rw [at_lt _ p h1, at_lt _ _ h2]
  simp [List.getElem_reverse]

/-! ## `neg` -/

theorem length_neg_step (l : List Integerval) (mid : Nat) (odd : Bool) (i : Nat) :
    (neg_step l mid odd i).length = l.length := by
  unfold neg_step
  split <;> simp [length_set_lb, length_set_ub]

/-- Effect of one iteration of `neg`: the elements `i` and `length - 1 - i` are exchanged,
negated and flipped; the others are untouched. -/
theorem at_neg_step (l : List Integerval) (mid : Nat) (odd : Bool) (i p : Nat)
    (hmid : mid = (l.length - 1) / 2) (hodd : odd = (l.length % 2 != 0)) (hi : i ≤ mid)
    (hn : 0 < l.length) (hp : p < l.length) :
    at_ (neg_step l mid odd i) p =
      if p = i then flip_neg (at_ l (l.length - 1 - i))
      else if p = l.length - 1 - i then flip_neg (at_ l i)
      else at_ l p := by
  unfold neg_step
  by_cases hc : (i == mid && odd) = true
  · rw [if_pos hc]
    simp only [Bool.and_eq_true, beq_iff_eq] at hc
    have him : i = mid := hc.1
    have ho : l.length % 2 = 1 := by
      have : odd = true := hc.2
      rw [hodd] at this
      simp at this
      omega
    have hself : l.length - 1 - i = i := by omega
    simp only [at_set_ub, at_set_lb, length_set_lb, length_set_ub, hself]
    by_cases hpi : p = i
    · subst hpi
      simp [hp, flip_neg]
    · have : ¬ i = p := fun h => hpi h.symm
      simp [hpi, this]
  · rw [if_neg hc]
    have hne : l.length - i - 1 ≠ i := by
      intro h
      apply hc
      have h1 : l.length % 2 = 1 := by omega
      have h2 : i = mid := by omega
      simp [h2, hodd, h1]
    have hi2 : l.length - i - 1 < l.length := by omega
    have hil : i < l.length := by omega
    have e : l.length - 1 - i = l.length - i - 1 := by omega
    simp only [at_set_ub, at_set_lb, length_set_lb, length_set_ub, e]
    by_cases hpi : p = i
    · subst hpi
      have h1 : ¬ l.length - p - 1 = p := hne
      have h2 : ¬ p = l.length - p - 1 := fun h => hne h.symm
      simp [hp, h1, h2, flip_neg, hi2]
    · by_cases hp2 : p = l.length - i - 1
      · have h1 : ¬ i = p := fun h => hpi h.symm
        have h2 : ¬ i = l.length - i - 1 := fun h => hne h.symm
        simp [hp2, hne, h2, flip_neg, hi2, hil]
      · have h1 : ¬ i = p := fun h => hpi h.symm
        have h2 : ¬ l.length - i - 1 = p := fun h => hp2 h.symm
        simp [hpi, hp2, h1, h2]

/-- Loop invariant of `neg`: before iteration `j` the elements below `j` and from
`length - j` on hold their final value, the others their initial value. -/
theorem neg_loop_inv (l0 : List Integerval) (mid : Nat) (odd : Bool)
    (hmid : mid = (l0.length - 1) / 2) (hodd : odd = (l0.length % 2 != 0)) (hn : 0 < l0.length) :
    ∀ (m j : Nat) (c : List Integerval), j + m = mid + 1 → c.length = l0.length →
      (∀ p, p < l0.length → at_ c p =
        if p < j ∨ l0.length - j ≤ p then flip_neg (at_ l0 (l0.length - 1 - p)) else at_ l0 p) →
      (neg_loop mid odd m j c).length = l0.length ∧
        ∀ p, p < l0.length →
          at_ (neg_loop mid odd m j c) p = flip_neg (at_ l0 (l0.length - 1 - p)) := by
  intro m
  induction m with
  | zero =>
    intro j c hj hc hinv
    refine ⟨by simpa [neg_loop] using hc, ?_⟩
    intro p hp
    have := hinv p hp
    rw [if_pos (by omega)] at this
    simpa [neg_loop] using this
  | succ m ih =>
    intro j c hj hc hinv
    have hjm : j ≤ mid := by omega
    have hlen : (neg_step c mid odd j).length = l0.length := by
      rw [length_neg_step, hc]
    have key := ih (j + 1) (neg_step c mid odd j) (by omega) hlen
    simp only [neg_loop]
    apply key
    intro p hp
    rw [at_neg_step c mid odd j p (by rw [hc]; exact hmid) (by rw [hc]; exact hodd) hjm
      (by omega) (by omega), hc]
    by_cases h1 : p = j
    · subst h1
      rw [if_pos rfl, if_pos (by omega), hinv (l0.length - 1 - p) (by omega), if_neg (by omega)]
    · rw [if_neg h1]
      by_cases h2 : p = l0.length - 1 - j
      · rw [if_pos h2, if_pos (by omega), hinv j (by omega), if_neg (by omega)]
        congr 2
        omega
      · rw [if_neg h2, hinv p hp]
        by_cases h3 : p < j ∨ l0.length - j ≤ p
        · rw [if_pos h3, if_pos (by omega)]
        · rw [if_neg h3, if_neg (by omega)]

/-- The in-place loop of `neg` computes the reverse of the list with every interval `[lb, ub]`
replaced by `[-ub, -lb]`. -/
theorem neg_eq_reverse_map (l : List Integerval) : neg l = l.reverse.map flip_neg := by
  unfold neg
  by_cases he : l.isEmpty = true
  · rw [if_pos he]
    have : l = [] := by simpa using he
    subst this
    rfl
  · rw [if_neg he]
    have hn : 0 < l.length := by
      cases l with
      | nil => simp at he
      | cons a t => simp
    obtain ⟨h1, h2⟩ := neg_loop_inv l ((l.length - 1) / 2) (l.length % 2 != 0) rfl rfl hn
      ((l.length - 1) / 2 + 1) 0 l (by omega) rfl (by
        intro p hp
        rw [if_neg (by omega)])
    apply ext_at _ _ (by simpa using h1)
    intro p hp
    rw [h1] at hp
    rw [h2 p hp, at_reverse_map l p hp]

theorem flip_neg_flip_neg (a : Integerval) : flip_neg (flip_neg a) = a := by
  cases a
  simp [flip_neg]

theorem neg_neg_eq (l : List Integerval) : neg (neg l) = l := by
  rw [neg_eq_reverse_map, neg_eq_reverse_map, ← List.map_reverse, List.reverse_reverse,
    List.map_map]
  have : flip_neg ∘ flip_neg = id := by
    funext a
    exact flip_neg_flip_neg a
  rw [this, List.map_id]

/-! ## `append_intband` -/

theorem at_append_last (l : List Integerval) (a : Integerval) :
    at_ (l ++ [a]) l.length = a := by
  simp [at_, List.getD_eq_getElem?_getD]

theorem set_ub_append_last (l : List Integerval) (a : Integerval) (v : Int) :
    set_ub (l ++ [a]) l.length v = l ++ [⟨a.lb, v⟩] := by
  simp [set_ub, at_append_last, List.set_append]

theorem append_intband_nil_left (r : List Integerval) : (append_intband [] r).1 = r := by
  simp [append_intband]

theorem append_intband_nil_right (l : List Integerval) : (append_intband l []).1 = l := by
  simp [append_intband]

theorem append_intband_snoc_cons (l r : List Integerval) (a b : Integerval) :
    (append_intband (l ++ [a]) (b :: r)).1 =
      if b.lb - a.ub ≤ 1 then l ++ [⟨a.lb, b.ub⟩] ++ r else (l ++ [a]) ++ (b :: r) := by
  have h0 : at_ (b :: r) 0 = b := by simp [at_]
  have hl : (l ++ [a]).length - 1 = l.length := by simp
  unfold append_intband
  simp only [hl, h0, at_append_last, set_ub_append_last]
  by_cases h : b.lb - a.ub ≤ 1
  · simp [h]
  · simp [h]

/-! ## The scan of `traj_conflict_only_bands` -/

theorem covers_nil (j : Int) : ¬ covers [] j := by
  simp [covers]

theorem covers_append (l r : List Integerval) (j : Int) :
    covers (l ++ r) j ↔ covers l j ∨ covers r j := by
  simp only [covers, List.mem_append]
  constructor
  · rintro ⟨a, ha | ha, h⟩
    · exact Or.inl ⟨a, ha, h⟩
    · exact Or.inr ⟨a, ha, h⟩
  · rintro (⟨a, ha, h⟩ | ⟨a, ha, h⟩)
    · exact ⟨a, Or.inl ha, h⟩
    · exact ⟨a, Or.inr ha, h⟩

theorem covers_singleton (a : Integerval) (j : Int) : covers [a] j ↔ a.lb ≤ j ∧ j ≤ a.ub := by
  simp [covers]

theorem chain_snoc (l : List Integerval) (x : Integerval) (hl : l.Chain' gap2)
    (h : ∀ a ∈ l, a.ub + 2 ≤ x.lb) : (l ++ [x]).Chain' gap2 := by
  apply List.Chain'.append hl (List.chain'_singleton x)
  intro a ha y hy
  have hy' : x = y := by simpa using hy
  subst hy'
  have := h a (List.mem_of_mem_getLast? ha)
  unfold gap2
  omega

theorem traj_inv_init (conf : Int → Bool) : traj_inv conf 0 (-1) [] := by
  refine ⟨Or.inl rfl, ?_, List.chain'_nil, ?_⟩
  · intro a ha
    simp at ha
  · intro j h0 h1
    omega

/-- One iteration of the scan keeps the invariant. -/
theorem traj_inv_step (conf : Int → Bool) (k first : Int) (l : List Integerval) (hk : 0 ≤ k)
    (h : traj_inv conf k first l) :
    traj_inv conf (k + 1) (traj_loop conf 1 k first l).1 (traj_loop conf 1 k first l).2 := by
  obtain ⟨hf, hb, hc, hcov⟩ := h
  simp only [traj_loop]
  by_cases h1 : first ≥ 0 ∧ (!conf k) = true
  · rw [if_pos h1]
    obtain ⟨h1a, h1b⟩ := h1
    have hck : conf k = false := by simpa using h1b
    refine ⟨Or.inr ⟨h1a, by omega⟩, ?_, hc, ?_⟩
    · intro a ha
      have := hb a ha
      rw [if_pos h1a] at this ⊢
      exact this
    · intro j hj0 hj1
      by_cases hjk : j = k
      · subst hjk
        simp only [hck, iff_true]
        exact Or.inr ⟨h1a, by omega⟩
      · exact hcov j hj0 (by omega)
  · rw [if_neg h1]
    by_cases h2 : first ≥ 0
    · rw [if_pos h2]
      have hck : conf k = true := by
        by_contra hne
        exact h1 ⟨h2, by simpa using hne⟩
      have hfk : first < k := by omega
      refine ⟨Or.inl rfl, ?_, ?_, ?_⟩
      · intro a ha
        rw [List.mem_append] at ha
        rcases ha with ha | ha
        · have := hb a ha
          rw [if_pos h2] at this
          simp only [show ¬ (0 : Int) ≤ -1 by omega, if_false]
          omega
        · have : a = ⟨first, k - 1⟩ := by simpa using ha
          subst this
          simp only [show ¬ (0 : Int) ≤ -1 by omega, if_false]
          omega
      · apply chain_snoc l _ hc
        intro a ha
        have := hb a ha
        rw [if_pos h2] at this
        exact this.2.2
      · intro j hj0 hj1
        rw [covers_append, covers_singleton]
        by_cases hjk : j = k
        · subst hjk
          simp only [hck]
          constructor
          · rintro ((⟨a, ha, h3, h4⟩ | h3) | h3)
            · have := hb a ha
              rw [if_pos h2] at this
              omega
            · simp at h3
            · omega
          · intro h3
            simp at h3
        · rw [← hcov j hj0 (by omega)]
          constructor
          · rintro ((h3 | h3) | h3)
            · exact Or.inl h3
            · exact Or.inr ⟨h2, h3.1⟩
            · omega
          · rintro (h3 | h3)
            · exact Or.inl (Or.inl h3)
            · exact Or.inl (Or.inr ⟨h3.2, by simp; omega⟩)
    · rw [if_neg h2]
      have hf1 : first = -1 := by omega
      by_cases h3 : (!conf k) = true
      · rw [if_pos h3]
        have hck : conf k = false := by simpa using h3
        refine ⟨Or.inr ⟨hk, by omega⟩, ?_, hc, ?_⟩
        · intro a ha
          have := hb a ha
          rw [if_neg (by omega)] at this
          rw [if_pos hk]
          exact this
        · intro j hj0 hj1
          by_cases hjk : j = k
          · subst hjk
            simp only [hck, iff_true]
            exact Or.inr ⟨hk, le_refl _⟩
          · rw [← hcov j hj0 (by omega)]
            constructor
            · rintro (h4 | h4)
              · exact Or.inl h4
              · omega
            · rintro (h4 | h4)
              · exact Or.inl h4
              · omega
      · rw [if_neg h3]
        have hck : conf k = true := by simpa using h3
        refine ⟨Or.inl hf1, ?_, hc, ?_⟩
        · intro a ha
          have := hb a ha
          rw [if_neg (by omega)] at this ⊢
          omega
        · intro j hj0 hj1
          by_cases hjk : j = k
          · subst hjk
            simp only [hck]
            constructor
            · rintro (⟨a, ha, h4, h5⟩ | h4)
              · have := hb a ha
                rw [if_neg (by omega)] at this
                omega
              · omega
            · intro h4
              simp at h4
          · exact hcov j hj0 (by omega)

theorem traj_loop_succ (conf : Int → Bool) (n : Nat) (k first : Int) (l : List Integerval) :
    traj_loop conf (n + 1) k first l =
      traj_loop conf n (k + 1) (traj_loop conf 1 k first l).1 (traj_loop conf 1 k first l).2 := by
  simp only [traj_loop]
  split
  · rfl
  · split
    · rfl
    · split <;> rfl

/-- The scan keeps the invariant through any number of iterations. -/
theorem traj_inv_loop (conf : Int → Bool) :
    ∀ (n : Nat) (k first : Int) (l : List Integerval), 0 ≤ k → traj_inv conf k first l →
      traj_inv conf (k + n) (traj_loop conf n k first l).1 (traj_loop conf n k first l).2 := by
  intro n
  induction n with
  | zero =>
    intro k first l _ h
    simpa [traj_loop] using h
  | succ n ih =>
    intro k first l hk h
    rw [traj_loop_succ]
    have := ih (k + 1) _ _ (by omega) (traj_inv_step conf k first l hk h)
    have e : k + 1 + (n : Int) = k + ((n + 1 : Nat) : Int) := by push_cast; omega
    rwa [e] at this

/-- The scan of `[0, max]` started on the empty vector satisfies `traj_post`. -/
theorem traj_out_post (conf : Int → Bool) (max : Int) : traj_post conf max (traj_out conf max) := by
  unfold traj_out
  by_cases hm : max < 0
  · have h0 : (max + 1).toNat = 0 := by omega
    simp only [h0, traj_loop]
    rw [if_neg (by omega)]
    refine ⟨?_, List.chain'_nil, ?_⟩
    · intro a ha
      simp at ha
    · intro j h1 h2
      omega
  · have hinv := traj_inv_loop conf (max + 1).toNat 0 (-1) [] (le_refl _) (traj_inv_init conf)
    have e : (0 : Int) + ((max + 1).toNat : Int) = max + 1 := by omega
    rw [e] at hinv
    generalize traj_loop conf (max + 1).toNat 0 (-1) [] = st at hinv
    obtain ⟨first, l⟩ := st
    obtain ⟨hf, hb, hc, hcov⟩ := hinv
    simp only at hf hb hc hcov ⊢
    by_cases h1 : first ≥ 0
    · rw [if_pos h1]
      have h1' : 0 ≤ first := h1
      refine ⟨?_, ?_, ?_⟩
      · intro a ha
        rw [List.mem_append] at ha
        rcases ha with ha | ha
        · have := hb a ha
          rw [if_pos h1'] at this
          omega
        · have : a = ⟨first, max⟩ := by simpa using ha
          subst this
          simp only
          omega
      · apply chain_snoc l _ hc
        intro a ha
        have := hb a ha
        rw [if_pos h1'] at this
        exact this.2.2
      · intro j hj0 hj1
        rw [covers_append, covers_singleton, ← hcov j hj0 (by omega)]
        constructor
        · rintro (h3 | h3)
          · exact Or.inl h3
          · exact Or.inr ⟨h1', h3.1⟩
        · rintro (h3 | h3)
          · exact Or.inl h3
          · exact Or.inr ⟨h3.2, hj1⟩
    · rw [if_neg h1]
      have h1' : ¬ 0 ≤ first := h1
      refine ⟨?_, hc, ?_⟩
      · intro a ha
        have := hb a ha
        rw [if_neg h1'] at this
        omega
      · intro j hj0 hj1
        rw [← hcov j hj0 (by omega)]
        constructor
        · intro h3
          exact Or.inl h3
        · rintro (h3 | h3)
          · exact h3
          · omega

theorem traj_post_within (conf : Int → Bool) (max : Int) (out : List Integerval)
    (h : traj_post conf max out) : bands_within 0 max out :=
  ⟨h.1, h.2.1⟩

/-! ## Search indices -/

/-- The search loop returns `-1` or an index of its range at which the predicate holds and
before which it does not. -/
theorem first_index_spec (p : Int → Bool) :
    ∀ (n : Nat) (k : Int),
      (first_index p n k = -1 ∧ ∀ j, k ≤ j → j < k + n → p j = false) ∨
      (k ≤ first_index p n k ∧ first_index p n k < k + n ∧ p (first_index p n k) = true ∧
        ∀ j, k ≤ j → j < first_index p n k → p j = false) := by
  intro n
  induction n with
  | zero =>
    intro k
    left
    refine ⟨rfl, ?_⟩
    intro j h1 h2
    simp at h2
    omega
  | succ n ih =>
    intro k
    simp only [first_index]
    by_cases hp : p k = true
    · rw [if_pos hp]
      right
      refine ⟨le_refl _, by push_cast; omega, hp, ?_⟩
      intro j h1 h2
      omega
    · rw [if_neg hp]
      have hpk : p k = false := by simpa using hp
      rcases ih (k + 1) with ⟨h1, h2⟩ | ⟨h1, h2, h3, h4⟩
      · left
        refine ⟨h1, ?_⟩
        intro j hj1 hj2
        by_cases hjk : j = k
        · subst hjk
          exact hpk
        · exact h2 j (by omega) (by push_cast at hj2; omega)
      · right
        refine ⟨by omega, by push_cast; omega, h3, ?_⟩
        intro j hj1 hj2
        by_cases hjk : j = k
        · subst hjk
          exact hpk
        · exact h4 j (by omega) hj2

theorem first_los_step_le {V Own Ac : Type} (K : Kit V Own Ac) (det : Detection3D V) (tstep : ℚ)
    (trajdir : Bool) (min max : Int) (ownship : Own) (traffic : List Ac) :
    first_los_step K det tstep trajdir min max ownship traffic ≤ max ∨
      first_los_step K det tstep trajdir min max ownship traffic < 0 := by
  unfold first_los_step
  rcases first_index_spec
    (fun k => any_los_aircraft K det trajdir ((k : ℚ) * tstep) ownship traffic)
    (max + 1 - min).toNat min with ⟨h1, _⟩ | ⟨h1, h2, _, _⟩
  · right
    rw [h1]
    decide
  · left
    omega

theorem first_los_search_index_le {V Own Ac : Type} (K : Kit V Own Ac)
    (conflict_det : Detection3D V) (recovery_det : Option (Detection3D V))
    (tstep B T B2 T2 : ℚ) (trajdir : Bool) (max : Int) (ownship : Own) (traffic : List Ac) :
    first_los_search_index K conflict_det recovery_det tstep B T B2 T2 trajdir max ownship traffic
      ≤ max + 1 := by
  unfold first_los_search_index
  simp only
  apply le_trans (min_le_right _ _)
  split
  · exact le_refl _
  · rename_i h
    rcases first_los_step_le K conflict_det tstep trajdir ⌈B / tstep⌉ (min ⌊T / tstep⌋ max)
      ownship traffic with h1 | h1
    · have := min_le_right ⌊T / tstep⌋ max
      omega
    · exact absurd h1 h

theorem bands_search_index_le {V Own Ac : Type} (K : Kit V Own Ac)
    (conflict_det : Detection3D V) (recovery_det : Option (Detection3D V))
    (tstep B T B2 T2 : ℚ) (trajdir : Bool) (max : Int) (ownship : Own) (traffic : List Ac)
    (repac : Ac) (epsh epsv : Int) :
    bands_search_index K conflict_det recovery_det tstep B T B2 T2 trajdir max ownship traffic
      repac epsh epsv ≤ max + 1 := by
  unfold bands_search_index
  simp only
  exact le_trans (min_le_left _ _) (le_trans (min_le_left _ _)
    (first_los_search_index_le K conflict_det recovery_det tstep B T B2 T2 trajdir max ownship
      traffic))

/-! ## One side: `kinematic_bands` -/

theorem bands_within_nil (lo hi : Int) : bands_within lo hi [] := by
  refine ⟨?_, List.chain'_nil⟩
  intro a ha
  simp at ha

theorem bands_within_mono (lo hi hi2 : Int) (l : List Integerval) (h : bands_within lo hi l)
    (hh : hi ≤ hi2) : bands_within lo hi2 l := by
  refine ⟨?_, h.2⟩
  intro a ha
  have := h.1 a ha
  omega

/-- The list of `kinematic_bands` is the scan of `[0, bsi - 1]`, or nothing when `bsi = 0`. -/
theorem kinematic_bands_eq {V Own Ac : Type} (K : Kit V Own Ac)
    (conflict_det : Detection3D V) (recovery_det : Option (Detection3D V))
    (tstep B T B2 T2 : ℚ) (trajdir : Bool) (max : Int) (ownship : Own) (traffic : List Ac)
    (repac : Ac) (epsh epsv : Int) :
    kinematic_bands K conflict_det recovery_det tstep B T B2 T2 trajdir max ownship traffic
        repac epsh epsv =
      if bands_search_index K conflict_det recovery_det tstep B T B2 T2 trajdir max ownship
          traffic repac epsh epsv ≠ 0 then
        traj_out (fun k => any_conflict K conflict_det recovery_det B T B2 T2 trajdir (tstep * k)
          ownship traffic)
          (bands_search_index K conflict_det recovery_det tstep B T B2 T2 trajdir max ownship
            traffic repac epsh epsv - 1)
      else [] := by
  rfl

theorem kinematic_bands_within {V Own Ac : Type} (K : Kit V Own Ac)
    (conflict_det : Detection3D V) (recovery_det : Option (Detection3D V))
    (tstep B T B2 T2 : ℚ) (trajdir : Bool) (max : Int) (ownship : Own) (traffic : List Ac)
    (repac : Ac) (epsh epsv : Int) :
    bands_within 0 max
      (kinematic_bands K conflict_det recovery_det tstep B T B2 T2 trajdir max ownship traffic
        repac epsh epsv) := by
  rw [kinematic_bands_eq]
  split
  · apply bands_within_mono 0 _ max _ (traj_post_within _ _ _ (traj_out_post _ _))
    have := bands_search_index_le K conflict_det recovery_det tstep B T B2 T2 trajdir max
      ownship traffic repac epsh epsv
    omega
  · exact bands_within_nil 0 max

/-! ## Both sides: `neg` and `append_intband` on well-formed lists -/

theorem gap2_flip_neg (a b : Integerval) : gap2 (flip_neg b) (flip_neg a) ↔ gap2 a b := by
  unfold gap2 flip_neg
  constructor <;> intro h <;> simp only at h ⊢ <;> omega

theorem neg_within (lo hi : Int) (l : List Integerval) (h : bands_within lo hi l) :
    bands_within (-hi) (-lo) (neg l) := by
  rw [neg_eq_reverse_map]
  refine ⟨?_, ?_⟩
  · intro a ha
    obtain ⟨b, hb, rfl⟩ := List.mem_map.1 ha
    have := h.1 b (List.mem_reverse.1 hb)
    simp only [flip_neg]
    omega
  · rw [List.chain'_map, List.chain'_reverse]
    apply h.2.imp
    intro a b hab
    exact (gap2_flip_neg a b).2 hab

/-- Appending a list that lies to the right of `l` keeps the result well-formed, whether or not
the two facing intervals are coalesced. -/
theorem append_intband_within (lo mid hi : Int) (l r : List Integerval)
    (hl : bands_within lo mid l) (hr : bands_within mid hi r) :
    bands_within (min lo mid) (max mid hi) (append_intband l r).1 := by
  have hL : ∀ c ∈ l, min lo mid ≤ c.lb ∧ c.lb ≤ c.ub ∧ c.ub ≤ max mid hi := by
    intro c hc
    have := hl.1 c hc
    exact ⟨le_trans (min_le_left _ _) this.1, this.2.1, le_trans this.2.2 (le_max_left _ _)⟩
  have hR : ∀ c ∈ r, min lo mid ≤ c.lb ∧ c.lb ≤ c.ub ∧ c.ub ≤ max mid hi := by
    intro c hc
    have := hr.1 c hc
    exact ⟨le_trans (min_le_right _ _) this.1, this.2.1, le_trans this.2.2 (le_max_right _ _)⟩
  rcases List.eq_nil_or_concat l with rfl | ⟨l0, a, rfl⟩
  · rw [append_intband_nil_left]
    exact ⟨hR, hr.2⟩
  · rw [List.concat_eq_append] at hl hL ⊢
    cases r with
    | nil =>
      rw [append_intband_nil_right]
      exact ⟨hL, hl.2⟩
    | cons b r0 =>
      rw [append_intband_snoc_cons]
      have ha := hl.1 a (by simp)
      have hb := hr.1 b (by simp)
      have hLa := hL a (by simp)
      have hRb := hR b (by simp)
      by_cases hc : b.lb - a.ub ≤ 1
      · rw [if_pos hc]
        refine ⟨?_, ?_⟩
        · intro c hc'
          simp only [List.mem_append, List.mem_singleton] at hc'
          rcases hc' with (hc' | hc') | hc'
          · exact hL c (by simp [hc'])
          · subst hc'
            simp only
            omega
          · exact hR c (by simp [hc'])
        · rw [List.append_assoc, List.singleton_append, List.chain'_split]
          constructor
          · have h1 := List.chain'_append.1 hl.2
            apply List.Chain'.append h1.1 (List.chain'_singleton _)
            intro x hx y hy
            have hy' : (⟨a.lb, b.ub⟩ : Integerval) = y := by simpa using hy
            subst hy'
            have := h1.2.2 x hx a (by simp)
            unfold gap2 at this ⊢
            simpa using this
          · apply List.Chain'.imp_head _ hr.2
            intro z hz
            unfold gap2 at hz ⊢
            simpa using hz
      · rw [if_neg hc]
        refine ⟨?_, ?_⟩
        · intro c hc'
          rw [List.mem_append] at hc'
          rcases hc' with hc' | hc'
          · exact hL c hc'
          · exact hR c hc'
        · apply List.Chain'.append hl.2 hr.2
          intro x hx y hy
          have hx' : a = x := by simpa using hx
          have hy' : b = y := by simpa using hy
          subst hx' hy'
          unfold gap2
          omega

/-- The combined list is well-formed and lies in `[min (-maxl) 0, max 0 maxr]`. -/
theorem kinematic_bands_combine_within {V Own Ac : Type} (K : Kit V Own Ac)
    (conflict_det : Detection3D V) (recovery_det : Option (Detection3D V))
    (tstep B T B2 T2 : ℚ) (maxl maxr : Int) (ownship : Own) (traffic : List Ac)
    (repac : Ac) (epsh epsv : Int) :
    bands_within (min (-maxl) 0) (max 0 maxr)
      (kinematic_bands_combine K conflict_det recovery_det tstep B T B2 T2 maxl maxr ownship
        traffic repac epsh epsv) := by
  unfold kinematic_bands_combine
  simp only
  apply append_intband_within
  · have := neg_within 0 maxl _ (kinematic_bands_within K conflict_det recovery_det tstep B T B2
      T2 false maxl ownship traffic repac epsh epsv)
    simpa using this
  · exact kinematic_bands_within K conflict_det recovery_det tstep B T B2 T2 true maxr ownship
      traffic repac epsh epsv

theorem bands_within_pairwise (lo hi : Int) (l : List Integerval) (h : bands_within lo hi l) :
    l.Pairwise (fun a b => a.lb < b.lb) := by
  obtain ⟨h1, h2⟩ := h
  induction l with
  | nil => exact List.Pairwise.nil
  | cons a t ih =>
    have ht : ∀ c ∈ t, lo ≤ c.lb ∧ c.lb ≤ c.ub ∧ c.ub ≤ hi := fun c hc => h1 c (by simp [hc])
    have hpt := ih ht h2.tail
    refine List.Pairwise.cons ?_ hpt
    intro b hb
    cases t with
    | nil => simp at hb
    | cons c t2 =>
      have hac : gap2 a c := h2.rel_head
      have ha := h1 a (by simp)
      unfold gap2 at hac
      rcases List.mem_cons.1 hb with rfl | hb2
      · omega
      · have := List.rel_of_pairwise_cons hpt hb2
        omega


/-! ## Coverage: which indices the lists contain -/

theorem covers_traj_out (conf : Int → Bool) (max k : Int) :
    covers (traj_out conf max) k ↔ 0 ≤ k ∧ k ≤ max ∧ conf k = false := by
  obtain ⟨h1, _, h3⟩ := traj_out_post conf max
  constructor
  · intro hc
    obtain ⟨a, ha, h4, h5⟩ := hc
    have hb := h1 a ha
    have hk0 : 0 ≤ k := by omega
    have hkm : k ≤ max := by omega
    exact ⟨hk0, hkm, (h3 k hk0 hkm).1 ⟨a, ha, h4, h5⟩⟩
  · rintro ⟨hk0, hkm, hc⟩
    exact (h3 k hk0 hkm).2 hc

theorem covers_neg (l : List Integerval) (j : Int) : covers (neg l) j ↔ covers l (-j) := by
  rw [neg_eq_reverse_map]
  unfold covers
  constructor
  · rintro ⟨a, ha, h1, h2⟩
    obtain ⟨b, hb, rfl⟩ := List.mem_map.1 ha
    refine ⟨b, List.mem_reverse.1 hb, ?_, ?_⟩ <;> simp only [flip_neg] at h1 h2 <;> omega
  · rintro ⟨a, ha, h1, h2⟩
    refine ⟨flip_neg a, List.mem_map.2 ⟨a, List.mem_reverse.2 ha, rfl⟩, ?_, ?_⟩ <;>
      simp only [flip_neg] <;> omega

/-- On a left list that ends at or before `mid` and a right list that starts at or after `mid`,
`append_intband` neither adds nor loses an index, coalescing included. -/
theorem covers_append_intband (lo mid hi : Int) (l r : List Integerval)
    (hl : bands_within lo mid l) (hr : bands_within mid hi r) (j : Int) :
    covers (append_intband l r).1 j ↔ covers l j ∨ covers r j := by
  rcases List.eq_nil_or_concat l with rfl | ⟨l0, a, rfl⟩
  · rw [append_intband_nil_left]
    simp [covers_nil]
  · rw [List.concat_eq_append] at hl ⊢
    cases r with
    | nil =>
      rw [append_intband_nil_right]
      simp [covers_nil]
    | cons b r0 =>
      rw [append_intband_snoc_cons]
      have ha := hl.1 a (by simp)
      have hb := hr.1 b (by simp)
      by_cases hc : b.lb - a.ub ≤ 1
      · rw [if_pos hc]
        have e : b :: r0 = [b] ++ r0 := rfl
        rw [e]
        simp only [covers_append, covers_singleton]
        constructor
        · rintro ((h | h) | h)
          · exact Or.inl (Or.inl h)
          · by_cases hj : j ≤ a.ub
            · exact Or.inl (Or.inr ⟨h.1, hj⟩)
            · exact Or.inr (Or.inl ⟨by omega, h.2⟩)
          · exact Or.inr (Or.inr h)
        · rintro ((h | h) | (h | h))
          · exact Or.inl (Or.inl h)
          · exact Or.inl (Or.inr ⟨h.1, by omega⟩)
          · exact Or.inl (Or.inr ⟨by omega, h.2⟩)
          · exact Or.inr h
      · rw [if_neg hc, covers_append]

/-- Content of the combined list: the signed index `j` is covered exactly when `-j` is covered
on the left side or `j` on the right side. -/
theorem covers_kinematic_bands_combine {V Own Ac : Type} (K : Kit V Own Ac)
    (conflict_det : Detection3D V) (recovery_det : Option (Detection3D V))
    (tstep B T B2 T2 : ℚ) (maxl maxr : Int) (ownship : Own) (traffic : List Ac)
    (repac : Ac) (epsh epsv : Int) (j : Int) :
    covers (kinematic_bands_combine K conflict_det recovery_det tstep B T B2 T2 maxl maxr ownship
        traffic repac epsh epsv) j ↔
      covers (kinematic_bands K conflict_det recovery_det tstep B T B2 T2 false maxl ownship
        traffic repac epsh epsv) (-j) ∨
      covers (kinematic_bands K conflict_det recovery_det tstep B T B2 T2 true maxr ownship
        traffic repac epsh epsv) j := by
  unfold kinematic_bands_combine
  simp only
  rw [covers_append_intband (-maxl) 0 maxr, covers_neg]
  · have := neg_within 0 maxl _ (kinematic_bands_within K conflict_det recovery_det tstep B T B2
      T2 false maxl ownship traffic repac epsh epsv)
    simpa using this
  · exact kinematic_bands_within K conflict_det recovery_det tstep B T B2 T2 true maxr ownship
      traffic repac epsh epsv

/-- On one side the covered indices are the conflict-free samples below the search index. -/
theorem covers_kinematic_bands {V Own Ac : Type} (K : Kit V Own Ac)
    (conflict_det : Detection3D V) (recovery_det : Option (Detection3D V))
    (tstep B T B2 T2 : ℚ) (trajdir : Bool) (max : Int) (ownship : Own) (traffic : List Ac)
    (repac : Ac) (epsh epsv : Int) (k : Int) :
    covers (kinematic_bands K conflict_det recovery_det tstep B T B2 T2 trajdir max ownship
        traffic repac epsh epsv) k ↔
      0 ≤ k ∧
      k < bands_search_index K conflict_det recovery_det tstep B T B2 T2 trajdir max ownship
        traffic repac epsh epsv ∧
      any_conflict K conflict_det recovery_det B T B2 T2 trajdir (tstep * k) ownship traffic
        = false := by
  rw [kinematic_bands_eq]
  split
  · rw [covers_traj_out]
    constructor
    · rintro ⟨h1, h2, h3⟩
      exact ⟨h1, by omega, h3⟩
    · rintro ⟨h1, h2, h3⟩
      exact ⟨h1, by omega, h3⟩
  · rename_i h
    have h0 : bands_search_index K conflict_det recovery_det tstep B T B2 T2 trajdir max ownship
        traffic repac epsh epsv = 0 := by
      by_contra hne
      exact h hne
    rw [h0]
    constructor
    · intro hc
      exact absurd hc (covers_nil k)
    · rintro ⟨h1, h2, _⟩
      omega

/-! ## A well-formed list is determined by the indices it covers -/

theorem chain_head_gap (a : Integerval) (t : List Integerval)
    (hw : ∀ c ∈ a :: t, c.lb ≤ c.ub) (hc : (a :: t).Chain' gap2) :
    ∀ b ∈ t, a.ub + 2 ≤ b.lb := by
  induction t generalizing a with
  | nil =>
    intro b hb
    simp at hb
  | cons c t2 ih =>
    intro b hb
    have hac : gap2 a c := hc.rel_head
    unfold gap2 at hac
    rcases List.mem_cons.1 hb with rfl | hb2
    · omega
    · have hcc := hw c (by simp)
      have := ih c (fun d hd => hw d (List.mem_cons_of_mem _ hd)) hc.tail b hb2
      omega

theorem covers_cons (a : Integerval) (t : List Integerval) (j : Int) :
    covers (a :: t) j ↔ (a.lb ≤ j ∧ j ≤ a.ub) ∨ covers t j := by
  have e : a :: t = [a] ++ t := rfl
  rw [e, covers_append, covers_singleton]

/-- Two well-formed lists that cover the same indices are equal. -/
theorem eq_of_covers_eq :
    ∀ (l₁ l₂ : List Integerval),
      (∀ c ∈ l₁, c.lb ≤ c.ub) → l₁.Chain' gap2 → (∀ c ∈ l₂, c.lb ≤ c.ub) → l₂.Chain' gap2 →
      (∀ j, covers l₁ j ↔ covers l₂ j) → l₁ = l₂ := by
  intro l₁
  induction l₁ with
  | nil =>
    intro l₂ _ _ hw2 _ hcov
    cases l₂ with
    | nil => rfl
    | cons a t =>
      have h := hw2 a (by simp)
      have : covers (a :: t) a.lb := (covers_cons a t a.lb).2 (Or.inl ⟨le_refl _, h⟩)
      exact absurd ((hcov a.lb).2 this) (covers_nil _)
  | cons a₁ t₁ ih =>
    intro l₂ hw1 hc1 hw2 hc2 hcov
    cases l₂ with
    | nil =>
      have h := hw1 a₁ (by simp)
      have : covers (a₁ :: t₁) a₁.lb := (covers_cons a₁ t₁ a₁.lb).2 (Or.inl ⟨le_refl _, h⟩)
      exact absurd ((hcov a₁.lb).1 this) (covers_nil _)
    | cons a₂ t₂ =>
      have h1 := hw1 a₁ (by simp)
      have h2 := hw2 a₂ (by simp)
      have g1 := chain_head_gap a₁ t₁ hw1 hc1
      have g2 := chain_head_gap a₂ t₂ hw2 hc2
      have low1 : ∀ j, covers t₁ j → a₁.ub + 2 ≤ j := by
        rintro j ⟨b, hb, h3, _⟩
        have := g1 b hb
        omega
      have low2 : ∀ j, covers t₂ j → a₂.ub + 2 ≤ j := by
        rintro j ⟨b, hb, h3, _⟩
        have := g2 b hb
        omega
      have c1 : ∀ j, covers (a₁ :: t₁) j ↔ (a₁.lb ≤ j ∧ j ≤ a₁.ub) ∨ covers t₁ j :=
        covers_cons a₁ t₁
      have c2 : ∀ j, covers (a₂ :: t₂) j ↔ (a₂.lb ≤ j ∧ j ≤ a₂.ub) ∨ covers t₂ j :=
        covers_cons a₂ t₂
      have elb : a₁.lb = a₂.lb := by
        have k1 : a₂.lb ≤ a₁.lb := by
          rcases (c2 a₁.lb).1 ((hcov a₁.lb).1 ((c1 a₁.lb).2 (Or.inl ⟨le_refl _, h1⟩))) with h | h
          · exact h.1
          · have := low2 _ h
            omega
        have k2 : a₁.lb ≤ a₂.lb := by
          rcases (c1 a₂.lb).1 ((hcov a₂.lb).2 ((c2 a₂.lb).2 (Or.inl ⟨le_refl _, h2⟩))) with h | h
          · exact h.1
          · have := low1 _ h
            omega
        omega
      have eub : a₁.ub = a₂.ub := by
        have k1 : ¬ a₁.ub < a₂.ub := by
          intro hlt
          rcases (c1 (a₁.ub + 1)).1 ((hcov _).2 ((c2 (a₁.ub + 1)).2
            (Or.inl ⟨by omega, by omega⟩))) with h | h
          · omega
          · have := low1 _ h
            omega
        have k2 : ¬ a₂.ub < a₁.ub := by
          intro hlt
          rcases (c2 (a₂.ub + 1)).1 ((hcov _).1 ((c1 (a₂.ub + 1)).2
            (Or.inl ⟨by omega, by omega⟩))) with h | h
          · omega
          · have := low2 _ h
            omega
        omega
      have ea : a₁ = a₂ := by
        cases a₁
        cases a₂
        simp only at elb eub
        rw [elb, eub]
      subst ea
      have et : t₁ = t₂ := by
        apply ih t₂ (fun c hc => hw1 c (List.mem_cons_of_mem _ hc)) hc1.tail
          (fun c hc => hw2 c (List.mem_cons_of_mem _ hc)) hc2.tail
        intro j
        constructor
        · intro h
          rcases (c2 j).1 ((hcov j).1 ((c1 j).2 (Or.inr h))) with h3 | h3
          · have := low1 j h
            omega
          · exact h3
        · intro h
          rcases (c1 j).1 ((hcov j).2 ((c2 j).2 (Or.inr h))) with h3 | h3
          · have := low2 j h
            omega
          · exact h3
      rw [et]

/-! ## Search indices without repulsion and without loss of separation -/

theorem first_index_none (p : Int → Bool) (n : Nat) (k : Int)
    (h : ∀ j, k ≤ j → j < k + n → p j = false) : first_index p n k = -1 := by
  rcases first_index_spec p n k with ⟨h1, _⟩ | ⟨h1, h2, h3, _⟩
  · exact h1
  · rw [h _ h1 h2] at h3
    exact absurd h3 (by decide)

/-- When neither repulsion check is active (`repac` invalid or the epsilon zero),
`bands_search_index` is `first_los_search_index`. -/
theorem bands_search_index_of_no_crit {V Own Ac : Type} (K : Kit V Own Ac)
    (conflict_det : Detection3D V) (recovery_det : Option (Detection3D V))
    (tstep B T B2 T2 : ℚ) (trajdir : Bool) (max : Int) (ownship : Own) (traffic : List Ac)
    (repac : Ac) (epsh epsv : Int)
    (hh : (K.isValid repac && epsh != 0) = false) (hv : (K.isValid repac && epsv != 0) = false) :
    bands_search_index K conflict_det recovery_det tstep B T B2 T2 trajdir max ownship traffic
        repac epsh epsv =
      first_los_search_index K conflict_det recovery_det tstep B T B2 T2 trajdir max ownship
        traffic := by
  have hle := first_los_search_index_le K conflict_det recovery_det tstep B T B2 T2 trajdir max
    ownship traffic
  unfold bands_search_index
  simp only [hh, hv, Bool.not_false, Bool.true_or, if_true]
  generalize first_los_search_index K conflict_det recovery_det tstep B T B2 T2 trajdir max
    ownship traffic = f at hle ⊢
  have e1 : min f (if f < 0 then max + 1 else f) = f := by
    split
    · exact min_eq_left hle
    · exact min_self f
  rw [e1, e1]

/-- Without a recovery detector and without loss of separation at the samples `0 .. max`, the
search reaches `max + 1`. -/
theorem first_los_search_index_of_no_los {V Own Ac : Type} (K : Kit V Own Ac)
    (conflict_det : Detection3D V) (tstep B T B2 T2 : ℚ) (trajdir : Bool) (max : Int)
    (ownship : Own) (traffic : List Ac)
    (hlos : ∀ k : Int, 0 ≤ k → k ≤ max →
      any_los_aircraft K conflict_det trajdir ((k : ℚ) * tstep) ownship traffic = false) :
    first_los_search_index K conflict_det none tstep B T B2 T2 trajdir max ownship traffic
      = max + 1 := by
  have hN : min ⌊T / tstep⌋ max ≤ max := min_le_right _ _
  have h1 : first_los_step K conflict_det tstep trajdir ⌈B / tstep⌉ (min ⌊T / tstep⌋ max)
      ownship traffic < 0 := by
    unfold first_los_step
    rcases first_index_spec
      (fun k => any_los_aircraft K conflict_det trajdir ((k : ℚ) * tstep) ownship traffic)
      (min ⌊T / tstep⌋ max + 1 - ⌈B / tstep⌉).toNat ⌈B / tstep⌉ with ⟨h, _⟩ | ⟨h2, h3, h4, _⟩
    · rw [h]
      decide
    · by_contra hneg
      have h5 := hlos _ (not_lt.1 hneg) (by omega)
      rw [h5] at h4
      exact absurd h4 (by decide)
  unfold first_los_search_index
  simp only [h1, if_true]
  simp

/-! ## Facts about the concrete world -/

theorem lineKit_no_los (det : Detection3D ℚ) (hdet : ∀ a b c d, det.violation a b c d = false)
    (trajdir : Bool) (t : ℚ) (traffic : List Bool) :
    any_los_aircraft lineKit det trajdir t () traffic = false := by
  simp [any_los_aircraft, hdet]

theorem lineKit_detS2_left (k : Int) (h0 : 0 ≤ k) (h1 : k ≤ 8) :
    any_conflict lineKit detS2 none 0 60 0 0 false (1 * (k : ℚ)) () [true] = true ↔
      3 ≤ k ∧ k ≤ 7 := by
  have h0q : (0 : ℚ) ≤ k := by exact_mod_cast h0
  have h1q : (k : ℚ) ≤ 8 := by exact_mod_cast h1
  simp [any_conflict, any_conflict_aircraft, cd_future_traj, lineKit, detS2]
  constructor
  · rintro ⟨_, (⟨h2, h3⟩ | ⟨h2, _⟩)⟩
    · exact ⟨by exact_mod_cast h3, by exact_mod_cast h2⟩
    · linarith
  · rintro ⟨h2, h3⟩
    have h2q : (3 : ℚ) ≤ k := by exact_mod_cast h2
    have h3q : (k : ℚ) ≤ 7 := by exact_mod_cast h3
    exact ⟨by linarith, Or.inl ⟨h3q, h2q⟩⟩

theorem lineKit_detS2_right (k : Int) (h0 : 0 ≤ k) (h1 : k ≤ 8) :
    any_conflict lineKit detS2 none 0 60 0 0 true (1 * (k : ℚ)) () [true] = true ↔
      4 ≤ k ∧ k ≤ 6 := by
  have h0q : (0 : ℚ) ≤ k := by exact_mod_cast h0
  have h1q : (k : ℚ) ≤ 8 := by exact_mod_cast h1
  simp [any_conflict, any_conflict_aircraft, cd_future_traj, lineKit, detS2]
  constructor
  · rintro ⟨_, (⟨h2, _⟩ | ⟨h2, h3⟩)⟩
    · linarith
    · exact ⟨by exact_mod_cast h2, by exact_mod_cast h3⟩
  · rintro ⟨h2, h3⟩
    have h2q : (4 : ℚ) ≤ k := by exact_mod_cast h2
    have h3q : (k : ℚ) ≤ 6 := by exact_mod_cast h3
    exact ⟨by linarith, Or.inr ⟨h2q, h3q⟩⟩

theorem lineKit_detNone_free (trajdir : Bool) (t : ℚ) (traffic : List Bool) :
    any_conflict lineKit detNone none 0 60 0 0 trajdir t () traffic = false := by
  simp [any_conflict, any_conflict_aircraft, cd_future_traj, detNone]

theorem detS4_conflict (K : Kit ℚ Unit Bool)
    (hK : ∀ t, (K.trajectory () t true).1 = t) (i : Int) (h0 : 0 ≤ i) (h1 : i ≤ 2) :
    ¬ conflict_free_step K detS4 none 1 0 60 0 0 true () [true] i := by
  have h0q : (0 : ℚ) ≤ i := by exact_mod_cast h0
  have h1q : (i : ℚ) ≤ 2 := by exact_mod_cast h1
  have h2 : ¬ (60 : ℚ) < i := by linarith
  simp [conflict_free_step, any_conflict, any_conflict_aircraft, cd_future_traj, detS4, hK, h1q,
    h2]

/-! ## The loop of `first_green` -/

/-- What the loop of `first_green` returns: `-1` after a `bad` step that no `free` step
precedes or when no step is `free`, and otherwise the first `free` step. -/
theorem green_loop_spec (bad free : Int → Bool) :
    ∀ (n : Nat) (k : Int),
      (green_loop bad free n k = -1 ∧
        ((∃ j, k ≤ j ∧ j < k + n ∧ bad j = true ∧
            ∀ i, k ≤ i → i < j → bad i = false ∧ free i = false) ∨
          (∀ i, k ≤ i → i < k + n → bad i = false ∧ free i = false))) ∨
      (k ≤ green_loop bad free n k ∧ green_loop bad free n k < k + n ∧
        bad (green_loop bad free n k) = false ∧ free (green_loop bad free n k) = true ∧
        ∀ i, k ≤ i → i < green_loop bad free n k → bad i = false ∧ free i = false) := by
  intro n
  induction n with
  | zero =>
    intro k
    left
    refine ⟨rfl, Or.inr ?_⟩
    intro i h1 h2
    simp at h2
    omega
  | succ n ih =>
    intro k
    simp only [green_loop]
    by_cases hb : bad k = true
    · rw [if_pos hb]
      left
      refine ⟨rfl, Or.inl ⟨k, le_refl _, by push_cast; omega, hb, ?_⟩⟩
      intro i h1 h2
      omega
    · rw [if_neg hb]
      have hbk : bad k = false := by simpa using hb
      by_cases hf : free k = true
      · rw [if_pos hf]
        right
        refine ⟨le_refl _, by push_cast; omega, hbk, hf, ?_⟩
        intro i h1 h2
        omega
      · rw [if_neg hf]
        have hfk : free k = false := by simpa using hf
        have hpre : ∀ (m : Int), (∀ i, k + 1 ≤ i → i < m → bad i = false ∧ free i = false) →
            ∀ i, k ≤ i → i < m → bad i = false ∧ free i = false := by
          intro m h i h1 h2
          by_cases hik : i = k
          · subst hik
            exact ⟨hbk, hfk⟩
          · exact h i (by omega) h2
        rcases ih (k + 1) with ⟨h1, h2⟩ | ⟨h1, h2, h3, h4, h5⟩
        · left
          refine ⟨h1, ?_⟩
          rcases h2 with ⟨j, hj1, hj2, hj3, hj4⟩ | h2
          · exact Or.inl ⟨j, by omega, by push_cast; omega, hj3, hpre j hj4⟩
          · right
            have e : k + ((n + 1 : Nat) : Int) = k + 1 + n := by push_cast; omega
            rw [e]
            exact hpre _ h2
        · right
          exact ⟨by omega, by push_cast; omega, h3, h4, hpre _ h5⟩

section GreenFacts

variable {V Own Ac : Type} (K : Kit V Own Ac)
  (conflict_det : Detection3D V) (recovery_det : Option (Detection3D V))
  (tstep B T B2 T2 : ℚ) (trajdir : Bool) (max : Int) (ownship : Own) (traffic : List Ac)
  (repac : Ac) (epsh epsv : Int)

theorem green_bad_iff (j : Int) :
    green_bad K conflict_det recovery_det tstep B T B2 T2 trajdir ownship traffic repac epsh epsv j
        = true ↔
      forbidden_step K conflict_det recovery_det tstep B T B2 T2 trajdir ownship traffic repac
        epsh epsv j := by
  unfold green_bad forbidden_step
  cases recovery_det with
  | none => simp [and_assoc, or_assoc]
  | some rd => simp [and_assoc, or_assoc]

theorem green_free_iff (k : Int) :
    green_free K conflict_det recovery_det B T B2 T2 tstep trajdir ownship traffic k = true ↔
      conflict_free_step K conflict_det recovery_det tstep B T B2 T2 trajdir ownship traffic k := by
  unfold green_free conflict_free_step any_conflict
  cases recovery_det with
  | none => simp
  | some rd => simp

theorem green_bad_false_iff (j : Int) :
    green_bad K conflict_det recovery_det tstep B T B2 T2 trajdir ownship traffic repac epsh epsv j
        = false ↔
      ¬ forbidden_step K conflict_det recovery_det tstep B T B2 T2 trajdir ownship traffic repac
        epsh epsv j := by
  rw [← green_bad_iff]
  simp

theorem green_free_false_iff (k : Int) :
    green_free K conflict_det recovery_det B T B2 T2 tstep trajdir ownship traffic k = false ↔
      ¬ conflict_free_step K conflict_det recovery_det tstep B T B2 T2 trajdir ownship traffic
        k := by
  rw [← green_free_iff]
  simp

/-- The three outcomes of `first_green`, in the vocabulary of the statements. -/
theorem first_green_cases :
    (first_green K conflict_det recovery_det tstep B T B2 T2 trajdir max ownship traffic repac
        epsh epsv = -1 ∧
      ((∃ j, 0 ≤ j ∧ j ≤ max ∧
          forbidden_step K conflict_det recovery_det tstep B T B2 T2 trajdir ownship traffic
            repac epsh epsv j ∧
          ∀ i, 0 ≤ i → i < j →
            ¬ forbidden_step K conflict_det recovery_det tstep B T B2 T2 trajdir ownship traffic
              repac epsh epsv i ∧
            ¬ conflict_free_step K conflict_det recovery_det tstep B T B2 T2 trajdir ownship
              traffic i) ∨
        (∀ i, 0 ≤ i → i ≤ max →
          ¬ forbidden_step K conflict_det recovery_det tstep B T B2 T2 trajdir ownship traffic
            repac epsh epsv i ∧
          ¬ conflict_free_step K conflict_det recovery_det tstep B T B2 T2 trajdir ownship
            traffic i))) ∨
    (green_step K conflict_det recovery_det tstep B T B2 T2 trajdir max ownship traffic repac
        epsh epsv
        (first_green K conflict_det recovery_det tstep B T B2 T2 trajdir max ownship traffic
          repac epsh epsv) ∧
      ∀ i, 0 ≤ i →
        i < first_green K conflict_det recovery_det tstep B T B2 T2 trajdir max ownship traffic
          repac epsh epsv →
        ¬ conflict_free_step K conflict_det recovery_det tstep B T B2 T2 trajdir ownship
          traffic i) := by
  unfold first_green green_step
  rcases green_loop_spec
    (green_bad K conflict_det recovery_det tstep B T B2 T2 trajdir ownship traffic repac epsh epsv)
    (green_free K conflict_det recovery_det B T B2 T2 tstep trajdir ownship traffic)
    (max + 1).toNat 0 with ⟨h1, h2⟩ | ⟨h1, h2, h3, h4, h5⟩
  · left
    refine ⟨h1, ?_⟩
    rcases h2 with ⟨j, hj1, hj2, hj3, hj4⟩ | h2
    · left
      refine ⟨j, hj1, by omega, (green_bad_iff ..).1 hj3, ?_⟩
      intro i hi1 hi2
      have := hj4 i hi1 hi2
      exact ⟨(green_bad_false_iff ..).1 this.1, (green_free_false_iff ..).1 this.2⟩
    · right
      intro i hi1 hi2
      have := h2 i hi1 (by omega)
      exact ⟨(green_bad_false_iff ..).1 this.1, (green_free_false_iff ..).1 this.2⟩
  · right
    refine ⟨⟨h1, by omega, (green_free_iff ..).1 h4, ?_⟩, ?_⟩
    · intro j hj1 hj2
      rcases lt_or_eq_of_le hj2 with h | h
      · exact (green_bad_false_iff ..).1 (h5 j hj1 h).1
      · rw [h]
        exact (green_bad_false_iff ..).1 h3
    · intro i hi1 hi2
      exact (green_free_false_iff ..).1 (h5 i hi1 hi2).2

end GreenFacts

/-! ## Red bands -/

theorem exists_index_of (p : Int → Bool) :
    ∀ (n : Nat) (k j : Int), k ≤ j → j < k + n → p j = true → exists_index p n k = true := by
  intro n
  induction n with
  | zero =>
    intro k j h1 h2 _
    simp at h2
    omega
  | succ n ih =>
    intro k j h1 h2 hp
    simp only [exists_index]
    by_cases hk : p k = true
    · rw [if_pos hk]
    · rw [if_neg hk]
      have hjk : j ≠ k := by
        intro h
        rw [h] at hp
        exact hk hp
      exact ih (k + 1) j (by omega) (by push_cast at h2; omega) hp

theorem first_index_nonneg_of (p : Int → Bool) (n : Nat) (k j : Int) (hk : 0 ≤ k) (h1 : k ≤ j)
    (h2 : j < k + n) (hp : p j = true) : 0 ≤ first_index p n k := by
  rcases first_index_spec p n k with ⟨_, h⟩ | ⟨h, _⟩
  · rw [h j h1 h2] at hp
    exact absurd hp (by decide)
  · omega

/-- For a detector whose loss of separation is a conflict over `[0, T']`, a loss of separation
at a time `t` of `[B, T]` makes `any_conflict_aircraft` true at `t`. -/
theorem any_conflict_aircraft_of_los {V Own Ac : Type} (K : Kit V Own Ac) (det : Detection3D V)
    (hdet : violation_is_conflict det) (B T : ℚ) (trajdir : Bool) (t : ℚ) (ownship : Own)
    (traffic : List Ac) (hB : B ≤ t) (hT : t ≤ T)
    (hlos : any_los_aircraft K det trajdir t ownship traffic = true) :
    any_conflict_aircraft K det B T trajdir t ownship traffic = true := by
  unfold any_los_aircraft at hlos
  unfold any_conflict_aircraft
  rw [List.any_eq_true] at hlos ⊢
  obtain ⟨ac, hac, hv⟩ := hlos
  refine ⟨ac, hac, ?_⟩
  unfold cd_future_traj
  rw [if_neg (by
    intro h
    rcases h with h | h
    · exact absurd hT (not_le.2 h)
    · exact absurd (le_trans hB hT) (not_le.2 h))]
  simp only
  rw [if_neg (not_lt.2 hB)]
  exact hdet _ _ _ _ (T - t) (by linarith) hv

/-- On a side with at least the sample `0`, a negative `first_green` comes with a red band,
provided a loss of separation is a conflict for both detectors. -/
theorem red_band_exist_of_first_green_neg {V Own Ac : Type} (K : Kit V Own Ac)
    (conflict_det : Detection3D V) (recovery_det : Option (Detection3D V))
    (tstep B T B2 T2 : ℚ) (trajdir : Bool) (max : Int) (ownship : Own) (traffic : List Ac)
    (repac : Ac) (epsh epsv : Int) (hmax : 0 ≤ max)
    (hcd : violation_is_conflict conflict_det)
    (hrd : ∀ d, recovery_det = some d → violation_is_conflict d)
    (h : first_green K conflict_det recovery_det tstep B T B2 T2 trajdir max ownship traffic
      repac epsh epsv < 0) :
    red_band_exist K conflict_det recovery_det tstep B T B2 T2 trajdir max ownship traffic
      repac epsh epsv = true := by
  have hconf : ∀ j : Int, 0 ≤ j → j ≤ max →
      any_conflict K conflict_det recovery_det B T B2 T2 trajdir (tstep * j) ownship traffic
        = true →
      red_band_exist K conflict_det recovery_det tstep B T B2 T2 trajdir max ownship traffic
        repac epsh epsv = true := by
    intro j hj0 hj1 hc
    unfold any_conflict at hc
    unfold red_band_exist
    simp only [Bool.or_eq_true] at hc ⊢
    rcases hc with hc | hc
    · left
      right
      unfold any_conflict_step
      exact exists_index_of _ _ 0 j hj0 (by omega) hc
    · right
      cases recovery_det with
      | none => simp at hc
      | some rd =>
        simp only at hc ⊢
        unfold any_conflict_step
        exact exists_index_of _ _ 0 j hj0 (by omega) hc
  rcases first_green_cases K conflict_det recovery_det tstep B T B2 T2 trajdir max ownship
    traffic repac epsh epsv with ⟨_, hA | hB⟩ | ⟨hg, _⟩
  · obtain ⟨j, hj0, hj1, hf, _⟩ := hA
    rcases hf with ⟨h1, h2, h3⟩ | ⟨rd, hrd', h1, h2, h3⟩ | ⟨h1, h2, h3⟩ | ⟨h1, h2, h3⟩
    · apply hconf j hj0 hj1
      unfold any_conflict
      rw [any_conflict_aircraft_of_los K conflict_det hcd B T trajdir _ ownship traffic h1 h2 h3]
      rfl
    · apply hconf j hj0 hj1
      unfold any_conflict
      subst hrd'
      simp only
      rw [any_conflict_aircraft_of_los K rd (hrd rd rfl) B2 T2 trajdir _ ownship traffic h1 h2 h3]
      simp
    · unfold red_band_exist
      have : 0 ≤ first_nonrepulsive_step K tstep trajdir max ownship repac epsh := by
        unfold first_nonrepulsive_step
        exact first_index_nonneg_of _ _ 0 j (le_refl _) hj0 (by omega) (by simp [h3])
      simp [h1, h2, this]
    · unfold red_band_exist
      have : 0 ≤ first_nonvert_repul_step K tstep trajdir max ownship repac epsv := by
        unfold first_nonvert_repul_step
        exact first_index_nonneg_of _ _ 0 j (le_refl _) hj0 (by omega) (by simp [h3])
      simp [h1, h2, this]
  · have h0 := (hB 0 (le_refl _) hmax).2
    unfold conflict_free_step at h0
    exact hconf 0 (le_refl _) hmax (by simpa using h0)
  · have := hg.1
    omega

/-! ## Urgency: a list of two intruders -/

/-- The result of `mostUrgentAircraft` on a list of two intruders in conflict, the first one
valid: the second replaces the first exactly when the replacement test of the loop holds for
it. -/
theorem mostUrgentAircraft_pair {V P Own Ac : Type} (U : UrgencyKit V P Own Ac)
    (detector : Detection3D V) (ownship : Own) (T : ℚ) (X Y : Ac)
    (hown : U.ownValid ownship = true) (hX : U.isValid X = true)
    (hcX : in_conflict U detector ownship T X = true)
    (hcY : in_conflict U detector ownship T Y = true) :
    mostUrgentAircraft U detector ownship [X, Y] T =
      if (if dcpa_of U ownship Y ≤ 1 then
            decide (dcpa_of U ownship X > 1) ||
              (if U.almost_equals (tcpa_of U ownship Y) (tcpa_of U ownship X) then
                decide (dcpa_of U ownship Y < dcpa_of U ownship X)
              else decide (tcpa_of U ownship Y < tcpa_of U ownship X))
          else
            (if U.almost_equals (dcpa_of U ownship Y) (dcpa_of U ownship X) then
              decide (tcpa_of U ownship Y < tcpa_of U ownship X)
            else decide (dcpa_of U ownship Y < dcpa_of U ownship X))) = true
      then Y else X := by
  unfold mostUrgentAircraft
  simp only [hown, Bool.not_true, List.isEmpty_cons, Bool.or_self, Bool.false_eq_true, if_false,
    List.foldl_cons, List.foldl_nil]
  have h1 : urgent_step U detector ownship T (U.INVALID, 0, 0) X =
      (X, dcpa_of U ownship X, tcpa_of U ownship X) := by
    unfold urgent_step
    simp [hcX, U.INVALID_isValid]
  rw [h1]
  unfold urgent_step
  simp only [hcY, if_true, hX, Bool.not_true, Bool.false_or]
  exact apply_ite Prod.fst _ _ _

/-! ## Urgency: the loop over the traffic list -/

section UrgencyFacts

variable {V P Own Ac : Type} (U : UrgencyKit V P Own Ac) (detector : Detection3D V)
  (ownship : Own) (T : ℚ)

theorem urgent_step_of_not_conflict (st : Ac × ℚ × ℚ) (ac : Ac)
    (h : in_conflict U detector ownship T ac = false) :
    urgent_step U detector ownship T st ac = st := by
  unfold urgent_step
  simp [h]

/-- The loop body keeps the state or selects the intruder it looks at, which is then in
conflict. -/
theorem urgent_step_fst (st : Ac × ℚ × ℚ) (ac : Ac) :
    urgent_step U detector ownship T st ac = st ∨
      (in_conflict U detector ownship T ac = true ∧
        (urgent_step U detector ownship T st ac).1 = ac) := by
  have key : ∀ (c : Bool) (d t : ℚ),
      (if c = true then (ac, d, t) else st) = st ∨
        (if c = true then (ac, d, t) else st).1 = ac := by
    intro c d t
    cases c <;> simp
  unfold urgent_step
  by_cases hc : in_conflict U detector ownship T ac = true
  · simp only [hc, if_true]
    exact (key _ _ _).imp id (fun h => ⟨by trivial, h⟩)
  · left
    simp [hc]

theorem urgent_step_of_invalid (st : Ac × ℚ × ℚ) (ac : Ac) (hv : U.isValid st.1 = false)
    (hc : in_conflict U detector ownship T ac = true) :
    (urgent_step U detector ownship T st ac).1 = ac := by
  unfold urgent_step
  simp [hc, hv]

theorem urgent_foldl_keep :
    ∀ (l : List Ac) (st : Ac × ℚ × ℚ),
      (∀ ac ∈ l, in_conflict U detector ownship T ac = false) →
      l.foldl (urgent_step U detector ownship T) st = st := by
  intro l
  induction l with
  | nil =>
    intro st _
    rfl
  | cons a t ih =>
    intro st h
    rw [List.foldl_cons, urgent_step_of_not_conflict U detector ownship T st a (h a (by simp))]
    exact ih st (fun ac hac => h ac (List.mem_cons_of_mem _ hac))

/-- Once an intruder of the list in conflict is selected, the selection stays one. -/
theorem urgent_foldl_selected (traffic : List Ac) :
    ∀ (l : List Ac) (st : Ac × ℚ × ℚ), (∀ ac ∈ l, ac ∈ traffic) →
      st.1 ∈ traffic → in_conflict U detector ownship T st.1 = true →
      (l.foldl (urgent_step U detector ownship T) st).1 ∈ traffic ∧
        in_conflict U detector ownship T (l.foldl (urgent_step U detector ownship T) st).1
          = true := by
  intro l
  induction l with
  | nil =>
    intro st _ h1 h2
    exact ⟨h1, h2⟩
  | cons a t ih =>
    intro st hl h1 h2
    rw [List.foldl_cons]
    have ht : ∀ ac ∈ t, ac ∈ traffic := fun ac hac => hl ac (List.mem_cons_of_mem _ hac)
    rcases urgent_step_fst U detector ownship T st a with h | ⟨hc, h⟩
    · rw [h]
      exact ih st ht h1 h2
    · apply ih _ ht
      · rw [h]
        exact hl a (by simp)
      · rw [h]
        exact hc

/-- Starting from an invalid selection, the first intruder in conflict is selected. -/
theorem urgent_foldl_first (traffic : List Ac) :
    ∀ (l : List Ac) (st : Ac × ℚ × ℚ), (∀ ac ∈ l, ac ∈ traffic) →
      U.isValid st.1 = false →
      (∃ ac ∈ l, in_conflict U detector ownship T ac = true) →
      (l.foldl (urgent_step U detector ownship T) st).1 ∈ traffic ∧
        in_conflict U detector ownship T (l.foldl (urgent_step U detector ownship T) st).1
          = true := by
  intro l
  induction l with
  | nil =>
    intro st _ _ h
    obtain ⟨ac, hac, _⟩ := h
    simp at hac
  | cons a t ih =>
    intro st hl hv hex
    rw [List.foldl_cons]
    have ht : ∀ ac ∈ t, ac ∈ traffic := fun ac hac => hl ac (List.mem_cons_of_mem _ hac)
    by_cases hc : in_conflict U detector ownship T a = true
    · have h := urgent_step_of_invalid U detector ownship T st a hv hc
      apply urgent_foldl_selected U detector ownship T traffic t _ ht
      · rw [h]
        exact hl a (by simp)
      · rw [h]
        exact hc
    · have hc' : in_conflict U detector ownship T a = false := by simpa using hc
      rw [urgent_step_of_not_conflict U detector ownship T st a hc']
      apply ih st ht hv
      obtain ⟨ac, hac, hcac⟩ := hex
      rcases List.mem_cons.1 hac with rfl | hin
      · rw [hcac] at hc'
        exact absurd hc' (by decide)
      · exact ⟨ac, hin, hcac⟩

end UrgencyFacts

/-! ## The staged search of `bands_search_index` -/

theorem least_or_congr (P Q : Int → Prop) (m r : Int) (h : ∀ k, P k ↔ Q k)
    (hr : least_or P m r) : least_or Q m r := by
  obtain ⟨h1, h2, h3, h4⟩ := hr
  exact ⟨h1, h2, fun k hk0 hk1 hq => h3 k hk0 hk1 ((h k).2 hq), fun hm => (h r).1 (h4 hm)⟩

theorem least_or_min (P Q : Int → Prop) (m a b : Int) (ha : least_or P m a)
    (hb : least_or Q m b) : least_or (fun k => P k ∨ Q k) m (min a b) := by
  obtain ⟨a1, a2, a3, a4⟩ := ha
  obtain ⟨b1, b2, b3, b4⟩ := hb
  rcases le_total a b with h | h
  · rw [min_eq_left h]
    refine ⟨a1, a2, ?_, fun hm => Or.inl (a4 hm)⟩
    intro k hk0 hk1 hpq
    rcases hpq with hp | hq
    · exact a3 k hk0 hk1 hp
    · exact b3 k hk0 (by omega) hq
  · rw [min_eq_right h]
    refine ⟨b1, b2, ?_, fun hm => Or.inr (b4 hm)⟩
    intro k hk0 hk1 hpq
    rcases hpq with hp | hq
    · exact a3 k hk0 (by omega) hp
    · exact b3 k hk0 hk1 hq

theorem least_or_none (P : Int → Prop) (m : Int) (hm : 0 ≤ m + 1) (h : ∀ k, ¬ P k) :
    least_or P m (m + 1) :=
  ⟨hm, le_refl _, fun k _ _ => h k, fun hle => absurd hle (by omega)⟩

/-- One scan of `first_los_step`, with `-1` turned into `max + 1`. -/
theorem first_los_step_least {V Own Ac : Type} (K : Kit V Own Ac) (det : Detection3D V)
    (tstep : ℚ) (trajdir : Bool) (lo hi max : Int) (ownship : Own) (traffic : List Ac)
    (hlo : 0 ≤ lo) (hmax : 0 ≤ max) :
    least_or
      (fun k => lo ≤ k ∧ k ≤ hi ∧
        any_los_aircraft K det trajdir ((k : ℚ) * tstep) ownship traffic = true) max
      (if first_los_step K det tstep trajdir lo (min hi max) ownship traffic < 0 then max + 1
        else first_los_step K det tstep trajdir lo (min hi max) ownship traffic) := by
  have hN : min hi max ≤ max := min_le_right _ _
  have hN2 : min hi max ≤ hi := min_le_left _ _
  unfold first_los_step
  rcases first_index_spec
    (fun k => any_los_aircraft K det trajdir ((k : ℚ) * tstep) ownship traffic)
    (min hi max + 1 - lo).toNat lo with ⟨h1, h2⟩ | ⟨h1, h2, h3, h4⟩
  · rw [h1, if_pos (by decide)]
    refine ⟨by omega, le_refl _, ?_, fun hle => absurd hle (by omega)⟩
    rintro k hk0 hk1 ⟨hk2, hk3, hk4⟩
    have hkN : k ≤ min hi max := le_min hk3 (by omega)
    rw [h2 k hk2 (by omega)] at hk4
    exact absurd hk4 (by decide)
  · rw [if_neg (by omega)]
    refine ⟨by omega, by omega, ?_, fun _ => ⟨h1, by omega, h3⟩⟩
    rintro k hk0 hk1 ⟨hk2, _, hk4⟩
    rw [h4 k hk2 hk1] at hk4
    exact absurd hk4 (by decide)

/-- Both scans of `first_los_search_index` together. -/
theorem first_los_search_index_least {V Own Ac : Type} (K : Kit V Own Ac)
    (conflict_det : Detection3D V) (recovery_det : Option (Detection3D V))
    (tstep B T B2 T2 : ℚ) (trajdir : Bool) (max : Int) (ownship : Own) (traffic : List Ac)
    (ht : 0 < tstep) (hB : 0 ≤ B) (hB2 : 0 ≤ B2) (hmax : 0 ≤ max) :
    least_or
      (fun k =>
        (∃ rd, recovery_det = some rd ∧ ⌈B2 / tstep⌉ ≤ k ∧ k ≤ ⌊T2 / tstep⌋ ∧
          any_los_aircraft K rd trajdir ((k : ℚ) * tstep) ownship traffic = true) ∨
        (⌈B / tstep⌉ ≤ k ∧ k ≤ ⌊T / tstep⌋ ∧
          any_los_aircraft K conflict_det trajdir ((k : ℚ) * tstep) ownship traffic = true)) max
      (first_los_search_index K conflict_det recovery_det tstep B T B2 T2 trajdir max ownship
        traffic) := by
  have hK : (0 : Int) ≤ ⌈B / tstep⌉ := Int.ceil_nonneg (div_nonneg hB (le_of_lt ht))
  have hK2 : (0 : Int) ≤ ⌈B2 / tstep⌉ := Int.ceil_nonneg (div_nonneg hB2 (le_of_lt ht))
  unfold first_los_search_index
  simp only
  apply least_or_min
  · cases recovery_det with
    | none =>
      simp only
      rw [if_pos (by decide)]
      apply least_or_none _ _ (by omega)
      rintro k ⟨rd, hrd, _⟩
      simp at hrd
    | some rd =>
      simp only
      apply least_or_congr _ _ _ _ _
        (first_los_step_least K rd tstep trajdir ⌈B2 / tstep⌉ ⌊T2 / tstep⌋ max ownship traffic
          hK2 hmax)
      intro k
      constructor
      · intro h
        exact ⟨rd, rfl, h⟩
      · rintro ⟨rd', hrd', h⟩
        have e : rd = rd' := by simpa using hrd'
        rw [e]
        exact h
  · exact first_los_step_least K conflict_det tstep trajdir ⌈B / tstep⌉ ⌊T / tstep⌋ max ownship
      traffic hK hmax

/-- One repulsion stage of `bands_search_index`: the scan below the current cutoff `r` refines
it to the first index that also fails the predicate `q`, when the stage is in use. -/
theorem least_or_stage (P : Int → Prop) (m r : Int) (use : Bool) (q : Int → Bool)
    (hr : least_or P m r) :
    least_or (fun k => P k ∨ (use = true ∧ q k = false)) m
      (min r
        (if (if (!use || r == 0) = true then r
              else first_index (fun k => !q k) (r - 1 + 1).toNat 0) < 0 then m + 1
          else
            (if (!use || r == 0) = true then r
              else first_index (fun k => !q k) (r - 1 + 1).toNat 0))) := by
  obtain ⟨h1, h2, h3, h4⟩ := hr
  by_cases hu : (!use || r == 0) = true
  · have e : (if (!use || r == 0) = true then r
        else first_index (fun k => !q k) (r - 1 + 1).toNat 0) = r := if_pos hu
    rw [e, if_neg (by omega), min_self]
    refine ⟨h1, h2, ?_, fun hm => Or.inl (h4 hm)⟩
    rintro k hk0 hk1 (hp | ⟨hq1, _⟩)
    · exact h3 k hk0 hk1 hp
    · simp only [Bool.or_eq_true, Bool.not_eq_true', beq_iff_eq] at hu
      rcases hu with hu | hu
      · rw [hu] at hq1
        exact absurd hq1 (by decide)
      · omega
  · have e : (if (!use || r == 0) = true then r
        else first_index (fun k => !q k) (r - 1 + 1).toNat 0) =
        first_index (fun k => !q k) (r - 1 + 1).toNat 0 := if_neg hu
    rw [e]
    simp only [Bool.or_eq_true, Bool.not_eq_true', beq_iff_eq, not_or] at hu
    have hut : use = true := by simpa using hu.1
    have hr0 : 0 < r := by
      have := hu.2
      omega
    have hn : ((r - 1 + 1).toNat : Int) = r := by omega
    rcases first_index_spec (fun k => !q k) (r - 1 + 1).toNat 0 with ⟨f1, f2⟩ | ⟨f1, f2, f3, f4⟩
    · rw [f1, if_pos (by decide), min_eq_left h2]
      refine ⟨h1, h2, ?_, fun hm => Or.inl (h4 hm)⟩
      rintro k hk0 hk1 (hp | ⟨_, hq2⟩)
      · exact h3 k hk0 hk1 hp
      · have := f2 k hk0 (by omega)
        simp only [hq2] at this
        exact absurd this (by decide)
    · rw [if_neg (by omega), min_eq_right (by omega)]
      refine ⟨f1, by omega, ?_, fun _ => Or.inr ⟨hut, by simpa using f3⟩⟩
      rintro k hk0 hk1 (hp | ⟨_, hq2⟩)
      · exact h3 k hk0 (by omega) hp
      · have := f4 k hk0 hk1
        simp only [hq2] at this
        exact absurd this (by decide)

/-- The value of `bands_search_index` is the first step of `[0, max]` that stops the search,
or `max + 1`. -/
theorem bands_search_index_least {V Own Ac : Type} (K : Kit V Own Ac)
    (conflict_det : Detection3D V) (recovery_det : Option (Detection3D V))
    (tstep B T B2 T2 : ℚ) (trajdir : Bool) (max : Int) (ownship : Own) (traffic : List Ac)
    (repac : Ac) (epsh epsv : Int)
    (ht : 0 < tstep) (hB : 0 ≤ B) (hB2 : 0 ≤ B2) (hmax : 0 ≤ max) :
    least_or
      (problem_step K conflict_det recovery_det tstep B T B2 T2 trajdir ownship traffic repac
        epsh epsv) max
      (bands_search_index K conflict_det recovery_det tstep B T B2 T2 trajdir max ownship
        traffic repac epsh epsv) := by
  have h0 := first_los_search_index_least K conflict_det recovery_det tstep B T B2 T2 trajdir max
    ownship traffic ht hB hB2 hmax
  have h1 := least_or_stage _ max _ (K.isValid repac && epsh != 0)
    (fun k => repulsive_at K tstep trajdir k ownship repac epsh) h0
  have h2 := least_or_stage _ max _ (K.isValid repac && epsv != 0)
    (fun k => vert_repul_at K tstep trajdir k ownship repac epsv) h1
  apply least_or_congr _ _ _ _ _ h2
  intro k
  unfold problem_step
  simp only [Bool.and_eq_true, bne_iff_ne, ne_eq]
  constructor
  · rintro (((h | h) | h) | h)
    · exact Or.inr (Or.inl h)
    · exact Or.inl h
    · exact Or.inr (Or.inr (Or.inl ⟨h.1.1, h.1.2, h.2⟩))
    · exact Or.inr (Or.inr (Or.inr ⟨h.1.1, h.1.2, h.2⟩))
  · rintro (h | h | h | h)
    · exact Or.inl (Or.inl (Or.inr h))
    · exact Or.inl (Or.inl (Or.inl h))
    · exact Or.inl (Or.inr ⟨⟨h.1, h.2.1⟩, h.2.2⟩)
    · exact Or.inr ⟨⟨h.1, h.2.1⟩, h.2.2⟩

/-! ## `first_green` against `kinematic_bands` -/

section Agreement

variable {V Own Ac : Type} (K : Kit V Own Ac)
  (conflict_det : Detection3D V) (recovery_det : Option (Detection3D V))
  (tstep B T B2 T2 : ℚ) (trajdir : Bool) (max : Int) (ownship : Own) (traffic : List Ac)
  (repac : Ac) (epsh epsv : Int)

/-- For `tstep > 0` the index window `⌈B / tstep⌉ ≤ k ≤ ⌊T / tstep⌋` of the search is the time
window `B ≤ tstep * k ≤ T` of `first_green`. -/
theorem problem_step_iff_forbidden (ht : 0 < tstep) (k : Int) :
    problem_step K conflict_det recovery_det tstep B T B2 T2 trajdir ownship traffic repac
        epsh epsv k ↔
      forbidden_step K conflict_det recovery_det tstep B T B2 T2 trajdir ownship traffic repac
        epsh epsv k := by
  have hc : ∀ b : ℚ, ⌈b / tstep⌉ ≤ k ↔ b ≤ tstep * k := by
    intro b
    rw [Int.ceil_le, div_le_iff₀ ht, mul_comm]
  have hf : ∀ t : ℚ, k ≤ ⌊t / tstep⌋ ↔ tstep * k ≤ t := by
    intro t
    rw [Int.le_floor, le_div_iff₀ ht, mul_comm]
  have hm : (k : ℚ) * tstep = tstep * k := mul_comm _ _
  unfold problem_step forbidden_step
  rw [hc B, hf T, hm]
  constructor
  · rintro (h | ⟨rd, hrd, h1, h2, h3⟩ | h | h)
    · exact Or.inl h
    · exact Or.inr (Or.inl ⟨rd, hrd, (hc B2).1 h1, (hf T2).1 h2, h3⟩)
    · exact Or.inr (Or.inr (Or.inl h))
    · exact Or.inr (Or.inr (Or.inr h))
  · rintro (h | ⟨rd, hrd, h1, h2, h3⟩ | h | h)
    · exact Or.inl h
    · exact Or.inr (Or.inl ⟨rd, hrd, (hc B2).2 h1, (hf T2).2 h2, h3⟩)
    · exact Or.inr (Or.inr (Or.inl h))
    · exact Or.inr (Or.inr (Or.inr h))

/-- A sample of `[0, max]` is below the search index exactly when no step up to it is
forbidden. -/
theorem bands_search_index_lt_iff (ht : 0 < tstep) (hB : 0 ≤ B) (hB2 : 0 ≤ B2) (k : Int)
    (hk0 : 0 ≤ k) (hk1 : k ≤ max) :
    k < bands_search_index K conflict_det recovery_det tstep B T B2 T2 trajdir max ownship
        traffic repac epsh epsv ↔
      ∀ j, 0 ≤ j → j ≤ k →
        ¬ forbidden_step K conflict_det recovery_det tstep B T B2 T2 trajdir ownship traffic
          repac epsh epsv j := by
  obtain ⟨h1, h2, h3, h4⟩ := bands_search_index_least K conflict_det recovery_det tstep B T B2 T2
    trajdir max ownship traffic repac epsh epsv ht hB hB2 (le_trans hk0 hk1)
  constructor
  · intro hlt j hj0 hj1 hf
    exact h3 j hj0 (by omega) ((problem_step_iff_forbidden K conflict_det recovery_det tstep B T
      B2 T2 trajdir ownship traffic repac epsh epsv ht j).2 hf)
  · intro hall
    by_contra hge
    have hle := not_lt.1 hge
    exact hall _ h1 hle ((problem_step_iff_forbidden K conflict_det recovery_det tstep B T
      B2 T2 trajdir ownship traffic repac epsh epsv ht _).1 (h4 (by omega)))

/-- The indices covered by `kinematic_bands` are the green steps of `first_green`. -/
theorem covers_kinematic_bands_iff_green (ht : 0 < tstep) (hB : 0 ≤ B) (hB2 : 0 ≤ B2)
    (k : Int) :
    covers (kinematic_bands K conflict_det recovery_det tstep B T B2 T2 trajdir max ownship
        traffic repac epsh epsv) k ↔
      green_step K conflict_det recovery_det tstep B T B2 T2 trajdir max ownship traffic repac
        epsh epsv k := by
  rw [covers_kinematic_bands]
  unfold green_step conflict_free_step
  have hle := bands_search_index_le K conflict_det recovery_det tstep B T B2 T2 trajdir max
    ownship traffic repac epsh epsv
  constructor
  · rintro ⟨h0, h1, h2⟩
    have hk : k ≤ max := by omega
    exact ⟨h0, hk, h2, (bands_search_index_lt_iff K conflict_det recovery_det tstep B T B2 T2
      trajdir max ownship traffic repac epsh epsv ht hB hB2 k h0 hk).1 h1⟩
  · rintro ⟨h0, h1, h2, h3⟩
    exact ⟨h0, (bands_search_index_lt_iff K conflict_det recovery_det tstep B T B2 T2
      trajdir max ownship traffic repac epsh epsv ht hB hB2 k h0 h1).2 h3, h2⟩

/-- When a green step exists, `first_green` is the least one. -/
theorem first_green_least
    (h : ∃ k, green_step K conflict_det recovery_det tstep B T B2 T2 trajdir max ownship traffic
      repac epsh epsv k) :
    green_step K conflict_det recovery_det tstep B T B2 T2 trajdir max ownship traffic repac
        epsh epsv
        (first_green K conflict_det recovery_det tstep B T B2 T2 trajdir max ownship traffic
          repac epsh epsv) ∧
      ∀ i, green_step K conflict_det recovery_det tstep B T B2 T2 trajdir max ownship traffic
          repac epsh epsv i →
        first_green K conflict_det recovery_det tstep B T B2 T2 trajdir max ownship traffic
          repac epsh epsv ≤ i := by
  obtain ⟨k, hk0, hk1, hk2, hk3⟩ := h
  rcases first_green_cases K conflict_det recovery_det tstep B T B2 T2 trajdir max ownship
    traffic repac epsh epsv with ⟨_, hA | hB⟩ | ⟨hg, hpre⟩
  · obtain ⟨j, hj0, _, hf, hprev⟩ := hA
    rcases le_or_lt j k with h | h
    · exact absurd hf (hk3 j hj0 h)
    · exact absurd hk2 (hprev k hk0 h).2
  · exact absurd hk2 (hB k hk0 hk1).2
  · refine ⟨hg, ?_⟩
    intro i hi
    by_contra hlt
    exact hpre i hi.1 (not_le.1 hlt) hi.2.2.1

theorem first_green_nonneg_iff :
    0 ≤ first_green K conflict_det recovery_det tstep B T B2 T2 trajdir max ownship traffic
        repac epsh epsv ↔
      ∃ k, green_step K conflict_det recovery_det tstep B T B2 T2 trajdir max ownship traffic
        repac epsh epsv k := by
  constructor
  · intro h
    rcases first_green_cases K conflict_det recovery_det tstep B T B2 T2 trajdir max ownship
      traffic repac epsh epsv with ⟨h1, _⟩ | ⟨hg, _⟩
    · omega
    · exact ⟨_, hg⟩
  · intro h
    exact (first_green_least K conflict_det recovery_det tstep B T B2 T2 trajdir max ownship
      traffic repac epsh epsv h).1.1

end Agreement

theorem ne_nil_iff_covers (l : List Integerval) (hw : ∀ a ∈ l, a.lb ≤ a.ub) :
    l ≠ [] ↔ ∃ k, covers l k := by
  constructor
  · intro h
    cases l with
    | nil => exact absurd rfl h
    | cons a t => exact ⟨a.lb, a, by simp, le_refl _, hw a (by simp)⟩
  · rintro ⟨k, a, ha, _⟩ h
    rw [h] at ha
    simp at ha

theorem head_lb_le_of_covers (a : Integerval) (t : List Integerval)
    (hw : ∀ c ∈ a :: t, c.lb ≤ c.ub) (hc : (a :: t).Chain' gap2) (j : Int)
    (h : covers (a :: t) j) : a.lb ≤ j := by
  rcases (covers_cons a t j).1 h with h1 | ⟨b, hb, h2, _⟩
  · exact h1.1
  · have := chain_head_gap a t hw hc b hb
    have := hw a (by simp)
    omega

theorem neg_eq_nil_iff (l : List Integerval) : neg l = [] ↔ l = [] := by
  rw [neg_eq_reverse_map]
  simp

theorem append_intband_eq_nil_iff (l r : List Integerval) :
    (append_intband l r).1 = [] ↔ l = [] ∧ r = [] := by
  rcases List.eq_nil_or_concat l with rfl | ⟨l0, a, rfl⟩
  · rw [append_intband_nil_left]
    simp
  · rw [List.concat_eq_append]
    cases r with
    | nil =>
      rw [append_intband_nil_right]
      simp
    | cons b r0 =>
      rw [append_intband_snoc_cons]
      split <;> simp

theorem kinematic_bands_combine_eq_nil_iff {V Own Ac : Type} (K : Kit V Own Ac)
    (conflict_det : Detection3D V) (recovery_det : Option (Detection3D V))
    (tstep B T B2 T2 : ℚ) (maxl maxr : Int) (ownship : Own) (traffic : List Ac)
    (repac : Ac) (epsh epsv : Int) :
    kinematic_bands_combine K conflict_det recovery_det tstep B T B2 T2 maxl maxr ownship traffic
        repac epsh epsv = [] ↔
      kinematic_bands K conflict_det recovery_det tstep B T B2 T2 false maxl ownship traffic
          repac epsh epsv = [] ∧
        kinematic_bands K conflict_det recovery_det tstep B T B2 T2 true maxr ownship traffic
          repac epsh epsv = [] := by
  unfold kinematic_bands_combine
  simp only
  rw [append_intband_eq_nil_iff, neg_eq_nil_iff]

/-- One side: `first_green` is non-negative exactly when `kinematic_bands` is not empty, and it
is then the lower bound of the first interval. -/
theorem first_green_side {V Own Ac : Type} (K : Kit V Own Ac)
    (conflict_det : Detection3D V) (recovery_det : Option (Detection3D V))
    (tstep B T B2 T2 : ℚ) (trajdir : Bool) (max : Int) (ownship : Own) (traffic : List Ac)
    (repac : Ac) (epsh epsv : Int) (ht : 0 < tstep) (hB : 0 ≤ B) (hB2 : 0 ≤ B2) :
    (0 ≤ first_green K conflict_det recovery_det tstep B T B2 T2 trajdir max ownship traffic
          repac epsh epsv ↔
        kinematic_bands K conflict_det recovery_det tstep B T B2 T2 trajdir max ownship traffic
          repac epsh epsv ≠ []) ∧
    ∀ (a : Integerval) (t : List Integerval),
      kinematic_bands K conflict_det recovery_det tstep B T B2 T2 trajdir max ownship traffic
          repac epsh epsv = a :: t →
        first_green K conflict_det recovery_det tstep B T B2 T2 trajdir max ownship traffic
          repac epsh epsv = a.lb := by
  have wf := kinematic_bands_within K conflict_det recovery_det tstep B T B2 T2 trajdir max
    ownship traffic repac epsh epsv
  have hw : ∀ c ∈ kinematic_bands K conflict_det recovery_det tstep B T B2 T2 trajdir max
      ownship traffic repac epsh epsv, c.lb ≤ c.ub := fun c hc => (wf.1 c hc).2.1
  have hcov := covers_kinematic_bands_iff_green K conflict_det recovery_det tstep B T B2 T2
    trajdir max ownship traffic repac epsh epsv ht hB hB2
  constructor
  · rw [first_green_nonneg_iff, ne_nil_iff_covers _ hw]
    constructor
    · rintro ⟨k, hk⟩
      exact ⟨k, (hcov k).2 hk⟩
    · rintro ⟨k, hk⟩
      exact ⟨k, (hcov k).1 hk⟩
  · intro a t he
    rw [he] at hw hcov
    have hch : (a :: t).Chain' gap2 := by
      rw [← he]
      exact wf.2
    have hca : covers (a :: t) a.lb := ⟨a, by simp, le_refl _, hw a (by simp)⟩
    have hga := (hcov a.lb).1 hca
    obtain ⟨hg, hmin⟩ := first_green_least K conflict_det recovery_det tstep B T B2 T2 trajdir
      max ownship traffic repac epsh epsv ⟨a.lb, hga⟩
    have h1 := hmin a.lb hga
    have h2 := head_lb_le_of_covers a t hw hch _ ((hcov _).2 hg)
    omega

/-! ## Projection with angle wrap -/

theorem total_length_append {F : Type} [LinearOrderedField F] (s t : List (F × F)) :
    total_length (s ++ t) = total_length s + total_length t := by
  simp [total_length]

/-- The projected length unfolds along the list. -/
theorem projected_length_cons {F : Type} [LinearOrderedField F] (ii : Integerval)
    (l : List Integerval) (scal add : F) :
    projected_length (ii :: l) scal add
      = (proj_ub scal add ii - proj_lb scal add ii) + projected_length l scal add := by
  simp [projected_length, proj_lb, proj_ub]

/-- The projected length of intervals that are not reversed is not negative. -/
theorem projected_length_nonneg {F : Type} [LinearOrderedField F] (l : List Integerval)
    (scal add : F)
    (hab : ∀ ii ∈ l, proj_lb scal add ii ≤ proj_ub scal add ii) :
    0 ≤ projected_length l scal add := by
  induction l with
  | nil => simp [projected_length]
  | cons ii t ih =>
    rw [projected_length_cons]
    have h1 := hab ii (by simp)
    have h2 := ih fun jj hj => hab jj (by simp [hj])
    linarith

section ProjectionFacts

variable {F : Type} [LinearOrderedField F] [FloorRing F]

/-- On the window `[n * 2π, (n + 1) * 2π)` the wrap subtracts `n * 2π`. -/
theorem to_2pi_of_window (Pi : F) (hPi : 0 < Pi) (n : Int) (x : F)
    (h1 : (n : F) * (2 * Pi) ≤ x) (h2 : x < ((n : F) + 1) * (2 * Pi)) :
    to_2pi Pi x = x - (n : F) * (2 * Pi) := by
  have h2pi : (0 : F) < 2 * Pi := by linarith
  have hfl : ⌊x / (2 * Pi)⌋ = n := by
    rw [Int.floor_eq_iff]
    exact ⟨(le_div_iff₀ h2pi).2 h1, (div_lt_iff₀ h2pi).2 h2⟩
  unfold to_2pi
  rw [hfl]

/-- The wrap is never negative. -/
theorem to_2pi_nonneg (Pi : F) (hPi : 0 < Pi) (x : F) : 0 ≤ to_2pi Pi x := by
  have h2pi : (0 : F) < 2 * Pi := by linarith
  have h := (le_div_iff₀ h2pi).1 (Int.floor_le (x / (2 * Pi)))
  unfold to_2pi
  linarith

/-- The wrap stays below the full turn. -/
theorem to_2pi_lt (Pi : F) (hPi : 0 < Pi) (x : F) : to_2pi Pi x < 2 * Pi := by
  have h2pi : (0 : F) < 2 * Pi := by linarith
  have h := (div_lt_iff₀ h2pi).1 (Int.lt_floor_add_one (x / (2 * Pi)))
  unfold to_2pi
  linarith

/-- With no multiple of the full turn in `(a, b]`, both ends are in the same turn. -/
theorem turns_eq_of_no_multiple (Pi : F) (hPi : 0 < Pi) (a b : F) (hab : a ≤ b)
    (h : ¬ holds_multiple Pi a b) : ⌊a / (2 * Pi)⌋ = ⌊b / (2 * Pi)⌋ := by
  have h2pi : (0 : F) < 2 * Pi := by linarith
  symm
  rw [Int.floor_eq_iff]
  constructor
  · exact le_trans (Int.floor_le _) (div_le_div_of_nonneg_right hab h2pi.le)
  · by_contra hge
    apply h
    refine ⟨⌊a / (2 * Pi)⌋ + 1, ?_, ?_⟩
    · have := (div_lt_iff₀ h2pi).1 (Int.lt_floor_add_one (a / (2 * Pi)))
      push_cast
      exact this
    · have := (le_div_iff₀ h2pi).1 (not_lt.1 hge)
      push_cast
      exact this

/-- With a multiple of the full turn in `(a, b]`, the upper end is in a later turn. -/
theorem turns_lt_of_multiple (Pi : F) (hPi : 0 < Pi) (a b : F) (h : holds_multiple Pi a b) :
    ⌊a / (2 * Pi)⌋ < ⌊b / (2 * Pi)⌋ := by
  have h2pi : (0 : F) < 2 * Pi := by linarith
  obtain ⟨k, h1, h2⟩ := h
  have e1 : ⌊a / (2 * Pi)⌋ < k := Int.floor_lt.2 ((div_lt_iff₀ h2pi).2 h1)
  have e2 : k ≤ ⌊b / (2 * Pi)⌋ := Int.le_floor.2 ((le_div_iff₀ h2pi).2 h2)
  omega

/-- With no multiple of the full turn in `(a, b]`, the wrap keeps the order and the length. -/
theorem to_2pi_le_of_no_multiple (Pi : F) (hPi : 0 < Pi) (a b : F) (hab : a ≤ b)
    (h : ¬ holds_multiple Pi a b) :
    to_2pi Pi a ≤ to_2pi Pi b ∧ to_2pi Pi b - to_2pi Pi a = b - a := by
  have e := turns_eq_of_no_multiple Pi hPi a b hab h
  unfold to_2pi
  rw [e]
  constructor
  · linarith
  · ring

/-- With a multiple of the full turn in `(a, b]`, the wrapped ends are closer than `b - a`. -/
theorem to_2pi_sub_lt_of_multiple (Pi : F) (hPi : 0 < Pi) (a b : F)
    (h : holds_multiple Pi a b) : to_2pi Pi b - to_2pi Pi a < b - a := by
  have e := turns_lt_of_multiple Pi hPi a b h
  have e1 : ((⌊a / (2 * Pi)⌋ : Int) : F) + 1 ≤ ((⌊b / (2 * Pi)⌋ : Int) : F) := by
    exact_mod_cast Int.add_one_le_iff.2 e
  have e2 : (((⌊a / (2 * Pi)⌋ : Int) : F) + 1) * (2 * Pi)
      ≤ ((⌊b / (2 * Pi)⌋ : Int) : F) * (2 * Pi) :=
    mul_le_mul_of_nonneg_right e1 (by linarith)
  unfold to_2pi
  linarith

/-- The third branch of the code, for `0 ≤ b`, `a ≤ 2π` and `b - a < 2π`: the pairs inserted
have total length `b - a`. -/
theorem straddle_length (Pi : F) (hPi : 0 < Pi) (a b : F) (hb : 0 ≤ b) (ha : a ≤ 2 * Pi)
    (hlen : b - a < 2 * Pi) :
    total_length
      ((if a < 0 then [(to_2pi Pi a, 2 * Pi)] else []) ++
        (if b > 2 * Pi then [(0, to_2pi Pi b)] else []) ++
        [(if a < 0 then 0 else a, if b > 2 * Pi then 2 * Pi else b)]) = b - a := by
  have ea : a < 0 → to_2pi Pi a = a + 2 * Pi := by
    intro h
    rw [to_2pi_of_window Pi hPi (-1) a (by push_cast; linarith) (by push_cast; linarith)]
    push_cast
    ring
  have eb : b > 2 * Pi → to_2pi Pi b = b - 2 * Pi := by
    intro h
    rw [to_2pi_of_window Pi hPi 1 b (by push_cast; linarith) (by push_cast; linarith)]
    push_cast
    ring
  by_cases c3 : a < 0 <;> by_cases c4 : b > 2 * Pi
  · simp [total_length, c3, c4, ea c3, eb c4]
    ring
  · simp [total_length, c3, c4, ea c3]
    ring
  · simp [total_length, c3, c4, eb c4]
  · simp [total_length, c3, c4]

/-- One projected interval: the pairs inserted for it are all well-formed sub-intervals of
`[0, 2π]` exactly when it is not reversed inside `[0, 2π]` and, wholly outside `[0, 2π]`, its
wrapped ends are in order. -/
theorem toIntervalSet_0_2PI_step_well_formed_iff (Pi scal add : F) (hPi : 0 < Pi)
    (ii : Integerval) :
    (∀ p ∈ toIntervalSet_0_2PI_step Pi scal add ii, 0 ≤ p.1 ∧ p.1 ≤ p.2 ∧ p.2 ≤ 2 * Pi) ↔
      ((0 ≤ proj_lb scal add ii ∧ proj_ub scal add ii ≤ 2 * Pi →
          proj_lb scal add ii ≤ proj_ub scal add ii) ∧
        (wholly_outside Pi (proj_lb scal add ii) (proj_ub scal add ii) →
          to_2pi Pi (proj_lb scal add ii) ≤ to_2pi Pi (proj_ub scal add ii))) := by
  unfold toIntervalSet_0_2PI_step proj_lb proj_ub wholly_outside
  simp only
  generalize scal * (ii.lb : F) + add = a
  generalize scal * (ii.ub : F) + add = b
  have ha0 := to_2pi_nonneg Pi hPi a
  have ha1 := to_2pi_lt Pi hPi a
  have hb0 := to_2pi_nonneg Pi hPi b
  have hb1 := to_2pi_lt Pi hPi b
  by_cases c1 : 0 ≤ a ∧ b ≤ 2 * Pi
  · rw [if_pos c1]
    constructor
    · intro h
      have h1 := (h (a, b) (by simp)).2.1
      dsimp only at h1
      refine ⟨fun _ => h1, fun ho => ?_⟩
      rcases ho with ho | ho
      · linarith [c1.1]
      · linarith [c1.2]
    · rintro ⟨h1, _⟩ p hp
      simp only [List.mem_singleton] at hp
      subst hp
      exact ⟨c1.1, h1 c1, c1.2⟩
  · rw [if_neg c1]
    by_cases c2 : b < 0 ∨ a > 2 * Pi
    · rw [if_pos c2]
      constructor
      · intro h
        have h1 := (h (to_2pi Pi a, to_2pi Pi b) (by simp)).2.1
        exact ⟨fun hc => absurd hc c1, fun _ => h1⟩
      · rintro ⟨_, h2⟩ p hp
        simp only [List.mem_singleton] at hp
        subst hp
        exact ⟨ha0, h2 c2, le_of_lt hb1⟩
    · rw [if_neg c2]
      refine iff_of_true ?_ ⟨fun hc => absurd hc c1, fun hc => absurd hc c2⟩
      have hb : 0 ≤ b := not_lt.1 fun h => c2 (Or.inl h)
      have ha : a ≤ 2 * Pi := not_lt.1 fun h => c2 (Or.inr h)
      intro p hp
      by_cases c3 : a < 0 <;> by_cases c4 : b > 2 * Pi <;>
        simp only [c3, c4, if_true, if_false, List.mem_append, List.mem_singleton,
          List.not_mem_nil, or_false, false_or] at hp
      · rcases hp with (hp | hp) | hp <;> subst hp <;> refine ⟨?_, ?_, ?_⟩ <;> dsimp only <;>
          linarith
      · rcases hp with hp | hp <;> subst hp <;> refine ⟨?_, ?_, ?_⟩ <;> dsimp only <;>
          linarith
      · rcases hp with hp | hp <;> subst hp <;> refine ⟨?_, ?_, ?_⟩ <;> dsimp only <;>
          linarith
      · exact absurd ⟨not_lt.1 c3, not_lt.1 c4⟩ c1

/-- One projected interval `a ≤ b` shorter than the full turn: the pairs inserted for it are
never longer in total than `b - a`, and they are as long exactly when the interval, if wholly
outside `[0, 2π]`, holds no multiple of the full turn in `(a, b]`. -/
theorem toIntervalSet_0_2PI_step_length (Pi scal add : F) (hPi : 0 < Pi) (ii : Integerval)
    (hab : proj_lb scal add ii ≤ proj_ub scal add ii)
    (hlen : proj_ub scal add ii - proj_lb scal add ii < 2 * Pi) :
    total_length (toIntervalSet_0_2PI_step Pi scal add ii)
        ≤ proj_ub scal add ii - proj_lb scal add ii ∧
      (total_length (toIntervalSet_0_2PI_step Pi scal add ii)
          = proj_ub scal add ii - proj_lb scal add ii ↔
        (wholly_outside Pi (proj_lb scal add ii) (proj_ub scal add ii) →
          ¬ holds_multiple Pi (proj_lb scal add ii) (proj_ub scal add ii))) := by
  revert hab hlen
  unfold toIntervalSet_0_2PI_step proj_lb proj_ub wholly_outside
  simp only
  generalize scal * (ii.lb : F) + add = a
  generalize scal * (ii.ub : F) + add = b
  intro hab hlen
  by_cases c1 : 0 ≤ a ∧ b ≤ 2 * Pi
  · rw [if_pos c1]
    have e : total_length [(a, b)] = b - a := by simp [total_length]
    rw [e]
    refine ⟨le_refl _, iff_of_true rfl fun ho => ?_⟩
    rcases ho with ho | ho
    · linarith [c1.1]
    · linarith [c1.2]
  · rw [if_neg c1]
    by_cases c2 : b < 0 ∨ a > 2 * Pi
    · rw [if_pos c2]
      have e : total_length [(to_2pi Pi a, to_2pi Pi b)] = to_2pi Pi b - to_2pi Pi a := by
        simp [total_length]
      rw [e]
      by_cases hm : holds_multiple Pi a b
      · have hlt := to_2pi_sub_lt_of_multiple Pi hPi a b hm
        exact ⟨le_of_lt hlt, iff_of_false (ne_of_lt hlt) fun h => h c2 hm⟩
      · have heq := (to_2pi_le_of_no_multiple Pi hPi a b hab hm).2
        exact ⟨le_of_eq heq, iff_of_true heq fun _ => hm⟩
    · rw [if_neg c2]
      have hb : 0 ≤ b := not_lt.1 fun h => c2 (Or.inl h)
      have ha : a ≤ 2 * Pi := not_lt.1 fun h => c2 (Or.inr h)
      have key := straddle_length Pi hPi a b hb ha hlen
      rw [key]
      exact ⟨le_refl _, iff_of_true rfl fun hc => absurd hc c2⟩

/-- The whole list: the inserted pairs are all well-formed sub-intervals of `[0, 2π]` exactly
when every projected interval passes the test of `toIntervalSet_0_2PI_step_well_formed_iff`. -/
theorem toIntervalSet_0_2PI_well_formed_iff (Pi : F) (hPi : 0 < Pi) (l : List Integerval)
    (scal add : F) :
    (∀ p ∈ toIntervalSet_0_2PI Pi l scal add, 0 ≤ p.1 ∧ p.1 ≤ p.2 ∧ p.2 ≤ 2 * Pi) ↔
      ∀ ii ∈ l,
        (0 ≤ proj_lb scal add ii ∧ proj_ub scal add ii ≤ 2 * Pi →
          proj_lb scal add ii ≤ proj_ub scal add ii) ∧
        (wholly_outside Pi (proj_lb scal add ii) (proj_ub scal add ii) →
          to_2pi Pi (proj_lb scal add ii) ≤ to_2pi Pi (proj_ub scal add ii)) := by
  induction l with
  | nil => simp [toIntervalSet_0_2PI]
  | cons ii t ih =>
    have hs := toIntervalSet_0_2PI_step_well_formed_iff Pi scal add hPi ii
    constructor
    · intro h jj hj
      rcases List.mem_cons.1 hj with e | hj
      · subst e
        exact hs.1 fun p hp => h p (by simp [toIntervalSet_0_2PI, hp])
      · exact ih.1 (fun p hp => h p (by simp [toIntervalSet_0_2PI, hp])) jj hj
    · intro h p hp
      simp only [toIntervalSet_0_2PI, List.mem_append] at hp
      rcases hp with hp | hp
      · exact hs.2 (h ii (by simp)) p hp
      · exact ih.2 (fun jj hj => h jj (by simp [hj])) p hp

/-- The whole list, with no interval reversed and a projected length below the full turn: the
inserted pairs are never longer in total, and as long exactly when no projected interval
wholly outside `[0, 2π]` holds a multiple of the full turn. -/
theorem toIntervalSet_0_2PI_length (Pi : F) (hPi : 0 < Pi) (l : List Integerval)
    (scal add : F) (hab : ∀ ii ∈ l, proj_lb scal add ii ≤ proj_ub scal add ii)
    (hlen : projected_length l scal add < 2 * Pi) :
    total_length (toIntervalSet_0_2PI Pi l scal add) ≤ projected_length l scal add ∧
      (total_length (toIntervalSet_0_2PI Pi l scal add) = projected_length l scal add ↔
        ∀ ii ∈ l, wholly_outside Pi (proj_lb scal add ii) (proj_ub scal add ii) →
          ¬ holds_multiple Pi (proj_lb scal add ii) (proj_ub scal add ii)) := by
  induction l with
  | nil => simp [toIntervalSet_0_2PI, total_length, projected_length]
  | cons ii t ih =>
    have h1 := hab ii (by simp)
    have ht : ∀ jj ∈ t, proj_lb scal add jj ≤ proj_ub scal add jj :=
      fun jj hj => hab jj (by simp [hj])
    have hn := projected_length_nonneg t scal add ht
    rw [projected_length_cons] at hlen
    obtain ⟨s1, s2⟩ := toIntervalSet_0_2PI_step_length Pi scal add hPi ii h1 (by linarith)
    obtain ⟨t1, t2⟩ := ih ht (by linarith)
    simp only [toIntervalSet_0_2PI, total_length_append, projected_length_cons,
      List.forall_mem_cons]
    refine ⟨by linarith, ?_⟩
    rw [← s2, ← t2]
    constructor
    · intro h
      exact ⟨by linarith, by linarith⟩
    · rintro ⟨e1, e2⟩
      rw [e1, e2]

/-- One projected interval, reversed or not: when, wholly outside `[0, 2π]`, it holds no
multiple of the full turn between its two ends and, straddling `0` or `2π`, it is shorter than
the full turn, the pairs inserted for it have total length `ub' - lb'`. -/
theorem toIntervalSet_0_2PI_step_same_length (Pi scal add : F) (hPi : 0 < Pi)
    (ii : Integerval)
    (ho : wholly_outside Pi (proj_lb scal add ii) (proj_ub scal add ii) →
      ¬ holds_multiple Pi (min (proj_lb scal add ii) (proj_ub scal add ii))
        (max (proj_lb scal add ii) (proj_ub scal add ii)))
    (hs : straddles Pi (proj_lb scal add ii) (proj_ub scal add ii) →
      proj_ub scal add ii - proj_lb scal add ii < 2 * Pi) :
    total_length (toIntervalSet_0_2PI_step Pi scal add ii)
      = proj_ub scal add ii - proj_lb scal add ii := by
  revert ho hs
  unfold toIntervalSet_0_2PI_step proj_lb proj_ub wholly_outside straddles
  simp only
  generalize scal * (ii.lb : F) + add = a
  generalize scal * (ii.ub : F) + add = b
  intro ho hs
  by_cases c1 : 0 ≤ a ∧ b ≤ 2 * Pi
  · rw [if_pos c1]
    simp [total_length]
  · rw [if_neg c1]
    by_cases c2 : b < 0 ∨ a > 2 * Pi
    · rw [if_pos c2]
      have e : total_length [(to_2pi Pi a, to_2pi Pi b)] = to_2pi Pi b - to_2pi Pi a := by
        simp [total_length]
      rw [e]
      have hm := ho c2
      rcases le_total a b with hab | hab
      · rw [min_eq_left hab, max_eq_right hab] at hm
        exact (to_2pi_le_of_no_multiple Pi hPi a b hab hm).2
      · rw [min_eq_right hab, max_eq_left hab] at hm
        have := (to_2pi_le_of_no_multiple Pi hPi b a hab hm).2
        linarith
    · rw [if_neg c2]
      have hb : 0 ≤ b := not_lt.1 fun h => c2 (Or.inl h)
      have ha : a ≤ 2 * Pi := not_lt.1 fun h => c2 (Or.inr h)
      have hst : (a < 0 ∧ 0 ≤ b) ∨ (a ≤ 2 * Pi ∧ 2 * Pi < b) := by
        by_cases c3 : a < 0
        · exact Or.inl ⟨c3, hb⟩
        · exact Or.inr ⟨ha, not_le.1 fun h => c1 ⟨not_lt.1 c3, h⟩⟩
      exact straddle_length Pi hPi a b hb ha (hs hst)

/-- The whole list, reversed intervals or not: under the conditions of
`toIntervalSet_0_2PI_step_same_length` for every interval, the inserted pairs have the
projected total length. -/
theorem toIntervalSet_0_2PI_same_length (Pi : F) (hPi : 0 < Pi) (l : List Integerval)
    (scal add : F)
    (h : ∀ ii ∈ l,
      (wholly_outside Pi (proj_lb scal add ii) (proj_ub scal add ii) →
        ¬ holds_multiple Pi (min (proj_lb scal add ii) (proj_ub scal add ii))
          (max (proj_lb scal add ii) (proj_ub scal add ii))) ∧
      (straddles Pi (proj_lb scal add ii) (proj_ub scal add ii) →
        proj_ub scal add ii - proj_lb scal add ii < 2 * Pi)) :
    total_length (toIntervalSet_0_2PI Pi l scal add) = projected_length l scal add := by
  induction l with
  | nil => simp [toIntervalSet_0_2PI, total_length, projected_length]
  | cons ii t ih =>
    obtain ⟨h1, h2⟩ := h ii (by simp)
    rw [toIntervalSet_0_2PI, total_length_append, projected_length_cons,
      toIntervalSet_0_2PI_step_same_length Pi scal add hPi ii h1 h2,
      ih fun jj hj => h jj (by simp [hj])]

/-- The example of the specification: `[[-1, 2]]` with `scal = 1`, `add = 0`, when `1 ≤ π`. -/
theorem toIntervalSet_0_2PI_example (Pi : F) (hPi : 1 ≤ Pi) :
    toIntervalSet_0_2PI Pi [⟨-1, 2⟩] 1 0 = [(2 * Pi - 1, 2 * Pi), (0, 2)] := by
  have h0 : (0 : F) < Pi := by linarith
  have e : to_2pi Pi (-1 : F) = 2 * Pi - 1 := by
    rw [to_2pi_of_window Pi h0 (-1) (-1) (by push_cast; linarith) (by push_cast; linarith)]
    push_cast
    ring
  have n1 : ¬ (2 : F) < 0 := by norm_num
  have n2 : ¬ (2 * Pi < -1) := by linarith
  have n3 : ¬ (2 * Pi < 2) := by linarith
  simp [toIntervalSet_0_2PI, toIntervalSet_0_2PI_step, e, n1, n2, n3]

end ProjectionFacts

/-- Over the reals, no multiple of the full turn lies in `(13, 14]`: `4π < 13` and `14 < 6π`. -/
theorem no_multiple_13_14 : ¬ holds_multiple Real.pi (13 : ℝ) 14 := by
  rintro ⟨k, h1, h2⟩
  have h3 := Real.pi_gt_three
  have h4 := Real.pi_lt_d2
  by_cases hk : k ≤ 2
  · have c : (k : ℝ) ≤ 2 := by exact_mod_cast hk
    have := mul_le_mul_of_nonneg_right c (by linarith : (0 : ℝ) ≤ 2 * Real.pi)
    norm_num at h4
    linarith
  · have c : (3 : ℝ) ≤ (k : ℝ) := by exact_mod_cast (by omega : (3 : Int) ≤ k)
    have := mul_le_mul_of_nonneg_right c (by linarith : (0 : ℝ) ≤ 2 * Real.pi)
    linarith

/-- Over the reals, the list `[[-1, 2], [13, 14]]` projected with `scal = 1`, `add = 0` has no
reversed interval and no interval wholly outside `[0, 2π]` that holds a multiple of `2π`. -/
theorem projected_sample_ok :
    ∀ ii ∈ ([⟨-1, 2⟩, ⟨13, 14⟩] : List Integerval),
      proj_lb (1 : ℝ) 0 ii ≤ proj_ub (1 : ℝ) 0 ii ∧
      (wholly_outside Real.pi (proj_lb (1 : ℝ) 0 ii) (proj_ub (1 : ℝ) 0 ii) →
        ¬ holds_multiple Real.pi (proj_lb (1 : ℝ) 0 ii) (proj_ub (1 : ℝ) 0 ii)) := by
  have h3 := Real.pi_gt_three
  intro ii hii
  simp only [List.mem_cons, List.mem_singleton, List.not_mem_nil, or_false] at hii
  rcases hii with rfl | rfl
  · have e1 : proj_lb (1 : ℝ) 0 ⟨-1, 2⟩ = -1 := by simp [proj_lb]
    have e2 : proj_ub (1 : ℝ) 0 ⟨-1, 2⟩ = 2 := by simp [proj_ub]
    rw [e1, e2]
    refine ⟨by norm_num, fun ho => ?_⟩
    rcases ho with ho | ho
    · norm_num at ho
    · linarith
  · have e1 : proj_lb (1 : ℝ) 0 ⟨13, 14⟩ = 13 := by simp [proj_lb]
    have e2 : proj_ub (1 : ℝ) 0 ⟨13, 14⟩ = 14 := by simp [proj_ub]
    rw [e1, e2]
    exact ⟨by norm_num, fun _ => no_multiple_13_14⟩

/-- Over the reals, the list `[[-1, 2], [13, 14]]` has projected length `4`. -/
theorem projected_sample_length :
    projected_length [⟨-1, 2⟩, ⟨13, 14⟩] (1 : ℝ) 0 = 4 := by
  simp [projected_length]
  norm_num

/-! ## The claims -/

/-- C1: the list returned by `kinematic_bands_combine` is well-formed for every input: every
interval has `lb ≤ ub`, the `lb` values are strictly ascending, and two consecutive intervals
are neither adjacent nor overlapping (`next.lb - prev.ub ≥ 2`). The preconditions `tstep > 0`,
`0 ≤ B`, `0 ≤ B2` of the claim are not needed. -/
theorem kinematic_bands_combine_well_formed {V Own Ac : Type} (K : Kit V Own Ac)
    (conflict_det : Detection3D V) (recovery_det : Option (Detection3D V))
    (tstep B T B2 T2 : ℚ) (maxl maxr : Int) (ownship : Own) (traffic : List Ac)
    (repac : Ac) (epsh epsv : Int) :
    (∀ a ∈ kinematic_bands_combine K conflict_det recovery_det tstep B T B2 T2 maxl maxr ownship
        traffic repac epsh epsv, a.lb ≤ a.ub) ∧
    (kinematic_bands_combine K conflict_det recovery_det tstep B T B2 T2 maxl maxr ownship
        traffic repac epsh epsv).Pairwise (fun a b => a.lb < b.lb) ∧
    (kinematic_bands_combine K conflict_det recovery_det tstep B T B2 T2 maxl maxr ownship
        traffic repac epsh epsv).Chain' (fun a b => b.lb - a.ub ≥ 2) := by
  have h := kinematic_bands_combine_within K conflict_det recovery_det tstep B T B2 T2 maxl maxr
    ownship traffic repac epsh epsv
  exact ⟨fun a ha => (h.1 a ha).2.1, bands_within_pairwise _ _ _ h, h.2⟩

/-- C2 (as stated, refuted): with `maxl = -1` and `maxr = 0` and no conflict at all, the left
list is empty and the result is `[[0, 0]]`, whose `lb = 0` is below `-maxl = 1`. -/
theorem kinematic_bands_combine_bounds_counterexample :
    ∃ a ∈ kinematic_bands_combine lineKit detNone none 1 0 60 0 0 (-1) 0 () [true] false 0 0,
      ¬ (-(-1 : Int) ≤ a.lb ∧ a.ub ≤ 0) :=
  ⟨⟨0, 0⟩, by decide!, by decide⟩

/-- C2 (amended): every interval `[lb, ub]` of the list returned by
`kinematic_bands_combine(maxl, maxr)` satisfies `-max(maxl, 0) ≤ lb` and `ub ≤ max(maxr, 0)`;
for `maxl ≥ 0` and `maxr ≥ 0` the union of the intervals is contained in `[-maxl, maxr]`. -/
theorem kinematic_bands_combine_bounds {V Own Ac : Type} (K : Kit V Own Ac)
    (conflict_det : Detection3D V) (recovery_det : Option (Detection3D V))
    (tstep B T B2 T2 : ℚ) (maxl maxr : Int) (ownship : Own) (traffic : List Ac)
    (repac : Ac) (epsh epsv : Int) (a : Integerval)
    (ha : a ∈ kinematic_bands_combine K conflict_det recovery_det tstep B T B2 T2 maxl maxr
      ownship traffic repac epsh epsv) :
    -(max maxl 0) ≤ a.lb ∧ a.ub ≤ max maxr 0 := by
  have h := (kinematic_bands_combine_within K conflict_det recovery_det tstep B T B2 T2 maxl maxr
    ownship traffic repac epsh epsv).1 a ha
  have e : min (-maxl) 0 = -(max maxl 0) := by
    rcases le_total maxl 0 with h1 | h1
    · rw [max_eq_right h1, min_eq_right (by omega)]
      rfl
    · rw [max_eq_left h1, min_eq_left (by omega)]
  have e2 : max 0 maxr = max maxr 0 := max_comm _ _
  rw [e, e2] at h
  exact ⟨h.1, h.2.2⟩

theorem kinematic_bands_combine_bounds_witness :
    (⟨-8, -8⟩ : Integerval) ∈
        kinematic_bands_combine lineKit detS2 none 1 0 60 0 0 8 8 () [true] false 0 0 ∧
      (-(max (8 : Int) 0) ≤ (⟨-8, -8⟩ : Integerval).lb ∧
        (⟨-8, -8⟩ : Integerval).ub ≤ max (8 : Int) 0) :=
  ⟨by decide!, kinematic_bands_combine_bounds lineKit detS2 none 1 0 60 0 0 8 8 () [true] false 0 0
    ⟨-8, -8⟩ (by decide!)⟩

/-- C3 (as stated, refuted): with no recovery detector, repulsion disabled, no loss of
separation, the left samples in conflict exactly `3..7` and the right ones exactly `4..6`, the
result for `(8, 8)` is `[[-8,-8],[-2,3],[7,8]]`, not `[[-7,-3],[4,6]]`; and without any conflict
the result for `(10, 10)` is `[[-10,10]]`, not the empty list. -/
theorem kinematic_bands_combine_red_runs_counterexample :
    (∀ k : Fin 9,
      any_conflict lineKit detS2 none 0 60 0 0 false (1 * ((k.val : Int) : ℚ)) () [true]
        = decide (3 ≤ k.val ∧ k.val ≤ 7) ∧
      any_conflict lineKit detS2 none 0 60 0 0 true (1 * ((k.val : Int) : ℚ)) () [true]
        = decide (4 ≤ k.val ∧ k.val ≤ 6)) ∧
    kinematic_bands_combine lineKit detS2 none 1 0 60 0 0 8 8 () [true] false 0 0
      ≠ [⟨-7, -3⟩, ⟨4, 6⟩] ∧
    kinematic_bands_combine lineKit detNone none 1 0 60 0 0 10 10 () [true] false 0 0 ≠ [] := by
  refine ⟨by decide!, by decide!, by decide!⟩

/-- C3 (amended): with no recovery detector, repulsion disabled (`epsh = epsv = 0`) and no loss
of separation at any sample, `kinematic_bands_combine(maxl, maxr)` returns exactly the
conflict-free index runs in signed form: if the left samples in conflict are exactly `3..7` and
the right ones exactly `4..6` (`maxl, maxr ≥ 8`), the result is
`[[-maxl,-8],[-2,3],[7,maxr]]`; and if no sample on either side is in conflict, the result for
`(10, 10)` is `[[-10,10]]`. -/
theorem kinematic_bands_combine_green_runs {V Own Ac : Type} (K : Kit V Own Ac)
    (conflict_det : Detection3D V) (tstep B T B2 T2 : ℚ) (ownship : Own) (traffic : List Ac)
    (repac : Ac) :
    (∀ maxl maxr : Int, 8 ≤ maxl → 8 ≤ maxr →
      (∀ (trajdir : Bool) (k : Int), 0 ≤ k → k ≤ max maxl maxr →
        any_los_aircraft K conflict_det trajdir ((k : ℚ) * tstep) ownship traffic = false) →
      (∀ k : Int, 0 ≤ k → k ≤ maxl →
        (any_conflict K conflict_det none B T B2 T2 false (tstep * k) ownship traffic = true ↔
          3 ≤ k ∧ k ≤ 7)) →
      (∀ k : Int, 0 ≤ k → k ≤ maxr →
        (any_conflict K conflict_det none B T B2 T2 true (tstep * k) ownship traffic = true ↔
          4 ≤ k ∧ k ≤ 6)) →
      kinematic_bands_combine K conflict_det none tstep B T B2 T2 maxl maxr ownship traffic
        repac 0 0 = [⟨-maxl, -8⟩, ⟨-2, 3⟩, ⟨7, maxr⟩]) ∧
    ((∀ (trajdir : Bool) (k : Int), 0 ≤ k → k ≤ 10 →
        any_los_aircraft K conflict_det trajdir ((k : ℚ) * tstep) ownship traffic = false) →
      (∀ (trajdir : Bool) (k : Int), 0 ≤ k → k ≤ 10 →
        any_conflict K conflict_det none B T B2 T2 trajdir (tstep * k) ownship traffic = false) →
      kinematic_bands_combine K conflict_det none tstep B T B2 T2 10 10 ownship traffic
        repac 0 0 = [⟨-10, 10⟩]) := by
  have hbsi : ∀ (trajdir : Bool) (m : Int),
      (∀ k : Int, 0 ≤ k → k ≤ m →
        any_los_aircraft K conflict_det trajdir ((k : ℚ) * tstep) ownship traffic = false) →
      bands_search_index K conflict_det none tstep B T B2 T2 trajdir m ownship traffic
        repac 0 0 = m + 1 := by
    intro trajdir m hlos
    rw [bands_search_index_of_no_crit K conflict_det none tstep B T B2 T2 trajdir m ownship
      traffic repac 0 0 (by simp) (by simp)]
    exact first_los_search_index_of_no_los K conflict_det tstep B T B2 T2 trajdir m ownship
      traffic hlos
  constructor
  · intro maxl maxr hl hr hlos hL hR
    have wf := kinematic_bands_combine_within K conflict_det none tstep B T B2 T2 maxl maxr
      ownship traffic repac 0 0
    apply eq_of_covers_eq _ _ (fun c hc => (wf.1 c hc).2.1) wf.2
    · intro c hc
      simp only [List.mem_cons, List.mem_singleton, List.not_mem_nil, or_false] at hc
      rcases hc with rfl | rfl | rfl <;> simp only <;> omega
    · simp only [List.chain'_cons, List.chain'_singleton, and_true, gap2]
      constructor <;> omega
    · intro j
      rw [covers_kinematic_bands_combine, covers_kinematic_bands, covers_kinematic_bands,
        hbsi false maxl (fun k h0 h1 => hlos false k h0 (le_trans h1 (le_max_left _ _))),
        hbsi true maxr (fun k h0 h1 => hlos true k h0 (le_trans h1 (le_max_right _ _)))]
      simp only [covers_cons, covers_nil, or_false]
      constructor
      · rintro (⟨h0, h1, h2⟩ | ⟨h0, h1, h2⟩)
        · have h3 := hL (-j) h0 (by omega)
          have h4 : ¬ (3 ≤ -j ∧ -j ≤ 7) := fun h => by
            rw [h3.2 h] at h2
            exact absurd h2 (by decide)
          omega
        · have h3 := hR j h0 (by omega)
          have h4 : ¬ (4 ≤ j ∧ j ≤ 6) := fun h => by
            rw [h3.2 h] at h2
            exact absurd h2 (by decide)
          omega
      · intro h
        by_cases hj : j ≤ 0
        · left
          refine ⟨by omega, by omega, ?_⟩
          have h3 := hL (-j) (by omega) (by omega)
          by_contra hne
          have := h3.1 (by simpa using hne)
          omega
        · right
          refine ⟨by omega, by omega, ?_⟩
          have h3 := hR j (by omega) (by omega)
          by_contra hne
          have := h3.1 (by simpa using hne)
          omega
  · intro hlos hfree
    have wf := kinematic_bands_combine_within K conflict_det none tstep B T B2 T2 10 10
      ownship traffic repac 0 0
    apply eq_of_covers_eq _ _ (fun c hc => (wf.1 c hc).2.1) wf.2
    · intro c hc
      simp only [List.mem_singleton] at hc
      subst hc
      decide
    · exact List.chain'_singleton _
    · intro j
      rw [covers_kinematic_bands_combine, covers_kinematic_bands, covers_kinematic_bands,
        hbsi false 10 (hlos false), hbsi true 10 (hlos true)]
      simp only [covers_cons, covers_nil, or_false]
      constructor
      · rintro (⟨h0, h1, _⟩ | ⟨h0, h1, _⟩) <;> omega
      · intro h
        by_cases hj : j ≤ 0
        · exact Or.inl ⟨by omega, by omega, hfree false (-j) (by omega) (by omega)⟩
        · exact Or.inr ⟨by omega, by omega, hfree true j (by omega) (by omega)⟩

theorem kinematic_bands_combine_green_runs_witness :
    kinematic_bands_combine lineKit detS2 none 1 0 60 0 0 8 8 () [true] false 0 0
      = [⟨-8, -8⟩, ⟨-2, 3⟩, ⟨7, 8⟩] ∧
    kinematic_bands_combine lineKit detNone none 1 0 60 0 0 10 10 () [true] false 0 0
      = [⟨-10, 10⟩] :=
  ⟨(kinematic_bands_combine_green_runs lineKit detS2 1 0 60 0 0 () [true] false).1
      8 8 (le_refl _) (le_refl _)
      (fun trajdir _ _ _ => lineKit_no_los detS2 (fun _ _ _ _ => rfl) trajdir _ [true])
      (fun k h0 h1 => lineKit_detS2_left k h0 h1)
      (fun k h0 h1 => lineKit_detS2_right k h0 h1),
   (kinematic_bands_combine_green_runs lineKit detNone 1 0 60 0 0 () [true] false).2
      (fun trajdir _ _ _ => lineKit_no_los detNone (fun _ _ _ _ => rfl) trajdir _ [true])
      (fun trajdir _ _ _ => lineKit_detNone_free trajdir _ [true])⟩

/-- C4 (as stated, refuted): for `max = 0` and a sample without conflict, the emitted list
is `[[0, 0]]`: index `0` lies in an emitted interval although `any_conflict` is false there. -/
theorem traj_conflict_only_bands_red_counterexample :
    ¬ (covers (traj_conflict_only_bands lineKit [] detNone none 1 0 60 0 0 true 0 () [true]) 0 ↔
      any_conflict lineKit detNone none 0 60 0 0 true (1 * ((0 : Int) : ℚ)) () [true] = true) := by
  decide!

/-- C4 (amended): for every `max` and every conflict predicate, the list that
`traj_conflict_only_bands` appends to an empty list contains the conflict-free index ranges
within `[0, max]`: an index `k` lies in one of the emitted intervals if and only if
`0 ≤ k ≤ max` and `any_conflict` does not hold at time `tstep * k`. -/
theorem traj_conflict_only_bands_green {V Own Ac : Type} (K : Kit V Own Ac)
    (conflict_det : Detection3D V) (recovery_det : Option (Detection3D V))
    (tstep B T B2 T2 : ℚ) (trajdir : Bool) (max : Int) (ownship : Own) (traffic : List Ac)
    (k : Int) :
    covers (traj_conflict_only_bands K [] conflict_det recovery_det tstep B T B2 T2 trajdir max
        ownship traffic) k ↔
      0 ≤ k ∧ k ≤ max ∧
        any_conflict K conflict_det recovery_det B T B2 T2 trajdir (tstep * k) ownship traffic
          = false :=
  covers_traj_out _ max k

/-- C5: `append_intband(L, R)` leaves `L` equal to `L ++ R` when `L` or `R` is empty or
`R[0].lb - L.last.ub > 1`; otherwise it leaves `L` without its last interval, followed by
`[L.last.lb, R[0].ub]` and by `R` without its first interval. In particular
`append_intband([[0,3]], [[4,7]]) = [[0,7]]` and `append_intband([[0,3]], [[5,7]]) = [[0,3],[5,7]]`. -/
theorem append_intband_spec :
    (∀ R : List Integerval, (append_intband [] R).1 = [] ++ R) ∧
    (∀ L : List Integerval, (append_intband L []).1 = L ++ []) ∧
    (∀ (L R : List Integerval) (a b : Integerval),
      (append_intband (L ++ [a]) (b :: R)).1 =
        if b.lb - a.ub > 1 then (L ++ [a]) ++ (b :: R) else L ++ [⟨a.lb, b.ub⟩] ++ R) ∧
    (append_intband [⟨0, 3⟩] [⟨4, 7⟩]).1 = [⟨0, 7⟩] ∧
    (append_intband [⟨0, 3⟩] [⟨5, 7⟩]).1 = [⟨0, 3⟩, ⟨5, 7⟩] := by
  refine ⟨?_, ?_, ?_, by decide, by decide⟩
  · intro R
    rw [append_intband_nil_left, List.nil_append]
  · intro L
    rw [append_intband_nil_right, List.append_nil]
  · intro L R a b
    rw [append_intband_snoc_cons]
    by_cases h : b.lb - a.ub ≤ 1
    · rw [if_pos h, if_neg (by omega)]
    · rw [if_neg h, if_pos (by omega)]

/-- C6: `neg` is an involution: applying it twice to an interval list of any length (empty,
odd or even, well-formed or not) yields the list again. -/
theorem neg_involution (L : List Integerval) : neg (neg L) = L :=
  neg_neg_eq L


/-- C7 (as stated, refuted): `all_int_red(0)` is true and `any_int_red(0)` false (a) for
`maxl = maxr = -1`, where no sample is visited, and (b) for `maxl = maxr = 0` with a detector
that reports a loss of separation at sample 0 and no conflict. -/
theorem all_int_red_counterexample :
    (all_int_red lineKit detNone none 1 0 60 0 0 (-1) (-1) () [true] false 0 0 0 = true ∧
      any_int_red lineKit detNone none 1 0 60 0 0 (-1) (-1) () [true] false 0 0 0 = false) ∧
    (all_int_red lineKit detLos none 1 0 60 0 0 0 0 () [true] false 0 0 0 = true ∧
      any_int_red lineKit detLos none 1 0 60 0 0 0 0 () [true] false 0 0 0 = false) := by
  decide!

/-- C7 (amended): when `maxl ≥ 0` or `maxr ≥ 0`, and a loss of separation reported by a
detector (primary, and recovery when present) is a conflict over every window `[0, T']`,
`T' ≥ 0`, for that detector: if `all_int_red(dir = 0)` is true then `any_int_red(dir = 0)` is
true, on the same arguments. -/
theorem all_int_red_imp_any_int_red {V Own Ac : Type} (K : Kit V Own Ac)
    (conflict_det : Detection3D V) (recovery_det : Option (Detection3D V))
    (tstep B T B2 T2 : ℚ) (maxl maxr : Int) (ownship : Own) (traffic : List Ac)
    (repac : Ac) (epsh epsv : Int) (hmax : 0 ≤ maxl ∨ 0 ≤ maxr)
    (hcd : violation_is_conflict conflict_det)
    (hrd : ∀ d, recovery_det = some d → violation_is_conflict d)
    (h : all_int_red K conflict_det recovery_det tstep B T B2 T2 maxl maxr ownship traffic
      repac epsh epsv 0 = true) :
    any_int_red K conflict_det recovery_det tstep B T B2 T2 maxl maxr ownship traffic
      repac epsh epsv 0 = true := by
  unfold all_int_red at h
  simp only [gt_iff_lt, lt_self_iff_false, decide_False, Bool.false_or, Bool.and_eq_true,
    decide_eq_true_eq] at h
  unfold any_int_red
  simp only [le_refl, ge_iff_le, decide_True, Bool.true_and, Bool.or_eq_true]
  rcases hmax with hl | hr
  · exact Or.inl (red_band_exist_of_first_green_neg K conflict_det recovery_det tstep B T B2 T2
      false maxl ownship traffic repac epsh epsv hl hcd hrd h.1)
  · exact Or.inr (red_band_exist_of_first_green_neg K conflict_det recovery_det tstep B T B2 T2
      true maxr ownship traffic repac epsh epsv hr hcd hrd h.2)

theorem all_int_red_imp_any_int_red_witness :
    all_int_red lineKit detAll none 1 0 60 0 0 2 2 () [true] false 0 0 0 = true ∧
      any_int_red lineKit detAll none 1 0 60 0 0 2 2 () [true] false 0 0 0 = true :=
  ⟨by decide!,
   all_int_red_imp_any_int_red lineKit detAll none 1 0 60 0 0 2 2 () [true] false 0 0
    (Or.inl (by decide)) (fun _ _ _ _ _ _ h => by simp [detAll] at h)
    (fun d hd => by simp at hd) (by decide!)⟩

/-- C8: `first_green(trajdir, max)` returns the smallest `k` in `[0, max]` such that the sample
`k` is conflict-free and no step `j ≤ k` is forbidden; it returns `-1` exactly when a forbidden
step occurs at or before the first conflict-free step, or every step of `[0, max]` is in
conflict. Steps `0..2` in conflict and step `3` conflict-free with no forbidden step up to `3`
give `3`; steps `0, 1` in conflict and a failure of the active horizontal criterion at step `2`
give `-1`. -/
theorem first_green_smallest {V Own Ac : Type} (K : Kit V Own Ac)
    (conflict_det : Detection3D V) (recovery_det : Option (Detection3D V))
    (tstep B T B2 T2 : ℚ) (trajdir : Bool) (max : Int) (ownship : Own) (traffic : List Ac)
    (repac : Ac) (epsh epsv : Int) :
    ((∃ k, green_step K conflict_det recovery_det tstep B T B2 T2 trajdir max ownship traffic
          repac epsh epsv k) →
      green_step K conflict_det recovery_det tstep B T B2 T2 trajdir max ownship traffic repac
          epsh epsv
          (first_green K conflict_det recovery_det tstep B T B2 T2 trajdir max ownship traffic
            repac epsh epsv) ∧
        ∀ i, green_step K conflict_det recovery_det tstep B T B2 T2 trajdir max ownship traffic
            repac epsh epsv i →
          first_green K conflict_det recovery_det tstep B T B2 T2 trajdir max ownship traffic
            repac epsh epsv ≤ i) ∧
    (first_green K conflict_det recovery_det tstep B T B2 T2 trajdir max ownship traffic
          repac epsh epsv = -1 ↔
      (∃ j, 0 ≤ j ∧ j ≤ max ∧
          forbidden_step K conflict_det recovery_det tstep B T B2 T2 trajdir ownship traffic
            repac epsh epsv j ∧
          ∀ i, 0 ≤ i → i < j →
            ¬ conflict_free_step K conflict_det recovery_det tstep B T B2 T2 trajdir ownship
              traffic i) ∨
        (∀ k, 0 ≤ k → k ≤ max →
          ¬ conflict_free_step K conflict_det recovery_det tstep B T B2 T2 trajdir ownship
            traffic k)) ∧
    (3 ≤ max →
      (∀ j, 0 ≤ j → j ≤ 3 →
        ¬ forbidden_step K conflict_det recovery_det tstep B T B2 T2 trajdir ownship traffic
          repac epsh epsv j) →
      (∀ i, 0 ≤ i → i ≤ 2 →
        ¬ conflict_free_step K conflict_det recovery_det tstep B T B2 T2 trajdir ownship
          traffic i) →
      conflict_free_step K conflict_det recovery_det tstep B T B2 T2 trajdir ownship traffic 3 →
      first_green K conflict_det recovery_det tstep B T B2 T2 trajdir max ownship traffic
        repac epsh epsv = 3) ∧
    (2 ≤ max →
      (∀ i, 0 ≤ i → i ≤ 1 →
        ¬ conflict_free_step K conflict_det recovery_det tstep B T B2 T2 trajdir ownship
          traffic i) →
      K.isValid repac = true → epsh ≠ 0 →
      repulsive_at K tstep trajdir 2 ownship repac epsh = false →
      first_green K conflict_det recovery_det tstep B T B2 T2 trajdir max ownship traffic
        repac epsh epsv = -1) := by
  have hcases := first_green_cases K conflict_det recovery_det tstep B T B2 T2 trajdir max
    ownship traffic repac epsh epsv
  have hleast : (∃ k, green_step K conflict_det recovery_det tstep B T B2 T2 trajdir max ownship
        traffic repac epsh epsv k) →
      green_step K conflict_det recovery_det tstep B T B2 T2 trajdir max ownship traffic repac
          epsh epsv
          (first_green K conflict_det recovery_det tstep B T B2 T2 trajdir max ownship traffic
            repac epsh epsv) ∧
        ∀ i, green_step K conflict_det recovery_det tstep B T B2 T2 trajdir max ownship traffic
            repac epsh epsv i →
          first_green K conflict_det recovery_det tstep B T B2 T2 trajdir max ownship traffic
            repac epsh epsv ≤ i := by
    rintro ⟨k, hk0, hk1, hk2, hk3⟩
    rcases hcases with ⟨_, hA | hB⟩ | ⟨hg, hpre⟩
    · obtain ⟨j, hj0, _, hf, hprev⟩ := hA
      rcases le_or_lt j k with h | h
      · exact absurd hf (hk3 j hj0 h)
      · exact absurd hk2 (hprev k hk0 h).2
    · exact absurd hk2 (hB k hk0 hk1).2
    · refine ⟨hg, ?_⟩
      intro i hi
      by_contra hlt
      exact hpre i hi.1 (not_le.1 hlt) hi.2.2.1
  have hminus : first_green K conflict_det recovery_det tstep B T B2 T2 trajdir max ownship
        traffic repac epsh epsv = -1 ↔
      (∃ j, 0 ≤ j ∧ j ≤ max ∧
          forbidden_step K conflict_det recovery_det tstep B T B2 T2 trajdir ownship traffic
            repac epsh epsv j ∧
          ∀ i, 0 ≤ i → i < j →
            ¬ conflict_free_step K conflict_det recovery_det tstep B T B2 T2 trajdir ownship
              traffic i) ∨
        (∀ k, 0 ≤ k → k ≤ max →
          ¬ conflict_free_step K conflict_det recovery_det tstep B T B2 T2 trajdir ownship
            traffic k) := by
    constructor
    · intro h
      rcases hcases with ⟨_, hA | hB⟩ | ⟨hg, _⟩
      · obtain ⟨j, hj0, hj1, hf, hprev⟩ := hA
        exact Or.inl ⟨j, hj0, hj1, hf, fun i h0 h1 => (hprev i h0 h1).2⟩
      · exact Or.inr fun k h0 h1 => (hB k h0 h1).2
      · have := hg.1
        omega
    · intro h
      rcases hcases with ⟨h1, _⟩ | ⟨hg, hpre⟩
      · exact h1
      · obtain ⟨hg0, hg1, hg2, hg3⟩ := hg
        rcases h with ⟨j, hj0, hj1, hf, hprev⟩ | hB
        · rcases lt_or_le
            (first_green K conflict_det recovery_det tstep B T B2 T2 trajdir max ownship traffic
              repac epsh epsv) j with hlt | hle
          · exact absurd hg2 (hprev _ hg0 hlt)
          · exact absurd hf (hg3 j hj0 hle)
        · exact absurd hg2 (hB _ hg0 hg1)
  refine ⟨hleast, hminus, ?_, ?_⟩
  · intro hm hnf hnc hc3
    obtain ⟨hg, hmin⟩ := hleast ⟨3, by omega, hm, hc3, hnf⟩
    have h3 := hmin 3 ⟨by omega, hm, hc3, hnf⟩
    by_contra hne
    exact hnc _ hg.1 (by omega) hg.2.2.1
  · intro hm hnc hv he hr
    exact hminus.2 (Or.inl ⟨2, by omega, hm, Or.inr (Or.inr (Or.inl ⟨hv, he, hr⟩)),
      fun i h0 h1 => hnc i h0 (by omega)⟩)



theorem first_green_smallest_witness :
    first_green lineKit detS4 none 1 0 60 0 0 true 5 () [true] false 0 0 = 3 ∧
    first_green lineKitH detS4 none 1 0 60 0 0 true 5 () [true] true 1 0 = -1 :=
  ⟨(first_green_smallest lineKit detS4 none 1 0 60 0 0 true 5 () [true] false 0 0).2.2.1
      (by decide)
      (fun j _ _ => by simp [forbidden_step, any_los_aircraft, detS4, lineKit])
      (fun i h0 h1 => detS4_conflict lineKit (fun _ => rfl) i h0 h1)
      (by unfold conflict_free_step; decide!),
   (first_green_smallest lineKitH detS4 none 1 0 60 0 0 true 5 () [true] true 1 0).2.2.2
      (by decide)
      (fun i h0 h1 => detS4_conflict lineKitH (fun _ => rfl) i h0 (by omega))
      rfl (by decide) (by decide!)⟩

/-- C9 (as stated, refuted): `A` with `dcpa = 1`, `tcpa = 12` listed before `B` with
`dcpa = 1.000001`, `tcpa = 10`: both in conflict, `dcpa_A ≤ 1 < dcpa_B`, yet `B` is returned,
because the two `dcpa` are almost equal and `B` has the smaller `tcpa`. -/
theorem mostUrgentAircraft_regime_counterexample :
    in_conflict urgKit detPlane true 60 (intruder 12 1) = true ∧
    in_conflict urgKit detPlane true 60 (intruder 10 (1000001 / 1000000)) = true ∧
    dcpa_of urgKit true (intruder 12 1) ≤ 1 ∧
    1 < dcpa_of urgKit true (intruder 10 (1000001 / 1000000)) ∧
    mostUrgentAircraft urgKit detPlane true [intruder 12 1, intruder 10 (1000001 / 1000000)] 60
      = intruder 10 (1000001 / 1000000) ∧
    intruder 10 (1000001 / 1000000) ≠ intruder 12 1 := by
  refine ⟨by decide!, by decide!, by decide!, by decide!, by decide!, by decide!⟩

/-- C9 (amended): for a valid ownship and two valid intruders `A` and `B` both in conflict over
`[0, T]` with `dcpa_A ≤ 1 < dcpa_B`: `A` is returned when it is listed after `B`; when it is
listed before `B`, `A` is returned unless `dcpa_B` and `dcpa_A` are almost equal at precision 5
and `tcpa_B < tcpa_A`, in which case `B` is returned. -/
theorem mostUrgentAircraft_regime {V P Own Ac : Type} (U : UrgencyKit V P Own Ac)
    (detector : Detection3D V) (ownship : Own) (T : ℚ) (A B : Ac)
    (hown : U.ownValid ownship = true)
    (hA : U.isValid A = true) (hB : U.isValid B = true)
    (hcA : in_conflict U detector ownship T A = true)
    (hcB : in_conflict U detector ownship T B = true)
    (hdA : dcpa_of U ownship A ≤ 1) (hdB : 1 < dcpa_of U ownship B) :
    mostUrgentAircraft U detector ownship [B, A] T = A ∧
    mostUrgentAircraft U detector ownship [A, B] T =
      if U.almost_equals (dcpa_of U ownship B) (dcpa_of U ownship A) = true ∧
          tcpa_of U ownship B < tcpa_of U ownship A then B else A := by
  constructor
  · rw [mostUrgentAircraft_pair U detector ownship T B A hown hB hcB hcA]
    simp [hdA, hdB]
  · rw [mostUrgentAircraft_pair U detector ownship T A B hown hA hcA hcB]
    have h1 : ¬ dcpa_of U ownship B ≤ 1 := not_le.2 hdB
    have h2 : ¬ dcpa_of U ownship B < dcpa_of U ownship A := not_lt.2 (le_of_lt (lt_of_le_of_lt hdA hdB))
    simp only [h1, if_false]
    by_cases hae : U.almost_equals (dcpa_of U ownship B) (dcpa_of U ownship A) = true
    · by_cases ht : tcpa_of U ownship B < tcpa_of U ownship A
      · simp [hae, ht]
      · simp [hae, ht]
    · simp [hae, h2]

theorem mostUrgentAircraft_regime_witness :
    mostUrgentAircraft urgKit detPlane true [intruder 10 2, intruder 12 (1 / 2)] 60
      = intruder 12 (1 / 2) ∧
    mostUrgentAircraft urgKit detPlane true [intruder 12 (1 / 2), intruder 10 2] 60 =
      if urgKit.almost_equals (dcpa_of urgKit true (intruder 10 2))
            (dcpa_of urgKit true (intruder 12 (1 / 2))) = true ∧
          tcpa_of urgKit true (intruder 10 2) < tcpa_of urgKit true (intruder 12 (1 / 2))
      then intruder 10 2 else intruder 12 (1 / 2) :=
  mostUrgentAircraft_regime urgKit detPlane true 60 (intruder 12 (1 / 2)) (intruder 10 2)
    rfl rfl rfl rfl rfl (by decide!) (by decide!)

/-- C10 (as stated, refuted): (a) two intruders with `dcpa = 0.5` and `tcpa = 10.000001`,
`tcpa = 10`: the `tcpa` are almost equal, the first listed is kept although its `tcpa` is the
larger; (b) `dcpa_A = 1`, `tcpa_A = 12` listed after `dcpa_B = 1.000001`, `tcpa_B = 10`: the
`dcpa` are almost equal and `dcpa_A ≤ 1`, yet `A`, with the larger `tcpa`, is returned. -/
theorem mostUrgentAircraft_tie_counterexample :
    (almost_equals5 (1 / 2) (1 / 2) = true ∧
      mostUrgentAircraft urgKit detPlane true
        [intruder (10000001 / 1000000) (1 / 2), intruder 10 (1 / 2)] 60
        = intruder (10000001 / 1000000) (1 / 2) ∧
      tcpa_of urgKit true (intruder 10 (1 / 2))
        < tcpa_of urgKit true (intruder (10000001 / 1000000) (1 / 2))) ∧
    (almost_equals5 1 (1000001 / 1000000) = true ∧
      dcpa_of urgKit true (intruder 12 1) ≤ 1 ∧
      mostUrgentAircraft urgKit detPlane true
        [intruder 10 (1000001 / 1000000), intruder 12 1] 60 = intruder 12 1 ∧
      tcpa_of urgKit true (intruder 10 (1000001 / 1000000))
        < tcpa_of urgKit true (intruder 12 1)) := by
  refine ⟨⟨by decide!, by decide!, by decide!⟩, ⟨by decide!, by decide!, by decide!, by decide!⟩⟩

/-- C10 (amended): for a valid ownship and two valid intruders `A` and `B` both in conflict over
`[0, T]` with `dcpa_A ≤ 1` and `dcpa_B ≤ 1`, whose `tcpa` values are not almost equal at
precision 5, the intruder with the smaller `tcpa` is returned, in either list order (e.g.
`dcpa = 0.5, tcpa = 10` versus `dcpa = 0.5, tcpa = 12` selects the first). -/
theorem mostUrgentAircraft_tie {V P Own Ac : Type} (U : UrgencyKit V P Own Ac)
    (detector : Detection3D V) (ownship : Own) (T : ℚ) (A B : Ac)
    (hown : U.ownValid ownship = true)
    (hA : U.isValid A = true) (hB : U.isValid B = true)
    (hcA : in_conflict U detector ownship T A = true)
    (hcB : in_conflict U detector ownship T B = true)
    (hdA : dcpa_of U ownship A ≤ 1) (hdB : dcpa_of U ownship B ≤ 1)
    (hne1 : U.almost_equals (tcpa_of U ownship A) (tcpa_of U ownship B) = false)
    (hne2 : U.almost_equals (tcpa_of U ownship B) (tcpa_of U ownship A) = false)
    (ht : tcpa_of U ownship A < tcpa_of U ownship B) :
    mostUrgentAircraft U detector ownship [A, B] T = A ∧
    mostUrgentAircraft U detector ownship [B, A] T = A := by
  constructor
  · rw [mostUrgentAircraft_pair U detector ownship T A B hown hA hcA hcB]
    have h1 : ¬ dcpa_of U ownship A > 1 := not_lt.2 hdA
    have h2 : ¬ tcpa_of U ownship B < tcpa_of U ownship A := not_lt.2 (le_of_lt ht)
    simp [hdB, h1, hne2, h2]
  · rw [mostUrgentAircraft_pair U detector ownship T B A hown hB hcB hcA]
    simp [hdA, hne1, ht]

theorem mostUrgentAircraft_tie_witness :
    mostUrgentAircraft urgKit detPlane true [intruder 10 (1 / 2), intruder 12 (1 / 2)] 60
      = intruder 10 (1 / 2) ∧
    mostUrgentAircraft urgKit detPlane true [intruder 12 (1 / 2), intruder 10 (1 / 2)] 60
      = intruder 10 (1 / 2) :=
  mostUrgentAircraft_tie urgKit detPlane true 60 (intruder 10 (1 / 2)) (intruder 12 (1 / 2))
    rfl rfl rfl rfl rfl (by decide!) (by decide!) (by decide!) (by decide!) (by decide!)

/-- C11 (as stated, refuted): `A` with `dcpa = 1.000001`, `tcpa = 10` listed before `B` with
`dcpa = 1`, `tcpa = 12`: both in conflict, the two `dcpa` almost equal, `dcpa_A > 1`, yet `B`,
with the larger `tcpa`, is returned, because `dcpa_B ≤ 1` while the winner's `dcpa` is above
`1`. -/
theorem mostUrgentAircraft_dcpa_tie_counterexample :
    in_conflict urgKit detPlane true 60 (intruder 10 (1000001 / 1000000)) = true ∧
    in_conflict urgKit detPlane true 60 (intruder 12 1) = true ∧
    almost_equals5 (dcpa_of urgKit true (intruder 10 (1000001 / 1000000)))
      (dcpa_of urgKit true (intruder 12 1)) = true ∧
    almost_equals5 (dcpa_of urgKit true (intruder 12 1))
      (dcpa_of urgKit true (intruder 10 (1000001 / 1000000))) = true ∧
    dcpa_of urgKit true (intruder 10 (1000001 / 1000000)) > 1 ∧
    tcpa_of urgKit true (intruder 10 (1000001 / 1000000))
      < tcpa_of urgKit true (intruder 12 1) ∧
    mostUrgentAircraft urgKit detPlane true [intruder 10 (1000001 / 1000000), intruder 12 1] 60
      = intruder 12 1 ∧
    intruder 12 1 ≠ intruder 10 (1000001 / 1000000) := by
  refine ⟨by decide!, by decide!, by decide!, by decide!, by decide!, by decide!, by decide!,
    by decide!⟩

/-- C11 (amended): for a valid ownship and two valid intruders `A` and `B` both in conflict over
`[0, T]` whose `dcpa` values are equal at precision 5 with `dcpa_A > 1` and `dcpa_B > 1`: the
intruder with the smaller `tcpa` is returned, in either list order. -/
theorem mostUrgentAircraft_dcpa_tie {V P Own Ac : Type} (U : UrgencyKit V P Own Ac)
    (detector : Detection3D V) (ownship : Own) (T : ℚ) (A B : Ac)
    (hown : U.ownValid ownship = true)
    (hA : U.isValid A = true) (hB : U.isValid B = true)
    (hcA : in_conflict U detector ownship T A = true)
    (hcB : in_conflict U detector ownship T B = true)
    (hdA : 1 < dcpa_of U ownship A) (hdB : 1 < dcpa_of U ownship B)
    (he1 : U.almost_equals (dcpa_of U ownship A) (dcpa_of U ownship B) = true)
    (he2 : U.almost_equals (dcpa_of U ownship B) (dcpa_of U ownship A) = true)
    (ht : tcpa_of U ownship A < tcpa_of U ownship B) :
    mostUrgentAircraft U detector ownship [A, B] T = A ∧
    mostUrgentAircraft U detector ownship [B, A] T = A := by
  have h1 : ¬ dcpa_of U ownship A ≤ 1 := not_le.2 hdA
  have h2 : ¬ dcpa_of U ownship B ≤ 1 := not_le.2 hdB
  constructor
  · rw [mostUrgentAircraft_pair U detector ownship T A B hown hA hcA hcB]
    have h3 : ¬ tcpa_of U ownship B < tcpa_of U ownship A := not_lt.2 (le_of_lt ht)
    simp [h2, he2, h3]
  · rw [mostUrgentAircraft_pair U detector ownship T B A hown hB hcB hcA]
    simp [h1, he1, ht]

theorem mostUrgentAircraft_dcpa_tie_witness :
    mostUrgentAircraft urgKit detPlane true [intruder 10 2, intruder 12 2] 60
      = intruder 10 2 ∧
    mostUrgentAircraft urgKit detPlane true [intruder 12 2, intruder 10 2] 60
      = intruder 10 2 :=
  mostUrgentAircraft_dcpa_tie urgKit detPlane true 60 (intruder 10 2) (intruder 12 2)
    rfl rfl rfl rfl rfl (by decide!) (by decide!) (by decide!) (by decide!) (by decide!)

/-- C12: `mostUrgentAircraft` returns the `INVALID` sentinel whenever the ownship is invalid, the
traffic list is empty, or no intruder of the list is in conflict over `[0, T]`; in every other
case the returned state is an element of the traffic list for which the detector reports a
conflict over `[0, T]`. -/
theorem mostUrgentAircraft_sentinel {V P Own Ac : Type} (U : UrgencyKit V P Own Ac)
    (detector : Detection3D V) (ownship : Own) (traffic : List Ac) (T : ℚ) :
    ((U.ownValid ownship = false ∨ traffic = [] ∨
        ∀ ac ∈ traffic, in_conflict U detector ownship T ac = false) →
      mostUrgentAircraft U detector ownship traffic T = U.INVALID) ∧
    (¬ (U.ownValid ownship = false ∨ traffic = [] ∨
        ∀ ac ∈ traffic, in_conflict U detector ownship T ac = false) →
      mostUrgentAircraft U detector ownship traffic T ∈ traffic ∧
        in_conflict U detector ownship T (mostUrgentAircraft U detector ownship traffic T)
          = true) := by
  constructor
  · intro h
    unfold mostUrgentAircraft
    by_cases hg : (!U.ownValid ownship || traffic.isEmpty) = true
    · rw [if_pos hg]
    · rw [if_neg hg]
      rcases h with h | h | h
      · simp [h] at hg
      · simp [h] at hg
      · simp only
        rw [urgent_foldl_keep U detector ownship T traffic _ h]
  · intro h
    have hown : U.ownValid ownship = true := by
      by_contra hne
      exact h (Or.inl (by simpa using hne))
    have hne : traffic ≠ [] := fun he => h (Or.inr (Or.inl he))
    have hex : ∃ ac ∈ traffic, in_conflict U detector ownship T ac = true := by
      by_contra hno
      apply h
      right
      right
      intro ac hac
      by_contra hc
      exact hno ⟨ac, hac, by simpa using hc⟩
    unfold mostUrgentAircraft
    have hg : ¬ (!U.ownValid ownship || traffic.isEmpty) = true := by
      simp [hown, hne]
    rw [if_neg hg]
    exact urgent_foldl_first U detector ownship T traffic traffic _ (fun _ h => h)
      U.INVALID_isValid hex

theorem mostUrgentAircraft_sentinel_witness :
    mostUrgentAircraft urgKit detPlane false [intruder 10 2] 60 = urgKit.INVALID ∧
    (mostUrgentAircraft urgKit detPlane true [intruder 10 2, intruder 12 (1 / 2)] 60
        ∈ [intruder 10 2, intruder 12 (1 / 2)] ∧
      in_conflict urgKit detPlane true 60
        (mostUrgentAircraft urgKit detPlane true [intruder 10 2, intruder 12 (1 / 2)] 60)
        = true) :=
  ⟨(mostUrgentAircraft_sentinel urgKit detPlane false [intruder 10 2] 60).1 (Or.inl rfl),
   (mostUrgentAircraft_sentinel urgKit detPlane true [intruder 10 2, intruder 12 (1 / 2)] 60).2
    (by decide!)⟩

/-- C13: when `repac` is invalid, whatever `epsh` and `epsv`, `bands_search_index` returns the
value of `first_los_search_index` on the same arguments. -/
theorem bands_search_index_invalid_repac {V Own Ac : Type} (K : Kit V Own Ac)
    (conflict_det : Detection3D V) (recovery_det : Option (Detection3D V))
    (tstep B T B2 T2 : ℚ) (trajdir : Bool) (max : Int) (ownship : Own) (traffic : List Ac)
    (repac : Ac) (epsh epsv : Int) (h : K.isValid repac = false) :
    bands_search_index K conflict_det recovery_det tstep B T B2 T2 trajdir max ownship traffic
        repac epsh epsv =
      first_los_search_index K conflict_det recovery_det tstep B T B2 T2 trajdir max ownship
        traffic :=
  bands_search_index_of_no_crit K conflict_det recovery_det tstep B T B2 T2 trajdir max ownship
    traffic repac epsh epsv (by simp [h]) (by simp [h])

theorem bands_search_index_invalid_repac_witness :
    bands_search_index lineKitH detS4 none 1 0 60 0 0 true 5 () [true] false 1 1 =
      first_los_search_index lineKitH detS4 none 1 0 60 0 0 true 5 () [true] :=
  bands_search_index_invalid_repac lineKitH detS4 none 1 0 60 0 0 true 5 () [true] false 1 1 rfl

/-- C15: the in-place swap loop of `neg` is equivalent to the reference definition: for every
interval list `L` (empty, of odd or of even length), `neg` leaves `L` equal to the reverse of
`L` with each interval `[lb, ub]` replaced by `[-ub, -lb]`; consequently, when `L` is in
ascending order (each interval ends before the next one starts) with `lb ≤ ub`, `neg(L)` is
again in ascending order with `lb ≤ ub`. -/
theorem neg_eq_reference (L : List Integerval) :
    neg L = neg_reference L ∧
    ((∀ a ∈ L, a.lb ≤ a.ub) → L.Chain' (fun a b => a.ub < b.lb) →
      (∀ a ∈ neg L, a.lb ≤ a.ub) ∧ (neg L).Chain' (fun a b => a.ub < b.lb)) := by
  have h : neg L = neg_reference L := neg_eq_reverse_map L
  refine ⟨h, ?_⟩
  intro hw hc
  rw [h]
  unfold neg_reference
  constructor
  · intro a ha
    obtain ⟨b, hb, rfl⟩ := List.mem_map.1 ha
    have := hw b (List.mem_reverse.1 hb)
    simp only
    omega
  · rw [List.chain'_map, List.chain'_reverse]
    apply hc.imp
    intro a b hab
    simp only [flip]
    omega

theorem neg_eq_reference_witness :
    neg [⟨0, 2⟩, ⟨4, 5⟩, ⟨8, 8⟩] = [⟨-8, -8⟩, ⟨-5, -4⟩, ⟨-2, 0⟩] ∧
    ((∀ a ∈ neg [(⟨0, 2⟩ : Integerval), ⟨4, 5⟩, ⟨8, 8⟩], a.lb ≤ a.ub) ∧
      (neg [(⟨0, 2⟩ : Integerval), ⟨4, 5⟩, ⟨8, 8⟩]).Chain' (fun a b => a.ub < b.lb)) :=
  ⟨(neg_eq_reference [⟨0, 2⟩, ⟨4, 5⟩, ⟨8, 8⟩]).1.trans (by decide),
   (neg_eq_reference [⟨0, 2⟩, ⟨4, 5⟩, ⟨8, 8⟩]).2 (by decide) (by simp)⟩

/-- C17 (as stated, refuted): in a world whose criteria hold exactly while the relative position
is below `1`, the criterion at the initial step is true, yet `repulsive_at` and `vert_repul_at`
are false at `k = 1`, because the three criteria at the sample `1` fail. -/
theorem repulsive_at_one_counterexample :
    (initial_horizontal lineKitG 1 true () true 1 = true ∧
      repulsive_at lineKitG 1 true 1 () true 1 = false) ∧
    (initial_vertical lineKitG 1 true () true 1 = true ∧
      vert_repul_at lineKitG 1 true 1 () true 1 = false) := by
  decide!

/-- C17 (amended): for `k = 1`, `repulsive_at(tstep, trajdir, 1, ownship, repac, epsh)` is true
exactly when `horizontal_new_repulsive_criterion(so - si, vo, vi, linvel(0), epsh)` is true and
the three criteria at the sample `1` are true, i.e. on `st = sot - si(tstep)` the pairs
`(linvel(0), vot)`, `(vot, linvel(1))` and `(linvel(0), linvel(1))`; the same holds for
`vert_repul_at` with the vertical criterion and `epsv`. -/
theorem repulsive_at_one {V Own Ac : Type} (K : Kit V Own Ac) (tstep : ℚ) (trajdir : Bool)
    (ownship : Own) (repac : Ac) (epsh epsv : Int) :
    repulsive_at K tstep trajdir 1 ownship repac epsh =
      (initial_horizontal K tstep trajdir ownship repac epsh &&
        sandwich_horizontal K tstep trajdir 1 ownship repac epsh) ∧
    vert_repul_at K tstep trajdir 1 ownship repac epsv =
      (initial_vertical K tstep trajdir ownship repac epsv &&
        sandwich_vertical K tstep trajdir 1 ownship repac epsv) := by
  constructor
  · unfold repulsive_at initial_horizontal sandwich_horizontal
    simp only [one_ne_zero, if_false, if_true]
    cases K.horizontal_new_repulsive_criterion
      (K.Sub (K.trajectory ownship 0 trajdir).1 (K.traffic_s ownship repac))
      (K.trajectory ownship 0 trajdir).2 (K.traffic_v ownship repac)
      (linvel K ownship tstep trajdir 0) epsh <;> simp
  · unfold vert_repul_at initial_vertical sandwich_vertical
    simp only [one_ne_zero, if_false, if_true]
    cases K.vertical_new_repulsive_criterion
      (K.Sub (K.trajectory ownship 0 trajdir).1 (K.traffic_s ownship repac))
      (K.trajectory ownship 0 trajdir).2 (K.traffic_v ownship repac)
      (linvel K ownship tstep trajdir 0) epsv <;> simp

/-- C19: exact content of the combined list, for every input: a signed integer `k` is covered by
some interval of `kinematic_bands_combine(maxl, maxr)` if and only if either `k ≤ 0`,
`-k < bands_search_index(left, maxl)` and `any_conflict` is false at the left sample
`tstep * (-k)`, or `k ≥ 0`, `k < bands_search_index(right, maxr)` and `any_conflict` is false at
the right sample `tstep * k`. -/
theorem kinematic_bands_combine_content {V Own Ac : Type} (K : Kit V Own Ac)
    (conflict_det : Detection3D V) (recovery_det : Option (Detection3D V))
    (tstep B T B2 T2 : ℚ) (maxl maxr : Int) (ownship : Own) (traffic : List Ac)
    (repac : Ac) (epsh epsv : Int) (k : Int) :
    covers (kinematic_bands_combine K conflict_det recovery_det tstep B T B2 T2 maxl maxr ownship
        traffic repac epsh epsv) k ↔
      (k ≤ 0 ∧
        -k < bands_search_index K conflict_det recovery_det tstep B T B2 T2 false maxl ownship
          traffic repac epsh epsv ∧
        any_conflict K conflict_det recovery_det B T B2 T2 false (tstep * ((-k : Int) : ℚ))
          ownship traffic = false) ∨
      (0 ≤ k ∧
        k < bands_search_index K conflict_det recovery_det tstep B T B2 T2 true maxr ownship
          traffic repac epsh epsv ∧
        any_conflict K conflict_det recovery_det B T B2 T2 true (tstep * (k : ℚ))
          ownship traffic = false) := by
  rw [covers_kinematic_bands_combine, covers_kinematic_bands, covers_kinematic_bands]
  have e : (0 ≤ -k) ↔ k ≤ 0 := by omega
  rw [e]

/-- C16: for `tstep > 0`, `0 ≤ B`, `0 ≤ B2` and `max ≥ 0`, `bands_search_index` returns the first
index that is forbidden or breaks repulsion: the smallest `k` of `[0, max]` with a loss of
separation at `k` under the primary detector and `⌈B / tstep⌉ ≤ k ≤ ⌊T / tstep⌋`, or under the
recovery detector (when present) and `⌈B2 / tstep⌉ ≤ k ≤ ⌊T2 / tstep⌋`, or an active horizontal
or vertical repulsion predicate false at `k`; and it returns `max + 1` when there is no such
`k`. The staged computation equals this one-shot minimum. -/
theorem bands_search_index_first_problem {V Own Ac : Type} (K : Kit V Own Ac)
    (conflict_det : Detection3D V) (recovery_det : Option (Detection3D V))
    (tstep B T B2 T2 : ℚ) (trajdir : Bool) (max : Int) (ownship : Own) (traffic : List Ac)
    (repac : Ac) (epsh epsv : Int)
    (ht : 0 < tstep) (hB : 0 ≤ B) (hB2 : 0 ≤ B2) (hmax : 0 ≤ max) :
    ((∃ k, 0 ≤ k ∧ k ≤ max ∧
        problem_step K conflict_det recovery_det tstep B T B2 T2 trajdir ownship traffic repac
          epsh epsv k) →
      0 ≤ bands_search_index K conflict_det recovery_det tstep B T B2 T2 trajdir max ownship
          traffic repac epsh epsv ∧
        bands_search_index K conflict_det recovery_det tstep B T B2 T2 trajdir max ownship
          traffic repac epsh epsv ≤ max ∧
        problem_step K conflict_det recovery_det tstep B T B2 T2 trajdir ownship traffic repac
          epsh epsv
          (bands_search_index K conflict_det recovery_det tstep B T B2 T2 trajdir max ownship
            traffic repac epsh epsv) ∧
        ∀ j, 0 ≤ j →
          j < bands_search_index K conflict_det recovery_det tstep B T B2 T2 trajdir max ownship
            traffic repac epsh epsv →
          ¬ problem_step K conflict_det recovery_det tstep B T B2 T2 trajdir ownship traffic
            repac epsh epsv j) ∧
    ((¬ ∃ k, 0 ≤ k ∧ k ≤ max ∧
        problem_step K conflict_det recovery_det tstep B T B2 T2 trajdir ownship traffic repac
          epsh epsv k) →
      bands_search_index K conflict_det recovery_det tstep B T B2 T2 trajdir max ownship
        traffic repac epsh epsv = max + 1) := by
  obtain ⟨h1, h2, h3, h4⟩ := bands_search_index_least K conflict_det recovery_det tstep B T B2 T2
    trajdir max ownship traffic repac epsh epsv ht hB hB2 hmax
  constructor
  · rintro ⟨k, hk0, hk1, hk⟩
    have hle : bands_search_index K conflict_det recovery_det tstep B T B2 T2 trajdir max ownship
        traffic repac epsh epsv ≤ max := by
      by_contra hgt
      exact h3 k hk0 (by omega) hk
    exact ⟨h1, hle, h4 hle, h3⟩
  · intro hno
    by_contra hne
    have hle : bands_search_index K conflict_det recovery_det tstep B T B2 T2 trajdir max ownship
        traffic repac epsh epsv ≤ max := by omega
    exact hno ⟨_, h1, hle, h4 hle⟩

theorem bands_search_index_first_problem_witness :
    0 ≤ bands_search_index lineKitH detS4 none 1 0 60 0 0 true 5 () [true] true 1 0 ∧
      bands_search_index lineKitH detS4 none 1 0 60 0 0 true 5 () [true] true 1 0 ≤ 5 ∧
      problem_step lineKitH detS4 none 1 0 60 0 0 true () [true] true 1 0
        (bands_search_index lineKitH detS4 none 1 0 60 0 0 true 5 () [true] true 1 0) ∧
      ∀ j, 0 ≤ j →
        j < bands_search_index lineKitH detS4 none 1 0 60 0 0 true 5 () [true] true 1 0 →
        ¬ problem_step lineKitH detS4 none 1 0 60 0 0 true () [true] true 1 0 j :=
  (bands_search_index_first_problem lineKitH detS4 none 1 0 60 0 0 true 5 () [true] true 1 0
    (by norm_num) (le_refl _) (le_refl _) (by decide)).1
    ⟨2, by decide, by decide, Or.inr (Or.inr (Or.inl ⟨rfl, by decide, by decide!⟩))⟩

/-- C18: the boolean query and the band producer agree on each side: for `tstep > 0`, `0 ≤ B`,
`0 ≤ B2`, `first_green(trajdir, max) ≥ 0` if and only if the list produced by
`kinematic_bands(trajdir, max)` is not empty, and then `first_green` is the lower bound of the
first interval of that list; hence `all_int_red(dir = 0)` is true exactly when
`kinematic_bands_combine` returns the empty list. -/
theorem first_green_agrees_with_bands {V Own Ac : Type} (K : Kit V Own Ac)
    (conflict_det : Detection3D V) (recovery_det : Option (Detection3D V))
    (tstep B T B2 T2 : ℚ) (trajdir : Bool) (max maxl maxr : Int) (ownship : Own)
    (traffic : List Ac) (repac : Ac) (epsh epsv : Int)
    (ht : 0 < tstep) (hB : 0 ≤ B) (hB2 : 0 ≤ B2) :
    (0 ≤ first_green K conflict_det recovery_det tstep B T B2 T2 trajdir max ownship traffic
          repac epsh epsv ↔
        kinematic_bands K conflict_det recovery_det tstep B T B2 T2 trajdir max ownship traffic
          repac epsh epsv ≠ []) ∧
    (∀ (a : Integerval) (t : List Integerval),
      kinematic_bands K conflict_det recovery_det tstep B T B2 T2 trajdir max ownship traffic
          repac epsh epsv = a :: t →
        first_green K conflict_det recovery_det tstep B T B2 T2 trajdir max ownship traffic
          repac epsh epsv = a.lb) ∧
    (all_int_red K conflict_det recovery_det tstep B T B2 T2 maxl maxr ownship traffic repac
          epsh epsv 0 = true ↔
        kinematic_bands_combine K conflict_det recovery_det tstep B T B2 T2 maxl maxr ownship
          traffic repac epsh epsv = []) := by
  have hside := first_green_side K conflict_det recovery_det tstep B T B2 T2 trajdir max ownship
    traffic repac epsh epsv ht hB hB2
  refine ⟨hside.1, hside.2, ?_⟩
  have hl := (first_green_side K conflict_det recovery_det tstep B T B2 T2 false maxl ownship
    traffic repac epsh epsv ht hB hB2).1
  have hr := (first_green_side K conflict_det recovery_det tstep B T B2 T2 true maxr ownship
    traffic repac epsh epsv ht hB hB2).1
  rw [kinematic_bands_combine_eq_nil_iff]
  unfold all_int_red
  simp only [gt_iff_lt, lt_self_iff_false, decide_False, Bool.false_or, Bool.and_eq_true,
    decide_eq_true_eq]
  constructor
  · rintro ⟨h1, h2⟩
    constructor
    · by_contra hne
      have := hl.2 hne
      omega
    · by_contra hne
      have := hr.2 hne
      omega
  · rintro ⟨h1, h2⟩
    constructor
    · by_contra hge
      exact hl.1 (not_lt.1 hge) h1
    · by_contra hge
      exact hr.1 (not_lt.1 hge) h2

theorem first_green_agrees_with_bands_witness :
    first_green lineKit detS4 none 1 0 60 0 0 true 5 () [true] false 0 0
        = (⟨3, 5⟩ : Integerval).lb ∧
      (all_int_red lineKit detS4 none 1 0 60 0 0 5 5 () [true] false 0 0 0 = true ↔
        kinematic_bands_combine lineKit detS4 none 1 0 60 0 0 5 5 () [true] false 0 0 = []) :=
  ⟨(first_green_agrees_with_bands lineKit detS4 none 1 0 60 0 0 true 5 5 5 () [true] false 0 0
      (by norm_num) (le_refl _) (le_refl _)).2.1 ⟨3, 5⟩ [] (by decide!),
   (first_green_agrees_with_bands lineKit detS4 none 1 0 60 0 0 true 5 5 5 () [true] false 0 0
      (by norm_num) (le_refl _) (le_refl _)).2.2⟩

/-- C14 (as stated, refuted), over the reals with the real `π`: (a) `L = [[-8, -5]]`, `scal = 1`,
`add = 0`, of projected length `3 < 2π`, lies wholly below `0` and contains `-2π`; the single
pair inserted is `(4π - 8, 2π - 5)`, whose lower end is above its upper end, and the total
length is not `3`; (b) `L = [[1, 2]]`, `scal = -1`, `add = 4` inserts the pair `(3, 2)`. -/
theorem toIntervalSet_0_2PI_counterexample :
    (toIntervalSet_0_2PI Real.pi [⟨-8, -5⟩] 1 0 = [(4 * Real.pi - 8, 2 * Real.pi - 5)] ∧
      ¬ (4 * Real.pi - 8 ≤ 2 * Real.pi - 5) ∧
      projected_length [⟨-8, -5⟩] (1 : ℝ) 0 = 3 ∧ (3 : ℝ) < 2 * Real.pi ∧
      total_length (toIntervalSet_0_2PI Real.pi [⟨-8, -5⟩] 1 0) ≠ 3) ∧
    (toIntervalSet_0_2PI Real.pi [⟨1, 2⟩] (-1) 4 = [((3 : ℝ), (2 : ℝ))] ∧ ¬ ((3 : ℝ) ≤ 2)) := by
  have h3 := Real.pi_gt_three
  have h4 := Real.pi_lt_four
  have e8 : to_2pi Real.pi (-8 : ℝ) = 4 * Real.pi - 8 := by
    rw [to_2pi_of_window Real.pi Real.pi_pos (-2) (-8) (by push_cast; linarith)
      (by push_cast; linarith)]
    push_cast
    ring
  have e5 : to_2pi Real.pi (-5 : ℝ) = 2 * Real.pi - 5 := by
    rw [to_2pi_of_window Real.pi Real.pi_pos (-1) (-5) (by push_cast; linarith)
      (by push_cast; linarith)]
    push_cast
    ring
  have ha : toIntervalSet_0_2PI Real.pi [⟨-8, -5⟩] 1 0
      = [(4 * Real.pi - 8, 2 * Real.pi - 5)] := by
    simp [toIntervalSet_0_2PI, toIntervalSet_0_2PI_step, e8, e5]
  have hb : toIntervalSet_0_2PI Real.pi [⟨1, 2⟩] (-1) 4 = [((3 : ℝ), (2 : ℝ))] := by
    have e1 : (-1 : ℝ) * (((1 : Int) : ℝ)) + 4 = 3 := by norm_num
    have e2 : (-1 : ℝ) * (((2 : Int) : ℝ)) + 4 = 2 := by norm_num
    have c : (0 : ℝ) ≤ 3 ∧ (2 : ℝ) ≤ 2 * Real.pi := ⟨by norm_num, by linarith⟩
    simp only [toIntervalSet_0_2PI, toIntervalSet_0_2PI_step, List.append_nil, e1, e2]
    rw [if_pos c]
  refine ⟨⟨ha, by linarith, ?_, by linarith, ?_⟩, hb, by norm_num⟩
  · simp [projected_length]
    norm_num
  · rw [ha]
    simp only [total_length, List.map_cons, List.map_nil, List.sum_cons, List.sum_nil]
    intro h
    linarith

/-- C14 (amended): for every interval list `L` and every `scal`, `add`, in every ordered field
with a floor and a positive `π` (so over the reals with the real `π`), with
`to_2pi x = x mod 2π` in `[0, 2π)` and `[lb', ub'] = [scal * lb + add, scal * ub + add]` the
projection of an interval of `L`:
(a) every pair that `toIntervalSet_0_2PI` inserts is a well-formed sub-interval of `[0, 2π]`
(`0 ≤ lo ≤ hi ≤ 2π`) exactly when every projected interval inside `[0, 2π]` has `lb' ≤ ub'` and
every projected interval wholly below `0` or wholly above `2π` has `to_2pi lb' ≤ to_2pi ub'`;
(b) so every inserted pair is well-formed when no projected interval is reversed and none of
those wholly below `0` or wholly above `2π` holds a multiple of `2π` in `(lb', ub']`;
(c) when no projected interval is reversed and the projected input has total length `< 2π`,
the inserted pairs have the same total length exactly when no projected interval wholly below
`0` or wholly above `2π` holds a multiple of `2π` in `(lb', ub']`;
(d) for any input, reversed intervals or not, the inserted pairs have the same total length
as the projected input whenever no projected interval wholly below `0` or wholly above `2π`
holds a multiple of `2π` between its two ends and every projected interval that straddles `0`
or `2π` is shorter than `2π`;
(e) when `1 ≤ π`, `L = [[-1, 2]]`, `scal = 1`, `add = 0` inserts exactly `[2π - 1, 2π]` and
`[0, 2]`. -/
theorem toIntervalSet_0_2PI_wrap {F : Type} [LinearOrderedField F] [FloorRing F] (Pi : F)
    (hPi : 0 < Pi) (l : List Integerval) (scal add : F) :
    ((∀ p ∈ toIntervalSet_0_2PI Pi l scal add, 0 ≤ p.1 ∧ p.1 ≤ p.2 ∧ p.2 ≤ 2 * Pi) ↔
      ∀ ii ∈ l,
        (0 ≤ proj_lb scal add ii ∧ proj_ub scal add ii ≤ 2 * Pi →
          proj_lb scal add ii ≤ proj_ub scal add ii) ∧
        (wholly_outside Pi (proj_lb scal add ii) (proj_ub scal add ii) →
          to_2pi Pi (proj_lb scal add ii) ≤ to_2pi Pi (proj_ub scal add ii))) ∧
    ((∀ ii ∈ l, proj_lb scal add ii ≤ proj_ub scal add ii ∧
        (wholly_outside Pi (proj_lb scal add ii) (proj_ub scal add ii) →
          ¬ holds_multiple Pi (proj_lb scal add ii) (proj_ub scal add ii))) →
      ∀ p ∈ toIntervalSet_0_2PI Pi l scal add, 0 ≤ p.1 ∧ p.1 ≤ p.2 ∧ p.2 ≤ 2 * Pi) ∧
    ((∀ ii ∈ l, proj_lb scal add ii ≤ proj_ub scal add ii) →
      projected_length l scal add < 2 * Pi →
      (total_length (toIntervalSet_0_2PI Pi l scal add) = projected_length l scal add ↔
        ∀ ii ∈ l, wholly_outside Pi (proj_lb scal add ii) (proj_ub scal add ii) →
          ¬ holds_multiple Pi (proj_lb scal add ii) (proj_ub scal add ii))) ∧
    ((∀ ii ∈ l,
        (wholly_outside Pi (proj_lb scal add ii) (proj_ub scal add ii) →
          ¬ holds_multiple Pi (min (proj_lb scal add ii) (proj_ub scal add ii))
            (max (proj_lb scal add ii) (proj_ub scal add ii))) ∧
        (straddles Pi (proj_lb scal add ii) (proj_ub scal add ii) →
          proj_ub scal add ii - proj_lb scal add ii < 2 * Pi)) →
      total_length (toIntervalSet_0_2PI Pi l scal add) = projected_length l scal add) ∧
    (1 ≤ Pi → toIntervalSet_0_2PI Pi [⟨-1, 2⟩] 1 0 = [(2 * Pi - 1, 2 * Pi), (0, 2)]) := by
  refine ⟨toIntervalSet_0_2PI_well_formed_iff Pi hPi l scal add, fun h => ?_,
    fun hab hlen => (toIntervalSet_0_2PI_length Pi hPi l scal add hab hlen).2,
    toIntervalSet_0_2PI_same_length Pi hPi l scal add, toIntervalSet_0_2PI_example Pi⟩
  refine (toIntervalSet_0_2PI_well_formed_iff Pi hPi l scal add).2 fun ii hii => ?_
  obtain ⟨hab, hm⟩ := h ii hii
  exact ⟨fun _ => hab, fun ho => (to_2pi_le_of_no_multiple Pi hPi _ _ hab (hm ho)).1⟩

theorem toIntervalSet_0_2PI_wrap_witness :
    (0 : ℝ) < Real.pi ∧
    projected_length [⟨-1, 2⟩, ⟨13, 14⟩] (1 : ℝ) 0 < 2 * Real.pi ∧
    (∀ p ∈ toIntervalSet_0_2PI Real.pi [⟨-1, 2⟩, ⟨13, 14⟩] 1 0,
      0 ≤ p.1 ∧ p.1 ≤ p.2 ∧ p.2 ≤ 2 * Real.pi) ∧
    total_length (toIntervalSet_0_2PI Real.pi [⟨-1, 2⟩, ⟨13, 14⟩] 1 0)
      = projected_length [⟨-1, 2⟩, ⟨13, 14⟩] (1 : ℝ) 0 :=
  have hlen : projected_length [⟨-1, 2⟩, ⟨13, 14⟩] (1 : ℝ) 0 < 2 * Real.pi := by
    rw [projected_sample_length]
    linarith [Real.pi_gt_three]
  ⟨Real.pi_pos, hlen,
    (toIntervalSet_0_2PI_wrap Real.pi Real.pi_pos [⟨-1, 2⟩, ⟨13, 14⟩] 1 0).2.1
      projected_sample_ok,
    ((toIntervalSet_0_2PI_wrap Real.pi Real.pi_pos [⟨-1, 2⟩, ⟨13, 14⟩] 1 0).2.2.1
      (fun ii hii => (projected_sample_ok ii hii).1) hlen).2
      fun ii hii => (projected_sample_ok ii hii).2⟩

end WellClear
